import Mathlib

/-!
# LATTICE-PoW: a shallow embedding of `hash.h` / `hash.cpp`

Conventions of the embedding.

* `uint8_t` is `Byte = Fin 256`; `uint32_t` values are natural numbers, and every
  unsigned 32-bit addition or multiplication of the source is followed by an explicit
  `% 2 ^ 32`.
* `int`, `int32_t` and `int64_t` values are integers.  Signed 64-bit additions and
  multiplications are *checked*: `addInt64` / `mulInt64` return `none` when the exact
  result leaves `[INT64_MIN, INT64_MAX]` (signed overflow has no defined result in C++),
  so a function that returns `some r` performed no overflowing signed operation.
* `std::array<uint32_t, 8>` is `Fin 8 → Nat`, the 8x8 matrix is `Fin 8 → Fin 8 → Nat`,
  a 64-byte sponge output is `Fin 64 → Byte`, a `uint256` is `Fin 32 → Byte` (its 32
  bytes in memory order, the order `begin()` exposes).
* A `for` loop over `0 .. n-1` is `forLoop n body init` (a left fold over the indices
  in increasing order); when the body performs checked arithmetic it is `forLoopM`.
* The sponge primitive (`sph_keccac512_init` / `sph_keccac512` / `sph_keccac512_close`
  in the source) is not part of the repository's code under study; it is a parameter
  `H : List Byte → Fin 64 → Byte` giving the 64 output bytes for the absorbed bytes, and
  the three calls are modelled on a context that records the bytes absorbed so far.
* `uint64_t` values are natural numbers, and every 64-bit addition or left shift of the
  SipHash code is followed by an explicit `% 2 ^ 64`.  The `int` byte counter of
  `CSipHasher` is checked like the 64-bit arithmetic: `checkInt` returns `none` when the
  exact result leaves `[INT_MIN, INT_MAX]`, so both `Write` overloads return an `Option`.
-/

namespace LatticePoW

/-! ## Constants (hash.h, lines 35-38) -/

/-- CRYSTALS-Kyber modulus. -/
def LATTICE_MODULUS : Nat := 3329

/-- Ring dimension. -/
def LATTICE_DIMENSION : Nat := 8

/-- Matrix size for operations. -/
def LATTICE_MATRIX_SIZE : Nat := 8

/-- Number of lattice rounds. -/
def LATTICE_ROUNDS : Nat := 4

/-! ## Machine integers -/

/-- Smallest `int64_t`. -/
def INT64_MIN : Int := -9223372036854775808

/-- Largest `int64_t`. -/
def INT64_MAX : Int := 9223372036854775807

/-- Membership in the range of `int64_t`. -/
def inInt64 (x : Int) : Prop := INT64_MIN ≤ x ∧ x ≤ INT64_MAX

instance (x : Int) : Decidable (inInt64 x) := by
  unfold inInt64; exact inferInstance

/-- Result of a signed 64-bit operation whose exact value is `x`: defined only in range. -/
def checkInt64 (x : Int) : Option Int := if inInt64 x then some x else none

/-- Signed 64-bit addition `a + b`. -/
def addInt64 (a b : Int) : Option Int := checkInt64 (a + b)

/-- Signed 64-bit multiplication `a * b`. -/
def mulInt64 (a b : Int) : Option Int := checkInt64 (a * b)

/-- Conversion of an integer to `uint32_t` (reduction modulo `2 ^ 32`). -/
def toUInt32 (x : Int) : Nat := (x % 4294967296).toNat

/-- Two's-complement value of a 32-bit pattern: conversion of an integer to `int`. -/
def toInt32 (x : Int) : Int := (x + 2147483648) % 4294967296 - 2147483648

/-! ## ModularReduce (hash.cpp, lines 21-27) -/

/-- Source function `ModularReduce(int64_t value)`.  `value % LATTICE_MODULUS` is the C++
remainder of a signed 64-bit division (the `uint32_t` modulus is converted to `int64_t`),
which truncates toward zero: `Int.tmod`.  The remainder lies strictly between `-3329` and
`3329`, so the conditional addition cannot overflow. -/
def ModularReduce (value : Int) : Nat :=
  let result : Int := Int.tmod value (LATTICE_MODULUS : Int)
  let result : Int := if result < 0 then result + (LATTICE_MODULUS : Int) else result
  toUInt32 result

/-! ## Bytes, arrays and loops -/

/-- A `uint8_t`. -/
abbrev Byte : Type := Fin 256

/-- A 64-byte buffer: one sponge output (`uint8_t[64]`, `std::array<uint8_t, 64>`). -/
abbrev Stage : Type := Fin 64 → Byte

/-- A `uint256`: its 32 bytes in memory order. -/
abbrev uint256 : Type := Fin 32 → Byte

/-- A `std::array<uint32_t, LATTICE_DIMENSION>`. -/
abbrev LatticeVector : Type := Fin 8 → Nat

/-- The 8x8 array of `uint32_t`, indexed `[row][column]`. -/
abbrev LatticeMatrix : Type := Fin 8 → Fin 8 → Nat

/-- Conversion of a non-negative value to `uint8_t`. -/
def toUInt8 (n : Nat) : Byte := ⟨n % 256, Nat.mod_lt n (by decide)⟩

/-- Left shift of an `int` by `n` bits, the result taken as a 32-bit two's-complement
value (a set bit 31 makes it negative). -/
def shl32 (x : Int) (n : Nat) : Int := toInt32 (x * 2 ^ n)

/-- Content of a local array declared without an initialiser.  Every element is written
before it is read in the code below; the model starts from zeros. -/
def uninitialized {ι α : Type} [OfNat α 0] : ι → α := fun _ => 0

/-- Loop `for (int i = 0; i < n; i++) body`, threading the state the body updates. -/
def forLoop (n : Nat) {σ : Type} (body : Fin n → σ → σ) (init : σ) : σ :=
  (List.finRange n).foldl (fun s i => body i s) init

/-- Loop `for (int i = 0; i < n; i++) body` whose body performs checked signed
arithmetic: the loop has no result as soon as one iteration has none. -/
def forLoopM (n : Nat) {σ : Type} (body : Fin n → σ → Option σ) (init : σ) : Option σ :=
  (List.finRange n).foldlM (fun s i => body i s) init

/-! ## The sponge primitive (crypto/sph_keccak.h)

The header documents the interface: `init` starts a computation, the update function
processes data bytes (`len = 0` does nothing), `close` outputs the 64-byte result and
reinitialises the context.  `hash.h` / `hash.cpp` call it under the spelling
`sph_keccac512_*`. -/

/-- A running sponge computation: the bytes absorbed since the last (re)initialisation. -/
structure sph_keccak512_context where
  /-- Bytes absorbed so far. -/
  absorbed : List Byte

/-- Interface function `sph_keccak512_init(cc)`. -/
def sph_keccak512_init (_cc : sph_keccak512_context) : sph_keccak512_context :=
  { absorbed := [] }

/-- Interface function `sph_keccak512(cc, data, len)`; `data` holds the `len` bytes. -/
def sph_keccak512 (cc : sph_keccak512_context) (data : List Byte) : sph_keccak512_context :=
  { absorbed := cc.absorbed ++ data }

/-- Interface function `sph_keccak512_close(cc, dst)`: the 64 bytes written to `dst` and
the reinitialised context. -/
def sph_keccak512_close (H : List Byte → Stage) (cc : sph_keccak512_context) :
    Stage × sph_keccak512_context :=
  (H cc.absorbed, { absorbed := [] })

/-- The sequence `init(&ctx); update(&ctx, data, len); close(&ctx, out)` on a local
context, as it occurs in `InitializeLatticeMatrix`, `GenerateErrorVector` and
`HashLatticePOW`: the 64 bytes written to `out`. -/
def Sponge (H : List Byte → Stage) (ctx : sph_keccak512_context) (data : List Byte) : Stage :=
  (sph_keccak512_close H (sph_keccak512 (sph_keccak512_init ctx) data)).1

/-! ## Process-wide state (hash.h lines 40-43, hash.cpp lines 13-15) -/

/-- The globals the lattice code reads and writes.  `latticeOpTotal` holds `double`s that
no function in scope reads or writes; they are kept as 64-bit patterns. -/
structure LatticeState where
  /-- Global `global_lattice_matrix`. -/
  global_lattice_matrix : LatticeMatrix
  /-- Global `lattice_initialized`. -/
  lattice_initialized : Bool
  /-- Global `latticeOpHits` (`int[LATTICE_ROUNDS]`). -/
  latticeOpHits : Fin 4 → Int
  /-- Global `latticeOpTotal` (`double[LATTICE_ROUNDS]`). -/
  latticeOpTotal : Fin 4 → Nat

/-! ## InitializeLatticeMatrix (hash.cpp, lines 33-72) -/

/-- The 68-byte `element_seed` of cell `(i, j)`. -/
def elementSeed (expanded_seed : Stage) (i j : Fin 8) : List Byte :=
  List.ofFn expanded_seed ++ [toUInt8 i.val, toUInt8 j.val, 0x5A, 0xA5]

/-- The loop `for k < 4: element = (element * 256 + element_hash[k]) % LATTICE_MODULUS`
in `uint32_t` arithmetic, from `element = 0`. -/
def elementFold (element_hash : Stage) : Nat :=
  forLoop 4 (fun k element =>
    ((element * 256 % 4294967296 + (element_hash ⟨k.val, by omega⟩).val) % 4294967296)
      % LATTICE_MODULUS) 0

/-- Source function `InitializeLatticeMatrix(seed)`, as a transformer of the globals. -/
def InitializeLatticeMatrix (H : List Byte → Stage) (seed : uint256) (st : LatticeState) :
    LatticeState :=
  if st.lattice_initialized then st
  else
    let ctx : sph_keccak512_context := { absorbed := [] }
    let expanded_seed : Stage := Sponge H ctx (List.ofFn seed)
    let matrix : LatticeMatrix :=
      forLoop 8 (fun i m =>
        forLoop 8 (fun j m =>
          let element_seed := elementSeed expanded_seed i j
          let element_hash : Stage := Sponge H ctx element_seed
          let element := elementFold element_hash
          Function.update m i (Function.update (m i) j element)) m)
        st.global_lattice_matrix
    { st with global_lattice_matrix := matrix, lattice_initialized := true }

/-! ## GenerateErrorVector (hash.cpp, lines 78-95) -/

/-- Source function `GenerateErrorVector(seed, error)`: the content of `error` on return,
given its content on entry. -/
def GenerateErrorVector (H : List Byte → Stage) (seed : uint256) (error : LatticeVector) :
    LatticeVector :=
  let ctx : sph_keccak512_context := { absorbed := [] }
  let error_seed : Stage := Sponge H ctx (List.ofFn seed)
  forLoop 8 (fun i error =>
    let byte_val : Byte := error_seed ⟨i.val % 64, Nat.mod_lt _ (by decide)⟩
    let small_error : Int := ((byte_val.val % 3 : Nat) : Int) - 1
    Function.update error i (ModularReduce small_error)) error

/-! ## LatticeMatrixMultiply (hash.cpp, lines 101-112) -/

/-- The inner loop of `LatticeMatrixMultiply` for row `i`: the final value of `sum`. -/
def rowSum (vector : LatticeVector) (matrix : LatticeMatrix) (i : Fin 8) : Option Int :=
  forLoopM 8 (fun j sum => do
    let p ← mulInt64 (vector j : Int) (matrix i j : Int)
    addInt64 sum p) 0

/-- Source function `LatticeMatrixMultiply(vector, matrix, result)`: the content of
`result` on return, given its content on entry. -/
def LatticeMatrixMultiply (vector : LatticeVector) (matrix : LatticeMatrix)
    (result : LatticeVector) : Option LatticeVector :=
  forLoopM 8 (fun i result => do
    let sum ← rowSum vector matrix i
    pure (Function.update result i (ModularReduce sum))) result

/-! ## PolynomialMultiply (hash.cpp, lines 114-133) -/

/-- Source function `PolynomialMultiply(a, b, result)`: the content of `result` on
return.  `sign * a[i] * b[j]` is evaluated left to right in `int64_t`. -/
def PolynomialMultiply (a b : LatticeVector) (_result : LatticeVector) :
    Option LatticeVector :=
  let result : LatticeVector := fun _ => 0
  forLoopM 8 (fun i result =>
    forLoopM 8 (fun j result => do
      let idx : Fin 8 := ⟨(i.val + j.val) % LATTICE_DIMENSION, Nat.mod_lt _ (by decide)⟩
      let sign : Int := if i.val + j.val ≥ LATTICE_DIMENSION then -1 else 1
      let signed_a ← mulInt64 sign (a i : Int)
      let product ← mulInt64 signed_a (b j : Int)
      let total ← addInt64 (result idx : Int) product
      pure (Function.update result idx (ModularReduce total))) result) result

/-! ## HashLatticePOW (hash.h, lines 281-352) -/

/-- The expression `(s[4i] << 24) | (s[4i+1] << 16) | (s[4i+2] << 8) | s[4i+3]` on bytes
promoted to `int`, stored into a `uint32_t`. -/
def assembleWord (s : Stage) (i : Fin 8) : Nat :=
  toUInt32
    (Int.lor
      (Int.lor
        (Int.lor (shl32 ((s ⟨i.val * 4, by omega⟩).val : Int) 24)
          (shl32 ((s ⟨i.val * 4 + 1, by omega⟩).val : Int) 16))
        (shl32 ((s ⟨i.val * 4 + 2, by omega⟩).val : Int) 8))
      ((s ⟨i.val * 4 + 3, by omega⟩).val : Int))

/-- The local variables of one round of the loop of `HashLatticePOW`, at the end of the
round body. -/
structure RoundLocals where
  /-- Local `vector_a`, after reduction. -/
  vector_a : LatticeVector
  /-- Local `vector_b`, the error vector. -/
  vector_b : LatticeVector
  /-- Local `result_vector` on return from `LatticeMatrixMultiply`. -/
  product : LatticeVector
  /-- Local `result_vector` after the error vector has been added. -/
  result_vector : LatticeVector
  /-- Local `lattice_bytes`. -/
  lattice_bytes : Fin 32 → Byte

/-- Lines 309-315: extraction of `vector_a` from a stage. -/
def extractVector (stage : Stage) : LatticeVector :=
  forLoop 8 (fun i vector_a =>
    let vector_a := Function.update vector_a i (assembleWord stage i)
    Function.update vector_a i (ModularReduce (vector_a i : Int))) uninitialized

/-- Line 319: `memcpy(&round_seed, &hash_stages[round][32], 32)`. -/
def roundSeed (stage : Stage) : uint256 := fun k => stage ⟨32 + k.val, by omega⟩

/-- Lines 326-328: `result_vector[i] = ModularReduce(result_vector[i] + vector_b[i])`, the
sum taken in `uint32_t`. -/
def addError (result_vector vector_b : LatticeVector) : LatticeVector :=
  forLoop 8 (fun i result_vector =>
    Function.update result_vector i
      (ModularReduce (((result_vector i + vector_b i) % 4294967296 : Nat) : Int)))
    result_vector

/-- Lines 331-337: big-endian serialisation of `result_vector` into `lattice_bytes`. -/
def serializeVector (result_vector : LatticeVector) : Fin 32 → Byte :=
  forLoop 8 (fun i lattice_bytes =>
    let lattice_bytes := Function.update lattice_bytes ⟨i.val * 4, by omega⟩
      (toUInt8 ((result_vector i >>> 24) &&& 0xFF))
    let lattice_bytes := Function.update lattice_bytes ⟨i.val * 4 + 1, by omega⟩
      (toUInt8 ((result_vector i >>> 16) &&& 0xFF))
    let lattice_bytes := Function.update lattice_bytes ⟨i.val * 4 + 2, by omega⟩
      (toUInt8 ((result_vector i >>> 8) &&& 0xFF))
    Function.update lattice_bytes ⟨i.val * 4 + 3, by omega⟩
      (toUInt8 (result_vector i &&& 0xFF))) uninitialized

/-- Lines 306-337: the lattice part of one round, from the stage the round reads. -/
def latticeRound (H : List Byte → Stage) (matrix : LatticeMatrix) (stage : Stage) :
    Option RoundLocals := do
  let vector_a := extractVector stage
  let round_seed := roundSeed stage
  let vector_b := GenerateErrorVector H round_seed uninitialized
  let product ← LatticeMatrixMultiply vector_a matrix uninitialized
  let result_vector := addError product vector_b
  let lattice_bytes := serializeVector result_vector
  pure { vector_a := vector_a, vector_b := vector_b, product := product,
         result_vector := result_vector, lattice_bytes := lattice_bytes }

/-- The one-byte static array `pblank`. -/
def pblank : List Byte := [0]

/-- Lines 304-346: the body of the round loop, on the local array `hash_stages` and the
global `latticeOpHits`.  The `int` counter `latticeOpHits[...]++` wraps in two's
complement. -/
def powRound (H : List Byte → Stage) (matrix : LatticeMatrix) (round : Fin 4)
    (s : (Fin 5 → Stage) × (Fin 4 → Int)) : Option ((Fin 5 → Stage) × (Fin 4 → Int)) := do
  let ctx_keccak : sph_keccak512_context := { absorbed := [] }
  let locals ← latticeRound H matrix (s.1 round.castSucc)
  let hash_stages := Function.update s.1 round.succ
    (Sponge H ctx_keccak (List.ofFn locals.lattice_bytes))
  let slot : Fin 4 := ⟨round.val % LATTICE_ROUNDS, Nat.mod_lt _ (by decide)⟩
  let latticeOpHits := Function.update s.2 slot (toInt32 (s.2 slot + 1))
  pure (hash_stages, latticeOpHits)

/-- Source function `HashLatticePOW(pbegin, pend, PrevBlockHash)` up to the end of the
round loop: the local array `hash_stages` and the globals.  `input` is the bytes of the
range `[pbegin, pend)`; `lenToHash` is their number (taken to fit the `int` that holds
it), and the sponge absorbs the first `lenToHash` bytes found at `toHash`. -/
def HashLatticePOW_stages (H : List Byte → Stage) (input : List Byte)
    (PrevBlockHash : uint256) (st : LatticeState) :
    Option ((Fin 5 → Stage) × LatticeState) := do
  let ctx_keccak : sph_keccak512_context := { absorbed := [] }
  let hash_stages : Fin 5 → Stage := uninitialized
  let toHash : List Byte := if input = [] then pblank else input
  let lenToHash : Nat := input.length
  let hash_stages := Function.update hash_stages 0 (Sponge H ctx_keccak (toHash.take lenToHash))
  let st := InitializeLatticeMatrix H PrevBlockHash st
  let s ← forLoopM 4 (powRound H st.global_lattice_matrix) (hash_stages, st.latticeOpHits)
  pure (s.1, { st with latticeOpHits := s.2 })

/-- Source function `HashLatticePOW`: the returned `uint256` (the first 32 bytes of
`hash_stages[LATTICE_ROUNDS]`) and the globals after the call. -/
def HashLatticePOW (H : List Byte → Stage) (input : List Byte) (PrevBlockHash : uint256)
    (st : LatticeState) : Option (uint256 × LatticeState) :=
  (HashLatticePOW_stages H input PrevBlockHash st).map
    (fun r => ((fun k => r.1 4 ⟨k.val, by omega⟩), r.2))

/-! ## CHashLattice256 (hash.h lines 51-75, hash.cpp lines 138-188) -/

/-- The class `CHashLattice256`: its sponge context (declared `keccak`, used under the
spelling `keccac`) and its byte buffer. -/
structure CHashLattice256 where
  /-- Member `keccak`. -/
  keccak : sph_keccak512_context
  /-- Member `buffer`. -/
  buffer : List Byte

/-- Method `Reset()`. -/
def CHashLattice256.Reset (self : CHashLattice256) : CHashLattice256 :=
  { keccak := sph_keccak512_init self.keccak, buffer := [] }

/-- The constructor `CHashLattice256()`: `Reset()` on the new object. -/
def CHashLattice256.new : CHashLattice256 :=
  CHashLattice256.Reset { keccak := { absorbed := [] }, buffer := [] }

/-- Method `Write(data, len)`; `data` holds the `len` bytes. -/
def CHashLattice256.Write (self : CHashLattice256) (data : List Byte) : CHashLattice256 :=
  { self with buffer := self.buffer ++ data }

/-- Method `Finalize(hash)`: the 32 bytes written to `hash`, the object and the globals
after the call.  The method reads `global_lattice_matrix`; it calls neither
`InitializeLatticeMatrix` nor anything that writes a global. -/
def CHashLattice256.Finalize (H : List Byte → Stage) (self : CHashLattice256)
    (st : LatticeState) : Option (uint256 × CHashLattice256 × LatticeState) := do
  let keccak := sph_keccak512 self.keccak self.buffer
  let closed := sph_keccak512_close H keccak
  let keccac_result : Stage := closed.1
  let self := { self with keccak := closed.2 }
  let lattice_vector : LatticeVector :=
    forLoop 8 (fun i lattice_vector =>
      let lattice_vector := Function.update lattice_vector i (assembleWord keccac_result i)
      Function.update lattice_vector i (ModularReduce (lattice_vector i : Int))) uninitialized
  let hash_seed : uint256 := fun k => keccac_result ⟨32 + k.val, by omega⟩
  let error_vector := GenerateErrorVector H hash_seed uninitialized
  let result_vector ← LatticeMatrixMultiply lattice_vector st.global_lattice_matrix uninitialized
  let result_vector : LatticeVector :=
    forLoop 8 (fun i result_vector =>
      Function.update result_vector i
        (ModularReduce (((result_vector i + error_vector i) % 4294967296 : Nat) : Int)))
      result_vector
  let final_bytes : Fin 32 → Byte :=
    forLoop 8 (fun i final_bytes =>
      let final_bytes := Function.update final_bytes ⟨i.val * 4, by omega⟩
        (toUInt8 ((result_vector i >>> 24) &&& 0xFF))
      let final_bytes := Function.update final_bytes ⟨i.val * 4 + 1, by omega⟩
        (toUInt8 ((result_vector i >>> 16) &&& 0xFF))
      let final_bytes := Function.update final_bytes ⟨i.val * 4 + 2, by omega⟩
        (toUInt8 ((result_vector i >>> 8) &&& 0xFF))
      Function.update final_bytes ⟨i.val * 4 + 3, by omega⟩
        (toUInt8 (result_vector i &&& 0xFF))) uninitialized
  let final_ctx : sph_keccak512_context := { absorbed := [] }
  let final_result : Stage := Sponge H final_ctx (List.ofFn final_bytes)
  pure ((fun k => final_result ⟨k.val, by omega⟩), self, st)

/-- The one-range template `Hash(pbegin, pend)` (hash.h lines 113-121) on the bytes of the
range: the returned `uint256` and the globals. -/
def Hash (H : List Byte → Stage) (input : List Byte) (st : LatticeState) :
    Option (uint256 × LatticeState) :=
  let data : List Byte := (if input = [] then pblank else input).take input.length
  (CHashLattice256.Finalize H (CHashLattice256.new.Write data) st).map
    (fun r => (r.1, r.2.2))

/-- The two-range template `Hash(p1begin, p1end, p2begin, p2end)` (hash.h lines 124-133). -/
def Hash_2 (H : List Byte → Stage) (input1 input2 : List Byte) (st : LatticeState) :
    Option (uint256 × LatticeState) :=
  let data1 : List Byte := (if input1 = [] then pblank else input1).take input1.length
  let data2 : List Byte := (if input2 = [] then pblank else input2).take input2.length
  (CHashLattice256.Finalize H ((CHashLattice256.new.Write data1).Write data2) st).map
    (fun r => (r.1, r.2.2))

/-- The locals of `CHashLattice256::Finalize` when it returns. -/
structure FinalizeLocals where
  /-- Local `keccac_result`, the sponge output on the buffer. -/
  keccac_result : Stage
  /-- Local `lattice_vector`. -/
  lattice_vector : LatticeVector
  /-- Local `error_vector`. -/
  error_vector : LatticeVector
  /-- Local `result_vector` after the error has been added. -/
  result_vector : LatticeVector
  /-- Local `final_bytes`, the block absorbed by the second sponge cycle. -/
  final_bytes : Fin 32 → Byte
  /-- Local `final_result`. -/
  final_result : Stage

/-- The body of `CHashLattice256::Finalize` (hash.cpp lines 138-188) once more, returning
its locals instead of the digest. -/
def CHashLattice256.Finalize_locals (H : List Byte → Stage) (self : CHashLattice256)
    (st : LatticeState) : Option FinalizeLocals := do
  let keccak := sph_keccak512 self.keccak self.buffer
  let closed := sph_keccak512_close H keccak
  let keccac_result : Stage := closed.1
  let lattice_vector : LatticeVector :=
    forLoop 8 (fun i lattice_vector =>
      let lattice_vector := Function.update lattice_vector i (assembleWord keccac_result i)
      Function.update lattice_vector i (ModularReduce (lattice_vector i : Int))) uninitialized
  let hash_seed : uint256 := fun k => keccac_result ⟨32 + k.val, by omega⟩
  let error_vector := GenerateErrorVector H hash_seed uninitialized
  let result_vector ← LatticeMatrixMultiply lattice_vector st.global_lattice_matrix uninitialized
  let result_vector : LatticeVector :=
    forLoop 8 (fun i result_vector =>
      Function.update result_vector i
        (ModularReduce (((result_vector i + error_vector i) % 4294967296 : Nat) : Int)))
      result_vector
  let final_bytes : Fin 32 → Byte :=
    forLoop 8 (fun i final_bytes =>
      let final_bytes := Function.update final_bytes ⟨i.val * 4, by omega⟩
        (toUInt8 ((result_vector i >>> 24) &&& 0xFF))
      let final_bytes := Function.update final_bytes ⟨i.val * 4 + 1, by omega⟩
        (toUInt8 ((result_vector i >>> 16) &&& 0xFF))
      let final_bytes := Function.update final_bytes ⟨i.val * 4 + 2, by omega⟩
        (toUInt8 ((result_vector i >>> 8) &&& 0xFF))
      Function.update final_bytes ⟨i.val * 4 + 3, by omega⟩
        (toUInt8 (result_vector i &&& 0xFF))) uninitialized
  let final_ctx : sph_keccak512_context := { absorbed := [] }
  let final_result : Stage := Sponge H final_ctx (List.ofFn final_bytes)
  pure { keccac_result := keccac_result, lattice_vector := lattice_vector,
         error_vector := error_vector, result_vector := result_vector,
         final_bytes := final_bytes, final_result := final_result }

/-! ## GetLatticeRound (hash.h, lines 267-273) -/

/-- The macro `START_OF_LAST_16_NIBBLES_OF_HASH`. -/
def START_OF_LAST_16_NIBBLES_OF_HASH : Int := 48

/-- Source function `GetLatticeRound(PrevBlockHash, round)`; `none` is a failed `assert`.
The method `uint256::GetNibble` is not part of the sources at hand and is a parameter.
`round < LATTICE_ROUNDS` and `roundSelection % LATTICE_ROUNDS` mix `int` with the
`uint32_t` constant, so both are evaluated on the operands converted to `uint32_t`. -/
def GetLatticeRound (GetNibble : uint256 → Int → Int) (PrevBlockHash : uint256)
    (round : Int) : Option Int :=
  if ¬ (round ≥ 0) then none
  else if ¬ (toUInt32 round < LATTICE_ROUNDS) then none
  else
    let roundSelection : Int :=
      GetNibble PrevBlockHash (START_OF_LAST_16_NIBBLES_OF_HASH + round * 4)
    some ((toUInt32 roundSelection % LATTICE_ROUNDS : Nat) : Int)

/-! ## Instrumented sponge adapter

The same code with the sponge adapter replaced by one that counts its cycles
(`init` / absorb / `close`): every function below threads the number of cycles issued so
far and is otherwise the function it is named after. -/

/-- One cycle `init; absorb; close` on the counting adapter. -/
def SpongeCounted (H : List Byte → Stage) (ctx : sph_keccak512_context) (data : List Byte)
    (cycles : Nat) : Stage × Nat :=
  (Sponge H ctx data, cycles + 1)

/-- `InitializeLatticeMatrix` on the counting adapter. -/
def InitializeLatticeMatrixCounted (H : List Byte → Stage) (seed : uint256)
    (st : LatticeState) (cycles : Nat) : LatticeState × Nat :=
  if st.lattice_initialized then (st, cycles)
  else
    let ctx : sph_keccak512_context := { absorbed := [] }
    let expanded := SpongeCounted H ctx (List.ofFn seed) cycles
    let expanded_seed : Stage := expanded.1
    let filled : LatticeMatrix × Nat :=
      forLoop 8 (fun i s =>
        forLoop 8 (fun j s =>
          let element_seed := elementSeed expanded_seed i j
          let hashed := SpongeCounted H ctx element_seed s.2
          let element_hash : Stage := hashed.1
          let element := elementFold element_hash
          (Function.update s.1 i (Function.update (s.1 i) j element), hashed.2)) s)
        (st.global_lattice_matrix, expanded.2)
    ({ st with global_lattice_matrix := filled.1, lattice_initialized := true }, filled.2)

/-- `GenerateErrorVector` on the counting adapter. -/
def GenerateErrorVectorCounted (H : List Byte → Stage) (seed : uint256)
    (error : LatticeVector) (cycles : Nat) : LatticeVector × Nat :=
  let ctx : sph_keccak512_context := { absorbed := [] }
  let expanded := SpongeCounted H ctx (List.ofFn seed) cycles
  let error_seed : Stage := expanded.1
  (forLoop 8 (fun i error =>
    let byte_val : Byte := error_seed ⟨i.val % 64, Nat.mod_lt _ (by decide)⟩
    let small_error : Int := ((byte_val.val % 3 : Nat) : Int) - 1
    Function.update error i (ModularReduce small_error)) error, expanded.2)

/-- The body of the round loop of `HashLatticePOW` on the counting adapter. -/
def powRoundCounted (H : List Byte → Stage) (matrix : LatticeMatrix) (round : Fin 4)
    (s : ((Fin 5 → Stage) × (Fin 4 → Int)) × Nat) :
    Option (((Fin 5 → Stage) × (Fin 4 → Int)) × Nat) := do
  let ctx_keccak : sph_keccak512_context := { absorbed := [] }
  let stage := s.1.1 round.castSucc
  let vector_a := extractVector stage
  let round_seed := roundSeed stage
  let generated := GenerateErrorVectorCounted H round_seed uninitialized s.2
  let vector_b := generated.1
  let product ← LatticeMatrixMultiply vector_a matrix uninitialized
  let result_vector := addError product vector_b
  let lattice_bytes := serializeVector result_vector
  let hashed := SpongeCounted H ctx_keccak (List.ofFn lattice_bytes) generated.2
  let hash_stages := Function.update s.1.1 round.succ hashed.1
  let slot : Fin 4 := ⟨round.val % LATTICE_ROUNDS, Nat.mod_lt _ (by decide)⟩
  let latticeOpHits := Function.update s.1.2 slot (toInt32 (s.1.2 slot + 1))
  pure ((hash_stages, latticeOpHits), hashed.2)

/-- `HashLatticePOW` on the counting adapter: the digest, the globals and the number of
sponge cycles issued, starting the count at `cycles`. -/
def HashLatticePOWCounted (H : List Byte → Stage) (input : List Byte)
    (PrevBlockHash : uint256) (st : LatticeState) (cycles : Nat) :
    Option ((uint256 × LatticeState) × Nat) := do
  let ctx_keccak : sph_keccak512_context := { absorbed := [] }
  let hash_stages : Fin 5 → Stage := uninitialized
  let toHash : List Byte := if input = [] then pblank else input
  let lenToHash : Nat := input.length
  let hashed := SpongeCounted H ctx_keccak (toHash.take lenToHash) cycles
  let hash_stages := Function.update hash_stages 0 hashed.1
  let initialised := InitializeLatticeMatrixCounted H PrevBlockHash st hashed.2
  let st := initialised.1
  let s ← forLoopM 4 (powRoundCounted H st.global_lattice_matrix)
    ((hash_stages, st.latticeOpHits), initialised.2)
  pure (((fun k => s.1.1 4 ⟨k.val, by omega⟩), { st with latticeOpHits := s.1.2 }), s.2)

/-! ## SipHash (hash.h lines 249-261, hash.cpp lines 241-335) -/

/-- Smallest value of the 32-bit `int`. -/
def INT_MIN : Int := -2147483648

/-- Largest value of the 32-bit `int`. -/
def INT_MAX : Int := 2147483647

/-- The result of an `int` operation whose exact value is `x`: `none` when `x` is out of
range (signed overflow). -/
def checkInt (x : Int) : Option Int := if INT_MIN ≤ x ∧ x ≤ INT_MAX then some x else none

/-- Conversion of a signed integer to `uint64_t`. -/
def toUInt64 (x : Int) : Nat := (x % 18446744073709551616).toNat

/-- Macro `ROTL(x, b)` on a `uint64_t` value `x`. -/
def ROTL (x b : Nat) : Nat := ((x <<< b) % 18446744073709551616) ||| (x >>> (64 - b))

/-- The four `uint64_t` locals `v0`, `v1`, `v2`, `v3` of the SipHash functions. -/
structure SipLocals where
  /-- Local `v0`. -/
  v0 : Nat
  /-- Local `v1`. -/
  v1 : Nat
  /-- Local `v2`. -/
  v2 : Nat
  /-- Local `v3`. -/
  v3 : Nat

/-- Macro `SIPROUND`, one statement per line of the source. -/
def SIPROUND (s : SipLocals) : SipLocals :=
  let v0 := s.v0
  let v1 := s.v1
  let v2 := s.v2
  let v3 := s.v3
  let v0 := (v0 + v1) % 18446744073709551616
  let v1 := ROTL v1 13
  let v1 := v1 ^^^ v0
  let v0 := ROTL v0 32
  let v2 := (v2 + v3) % 18446744073709551616
  let v3 := ROTL v3 16
  let v3 := v3 ^^^ v2
  let v0 := (v0 + v3) % 18446744073709551616
  let v3 := ROTL v3 21
  let v3 := v3 ^^^ v0
  let v2 := (v2 + v1) % 18446744073709551616
  let v1 := ROTL v1 17
  let v1 := v1 ^^^ v2
  let v2 := ROTL v2 32
  { v0 := v0, v1 := v1, v2 := v2, v3 := v3 }

/-- The statement sequence `v3 ^= d; SIPROUND; SIPROUND; v0 ^= d;` that every SipHash
function of the source repeats for a 64-bit word `d`. -/
def sipWord (s : SipLocals) (d : Nat) : SipLocals :=
  let s := { s with v3 := s.v3 ^^^ d }
  let s := SIPROUND s
  let s := SIPROUND s
  { s with v0 := s.v0 ^^^ d }

/-- The statement sequence `v2 ^= 0xFF; SIPROUND; SIPROUND; SIPROUND; SIPROUND;
return v0 ^ v1 ^ v2 ^ v3;` that ends `Finalize`, `SipHashUint256` and
`SipHashUint256Extra`. -/
def sipReturn (s : SipLocals) : Nat :=
  let s := { s with v2 := s.v2 ^^^ 0xFF }
  let s := SIPROUND s
  let s := SIPROUND s
  let s := SIPROUND s
  let s := SIPROUND s
  s.v0 ^^^ s.v1 ^^^ s.v2 ^^^ s.v3

/-- The class `CSipHasher` (hash.h lines 249-261). -/
structure CSipHasher where
  /-- Member `uint64_t v[4]`. -/
  v : Fin 4 → Nat
  /-- Member `uint64_t tmp`. -/
  tmp : Nat
  /-- Member `int count`. -/
  count : Int

/-- The statements `uint64_t v0 = v[0], v1 = v[1], v2 = v[2], v3 = v[3];`. -/
def CSipHasher.load (self : CSipHasher) : SipLocals :=
  { v0 := self.v 0, v1 := self.v 1, v2 := self.v 2, v3 := self.v 3 }

/-- The statements `v[0] = v0; v[1] = v1; v[2] = v2; v[3] = v3;`. -/
def SipLocals.store (s : SipLocals) : Fin 4 → Nat := ![s.v0, s.v1, s.v2, s.v3]

/-- The constructor `CSipHasher(k0, k1)`. -/
def CSipHasher.new (k0 k1 : Nat) : CSipHasher :=
  { v := ![0x736f6d6570736575 ^^^ k0, 0x646f72616e646f6d ^^^ k1,
           0x6c7967656e657261 ^^^ k0, 0x7465646279746573 ^^^ k1],
    count := 0,
    tmp := 0 }

/-- Method `Write(uint64_t data)`: `none` when the assertion `count % 8 == 0` fails or
`count += 8` overflows. -/
def CSipHasher.Write (self : CSipHasher) (data : Nat) : Option CSipHasher :=
  let s := self.load
  if Int.tmod self.count 8 = 0 then do
    let s := sipWord s data
    let count ← checkInt (self.count + 8)
    pure { v := s.store, tmp := self.tmp, count := count }
  else none

/-- One iteration of the loop `while (size--)` of `Write(data, size)` on the locals
`v0 .. v3`, `t` and `c`, with `byte = *(data++)`: `none` when the shift count is negative
or `c++` overflows. -/
def CSipHasher.writeStep (l : SipLocals × Nat × Int) (byte : Byte) :
    Option (SipLocals × Nat × Int) :=
  let s := l.1
  let t := l.2.1
  let c := l.2.2
  let shift : Int := 8 * Int.tmod c 8
  if 0 ≤ shift ∧ shift < 64 then do
    let t := t ||| ((byte.val <<< shift.toNat) % 18446744073709551616)
    let c ← checkInt (c + 1)
    if Int.land c 7 = 0 then
      pure (sipWord s t, 0, c)
    else
      pure (s, t, c)
  else none

/-- Method `Write(const unsigned char* data, size_t size)`; `data` holds the `size`
bytes. -/
def CSipHasher.Write_bytes (self : CSipHasher) (data : List Byte) : Option CSipHasher := do
  let s := self.load
  let t := self.tmp
  let c := self.count
  let l ← data.foldlM CSipHasher.writeStep (s, t, c)
  pure { v := l.1.store, count := l.2.2, tmp := l.2.1 }

/-- Method `Finalize()`. -/
def CSipHasher.Finalize (self : CSipHasher) : Nat :=
  let s := self.load
  let t := self.tmp ||| ((toUInt64 self.count <<< 56) % 18446744073709551616)
  let s := sipWord s t
  sipReturn s

/-- Modelled from the spec: `uint256::GetUint64(pos)` is declared outside the sources at
hand; claim C28 gives it as the little-endian 64-bit word of bytes `8 pos .. 8 pos + 7`. -/
def GetUint64 (val : uint256) (pos : Fin 4) : Nat :=
  (val ⟨8 * pos.val, by omega⟩).val
    + (val ⟨8 * pos.val + 1, by omega⟩).val * 2 ^ 8
    + (val ⟨8 * pos.val + 2, by omega⟩).val * 2 ^ 16
    + (val ⟨8 * pos.val + 3, by omega⟩).val * 2 ^ 24
    + (val ⟨8 * pos.val + 4, by omega⟩).val * 2 ^ 32
    + (val ⟨8 * pos.val + 5, by omega⟩).val * 2 ^ 40
    + (val ⟨8 * pos.val + 6, by omega⟩).val * 2 ^ 48
    + (val ⟨8 * pos.val + 7, by omega⟩).val * 2 ^ 56

/-- Source function `SipHashUint256(k0, k1, val)`. -/
def SipHashUint256 (k0 k1 : Nat) (val : uint256) : Nat :=
  let d := GetUint64 val 0
  let s : SipLocals :=
    { v0 := 0x736f6d6570736575 ^^^ k0, v1 := 0x646f72616e646f6d ^^^ k1,
      v2 := 0x6c7967656e657261 ^^^ k0, v3 := 0x7465646279746573 ^^^ k1 ^^^ d }
  let s := SIPROUND s
  let s := SIPROUND s
  let s := { s with v0 := s.v0 ^^^ d }
  let d := GetUint64 val 1
  let s := sipWord s d
  let d := GetUint64 val 2
  let s := sipWord s d
  let d := GetUint64 val 3
  let s := sipWord s d
  let s := { s with v3 := s.v3 ^^^ ((4 <<< 59) % 18446744073709551616) }
  let s := SIPROUND s
  let s := SIPROUND s
  let s := { s with v0 := s.v0 ^^^ ((4 <<< 59) % 18446744073709551616) }
  sipReturn s

/-- Source function `SipHashUint256Extra(k0, k1, val, extra)`. -/
def SipHashUint256Extra (k0 k1 : Nat) (val : uint256) (extra : Nat) : Nat :=
  let d := GetUint64 val 0
  let s : SipLocals :=
    { v0 := 0x736f6d6570736575 ^^^ k0, v1 := 0x646f72616e646f6d ^^^ k1,
      v2 := 0x6c7967656e657261 ^^^ k0, v3 := 0x7465646279746573 ^^^ k1 ^^^ d }
  let s := SIPROUND s
  let s := SIPROUND s
  let s := { s with v0 := s.v0 ^^^ d }
  let d := GetUint64 val 1
  let s := sipWord s d
  let d := GetUint64 val 2
  let s := sipWord s d
  let d := GetUint64 val 3
  let s := sipWord s d
  let d := ((36 <<< 56) % 18446744073709551616) ||| extra
  let s := sipWord s d
  sipReturn s

/-- The class invariant of `CSipHasher`: `count` is a non-negative `int` and `tmp` holds
the `count % 8` pending bytes, so it is below `2 ^ (8 * (count % 8))` (zero when `count`
is a multiple of 8).  The members are private; the constructor establishes the invariant
and both `Write` overloads keep it. -/
def CSipHasher.valid (h : CSipHasher) : Prop :=
  0 ≤ h.count ∧ h.count ≤ INT_MAX ∧ h.tmp < 2 ^ (8 * (h.count % 8).toNat)

instance (h : CSipHasher) : Decidable h.valid := by
  unfold CSipHasher.valid
  infer_instance

/-! ## Definitions that follow the words of the claims -/

/-- The big-endian 32-bit word of bytes `4i .. 4i+3` of a stage (claim C3). -/
def specWord (stage : Stage) (i : Fin 8) : Nat :=
  (stage ⟨4 * i.val, by omega⟩).val * 2 ^ 24 + (stage ⟨4 * i.val + 1, by omega⟩).val * 2 ^ 16
    + (stage ⟨4 * i.val + 2, by omega⟩).val * 2 ^ 8 + (stage ⟨4 * i.val + 3, by omega⟩).val

/-- Claim C3, `a_r[i]`: the big-endian word modulo 3329. -/
def specVectorA (stage : Stage) (i : Fin 8) : Nat := specWord stage i % 3329

/-- Claim C3, `e_r`: the error vector generated from bytes `32 .. 63` of the stage. -/
def specError (H : List Byte → Stage) (stage : Stage) : LatticeVector :=
  GenerateErrorVector H (fun k => stage ⟨32 + k.val, by omega⟩) uninitialized

/-- Claim C3, `mixed_r[i] = (sum_j M[i][j] * a_r[j] + e_r[i]) mod 3329`. -/
def specMixed (H : List Byte → Stage) (M : LatticeMatrix) (stage : Stage) (i : Fin 8) : Nat :=
  ((∑ j, M i j * specVectorA stage j) + specError H stage i) % 3329

/-- Claim C3, `ser`: the big-endian encoding, 4 bytes per element, 32 bytes in all. -/
def specSer (v : LatticeVector) : List Byte :=
  List.ofFn (fun k : Fin 32 =>
    (⟨v ⟨k.val / 4, by omega⟩ / 256 ^ (3 - k.val % 4) % 256, Nat.mod_lt _ (by decide)⟩ : Byte))

/-- Claim C3, the stages: `stage[0] = Sponge(input)`, `stage[r+1] = Sponge(ser(mixed_r))`. -/
def specStage (H : List Byte → Stage) (M : LatticeMatrix) (input : List Byte) : Nat → Stage
  | 0 => H input
  | r + 1 => H (specSer (specMixed H M (specStage H M input r)))

/-- Every element of the matrix is a `uint32_t` value. -/
def matrixIsUInt32 (M : LatticeMatrix) : Prop := ∀ i j, M i j < 4294967296

/-- The digest `HashLatticePOW` returns under matrix `M` for `input`, in the words of
claim C3: the first 32 bytes of `stage[4]`. -/
def specDigest (H : List Byte → Stage) (M : LatticeMatrix) (input : List Byte) : uint256 :=
  fun k => specStage H M input 4 ⟨k.val, by omega⟩

/-- Claim C6, the fold `acc := (acc * 256 + b) mod 3329` from `acc = 0`. -/
def specCellFold (bytes : List Byte) : Nat :=
  bytes.foldl (fun acc b => (acc * 256 + b.val) % 3329) 0

/-- Contribution of the pair `(i, j)` of loop indices to `result[k]` in
`PolynomialMultiply`, as an exact integer. -/
def polyTerm (a b : LatticeVector) (k i j : Fin 8) : Int :=
  if (i.val + j.val) % 8 = k.val then
    (if i.val + j.val ≥ 8 then -1 else 1) * (a i : Int) * (b j : Int)
  else 0

/-- Claim C9: coefficient `k` of the product in `Z_3329[X]/(X^8 + 1)`, as the non-negative
residue of `sum_{i+j=k} a[i]*b[j] - sum_{i+j=k+8} a[i]*b[j]`. -/
def specPolyCoeff (a b : LatticeVector) (k : Fin 8) : Int :=
  ((∑ i : Fin 8, ∑ j : Fin 8, if i.val + j.val = k.val then (a i : Int) * (b j : Int) else 0)
    - (∑ i : Fin 8, ∑ j : Fin 8,
        if i.val + j.val = k.val + 8 then (a i : Int) * (b j : Int) else 0)) % 3329

/-- The monomial `X^n` as a coefficient vector. -/
def monomial (n : Nat) : LatticeVector := fun i => if i.val = n then 1 else 0

/-- The big-endian 32-bit word of bytes `4i .. 4i+3` of a 32-byte block (claim C25). -/
def specDecode (block : Fin 32 → Byte) (i : Fin 8) : Nat :=
  (block ⟨4 * i.val, by omega⟩).val * 2 ^ 24 + (block ⟨4 * i.val + 1, by omega⟩).val * 2 ^ 16
    + (block ⟨4 * i.val + 2, by omega⟩).val * 2 ^ 8 + (block ⟨4 * i.val + 3, by omega⟩).val

/-- The 32-byte blocks that encode a vector of eight residues modulo 3329 (claim C25). -/
def reducedBlocks : Set (Fin 32 → Byte) :=
  Set.range (fun t : Fin 8 → Fin 3329 => serializeVector (fun i => (t i).val))

/-- The `n` little-endian bytes of `x`, lowest byte first. -/
def leBytes (n x : Nat) : List Byte := List.ofFn (fun k : Fin n => toUInt8 (x / 256 ^ k.val))

/-! ## Concrete inputs -/

/-- A sponge stub whose output is 64 zero bytes for every input. -/
def zeroSponge : List Byte → Stage := fun _ _ => 0

/-- A sponge stub that tells inputs apart: every output byte is the number of input bytes
when there are fewer than four of them, and the third input byte otherwise. -/
def thirdByteSponge : List Byte → Stage :=
  fun x _ => if x.length < 4 then toUInt8 x.length else x.getD 2 0

/-- The all-zero `uint256`. -/
def zeroSeed : uint256 := fun _ => 0

/-- The globals at process start: zero-initialised, the matrix not yet generated. -/
def freshState : LatticeState :=
  { global_lattice_matrix := fun _ _ => 0, lattice_initialized := false,
    latticeOpHits := fun _ => 0, latticeOpTotal := fun _ => 0 }

/-- Globals with an all-zero matrix that is flagged as generated. -/
def zeroMatrixState : LatticeState :=
  { global_lattice_matrix := fun _ _ => 0, lattice_initialized := true,
    latticeOpHits := fun _ => 0, latticeOpTotal := fun _ => 0 }

/-- Globals with an all-zero generated matrix whose four hit counters stand at `INT_MAX`. -/
def saturatedHitsState : LatticeState :=
  { global_lattice_matrix := fun _ _ => 0, lattice_initialized := true,
    latticeOpHits := fun _ => 2147483647, latticeOpTotal := fun _ => 0 }

/-- A stub for `uint256::GetNibble` that returns `7` for every index. -/
def sevenNibble : uint256 → Int → Int := fun _ _ => 7

/-- The `uint256` whose byte `k` is `k`. -/
def countingVal : uint256 := fun k => toUInt8 k.val

/-- A stage whose 64 bytes are all `0xFF`. -/
def onesStage : Stage := fun _ => 255

/-- The first key of the SipHash-2-4 reference vectors, `0x0706050403020100`. -/
def referenceKey0 : Nat := 0x0706050403020100

/-- The second key of the SipHash-2-4 reference vectors, `0x0f0e0d0c0b0a0908`. -/
def referenceKey1 : Nat := 0x0F0E0D0C0B0A0908

/-! ## Facts about ModularReduce -/

theorem tmod_modulus (v : Int) :
    Int.tmod v 3329 = if 0 ≤ v then v % 3329 else -((-v) % 3329) := by
  cases v with
  | ofNat n =>
    have h : (0 : Int) ≤ Int.ofNat n := Int.ofNat_nonneg n
    rw [if_pos h]
    exact Int.tmod_eq_emod h (by decide)
  | negSucc n =>
    have h : ¬ (0 : Int) ≤ Int.negSucc n := by
      have := Int.negSucc_lt_zero n
      omega
    rw [if_neg h]
    have e : -(Int.negSucc n) = Int.ofNat (n + 1) := rfl
    rw [e]
    show -Int.ofNat ((n + 1) % 3329) = -(Int.ofNat (n + 1) % 3329)
    rfl

theorem ModularReduce_eq_emod (v : Int) : (ModularReduce v : Int) = v % 3329 := by
  unfold ModularReduce toUInt32 LATTICE_MODULUS
  simp only [Nat.cast_ofNat]
  rw [tmod_modulus]
  split_ifs <;> omega

theorem ModularReduce_lt (v : Int) : ModularReduce v < 3329 := by
  have h := ModularReduce_eq_emod v
  omega

theorem ModularReduce_natCast (n : Nat) : ModularReduce (n : Int) = n % 3329 := by
  have h := ModularReduce_eq_emod (n : Int)
  omega

/-- C1. For every signed 64-bit `value` (negative ones, `INT64_MIN` and `INT64_MAX`
included), `ModularReduce value` lies in `[0, 3329)` and is the Euclidean (non-negative)
residue of `value` modulo 3329. -/
theorem ModularReduce_is_euclidean_residue (value : Int) (_h : inInt64 value) :
    ModularReduce value < 3329 ∧ (ModularReduce value : Int) = Int.emod value 3329 :=
  ⟨ModularReduce_lt value, ModularReduce_eq_emod value⟩

/-- Witness for C1 at `INT64_MIN`. -/
theorem ModularReduce_is_euclidean_residue_witness :
    ModularReduce INT64_MIN < 3329 ∧
      (ModularReduce INT64_MIN : Int) = Int.emod INT64_MIN 3329 :=
  ModularReduce_is_euclidean_residue INT64_MIN (by decide)

/-- C2. Shifting a signed 64-bit `x` by a multiple of 3329 that stays representable as a
signed 64-bit value does not change `ModularReduce`. -/
theorem ModularReduce_add_multiple (x k : Int) (_hx : inInt64 x)
    (_hk : inInt64 (x + k * 3329)) :
    ModularReduce x = ModularReduce (x + k * 3329) := by
  have h1 := ModularReduce_eq_emod x
  have h2 := ModularReduce_eq_emod (x + k * 3329)
  omega

/-- Witness for C2: `x = -5`, `k = 2770613408487466` (so `x + k * 3329` is close to
`INT64_MAX`). -/
theorem ModularReduce_add_multiple_witness :
    ModularReduce (-5) = ModularReduce (-5 + 2770613408487466 * 3329) :=
  ModularReduce_add_multiple (-5) 2770613408487466 (by decide) (by decide)

/-! ## Word assembly -/

theorem ldiff_ldiff_eq (m x y : Nat) : Nat.ldiff (Nat.ldiff m x) y = Nat.ldiff m (x ||| y) := by
  apply Nat.eq_of_testBit_eq
  intro i
  simp only [Nat.testBit_ldiff, Nat.testBit_or]
  cases m.testBit i <;> cases x.testBit i <;> cases y.testBit i <;> rfl

theorem ldiff_low_ones (a n k : Nat) (hn : n < 2 ^ k) :
    Nat.ldiff (2 ^ k * a + (2 ^ k - 1)) n = 2 ^ k * a + (2 ^ k - 1 - n) := by
  have hpos : 0 < 2 ^ k := Nat.two_pow_pos k
  have h1 : 2 ^ k - 1 < 2 ^ k := by omega
  have h2 : 2 ^ k - 1 - n < 2 ^ k := by omega
  have h3 : 2 ^ k - 1 - n = 2 ^ k - (n + 1) := by omega
  apply Nat.eq_of_testBit_eq
  intro i
  rw [Nat.testBit_ldiff, Nat.testBit_mul_pow_two_add a h1, Nat.testBit_mul_pow_two_add a h2,
    Nat.testBit_two_pow_sub_one, h3, Nat.testBit_two_pow_sub_succ hn]
  by_cases hi : i < k
  · simp [hi]
  · have hle : 2 ^ k ≤ 2 ^ i := Nat.pow_le_pow_right (by decide) (by omega)
    have : n.testBit i = false := Nat.testBit_lt_two_pow (by omega)
    simp [hi, this]

theorem shifted_or_low (a b k : Nat) (hb : b < 2 ^ k) : a * 2 ^ k ||| b = a * 2 ^ k + b := by
  rw [Nat.mul_comm a (2 ^ k)]
  exact (Nat.mul_add_lt_is_or hb a).symm

theorem or_bytes (b1 b2 b3 : Nat) (h2 : b2 < 256) (h3 : b3 < 256) :
    b1 * 65536 ||| (b2 * 256 ||| b3) = b1 * 65536 + b2 * 256 + b3 := by
  have e1 : b2 * 256 ||| b3 = b2 * 256 + b3 := shifted_or_low b2 b3 8 h3
  have e2 : b1 * 65536 ||| (b2 * 256 + b3) = b1 * 65536 + (b2 * 256 + b3) :=
    shifted_or_low b1 (b2 * 256 + b3) 16 (by norm_num; omega)
  rw [e1, e2]
  omega

theorem word_eq (b0 b1 b2 b3 : Nat) (h0 : b0 < 256) (h1 : b1 < 256) (h2 : b2 < 256)
    (h3 : b3 < 256) :
    toUInt32 (Int.lor (Int.lor (Int.lor (shl32 (b0 : Int) 24) (shl32 (b1 : Int) 16))
      (shl32 (b2 : Int) 8)) (b3 : Int))
      = b0 * 16777216 + b1 * 65536 + b2 * 256 + b3 := by
  have s1 : shl32 (b1 : Int) 16 = ((b1 * 65536 : Nat) : Int) := by
    unfold shl32 toInt32; push_cast; omega
  have s2 : shl32 (b2 : Int) 8 = ((b2 * 256 : Nat) : Int) := by
    unfold shl32 toInt32; push_cast; omega
  rw [s1, s2]
  by_cases hb : b0 < 128
  · have s0 : shl32 (b0 : Int) 24 = ((b0 * 16777216 : Nat) : Int) := by
      unfold shl32 toInt32; push_cast; omega
    rw [s0]
    have e : Int.lor (Int.lor (Int.lor ((b0 * 16777216 : Nat) : Int) ((b1 * 65536 : Nat) : Int))
        ((b2 * 256 : Nat) : Int)) (b3 : Int)
        = (((((b0 * 16777216) ||| (b1 * 65536)) ||| (b2 * 256)) ||| b3 : Nat) : Int) := rfl
    rw [e]
    have e0 : b0 * 16777216 ||| b1 * 65536 = b0 * 16777216 + b1 * 65536 :=
      shifted_or_low b0 (b1 * 65536) 24 (by norm_num; omega)
    have e1 : (b0 * 256 + b1) * 65536 ||| b2 * 256 = (b0 * 256 + b1) * 65536 + b2 * 256 :=
      shifted_or_low (b0 * 256 + b1) (b2 * 256) 16 (by norm_num; omega)
    have e2 : (b0 * 65536 + b1 * 256 + b2) * 256 ||| b3
        = (b0 * 65536 + b1 * 256 + b2) * 256 + b3 :=
      shifted_or_low (b0 * 65536 + b1 * 256 + b2) b3 8 h3
    have a1 : b0 * 16777216 + b1 * 65536 = (b0 * 256 + b1) * 65536 := by ring
    have a2 : (b0 * 256 + b1) * 65536 + b2 * 256 = (b0 * 65536 + b1 * 256 + b2) * 256 := by
      ring
    rw [e0, a1, e1, a2, e2]
    unfold toUInt32
    omega
  · have s0 : shl32 (b0 : Int) 24 = Int.negSucc (4294967295 - b0 * 16777216) := by
      rw [Int.negSucc_eq]
      unfold shl32 toInt32; push_cast; omega
    rw [s0]
    have e : Int.lor (Int.lor (Int.lor (Int.negSucc (4294967295 - b0 * 16777216))
        ((b1 * 65536 : Nat) : Int)) ((b2 * 256 : Nat) : Int)) (b3 : Int)
        = Int.negSucc (Nat.ldiff (Nat.ldiff (Nat.ldiff (4294967295 - b0 * 16777216)
            (b1 * 65536)) (b2 * 256)) b3) := rfl
    rw [e, ldiff_ldiff_eq, ldiff_ldiff_eq, or_bytes b1 b2 b3 h2 h3]
    have hm : 4294967295 - b0 * 16777216 = 2 ^ 24 * (255 - b0) + (2 ^ 24 - 1) := by
      norm_num; omega
    rw [hm, ldiff_low_ones _ _ _ (by norm_num; omega), Int.negSucc_eq]
    unfold toUInt32
    norm_num
    omega

theorem assembleWord_eq (s : Stage) (i : Fin 8) :
    assembleWord s i = (s ⟨i.val * 4, by omega⟩).val * 16777216
      + (s ⟨i.val * 4 + 1, by omega⟩).val * 65536
      + (s ⟨i.val * 4 + 2, by omega⟩).val * 256 + (s ⟨i.val * 4 + 3, by omega⟩).val :=
  word_eq _ _ _ _ (Fin.isLt _) (Fin.isLt _) (Fin.isLt _) (Fin.isLt _)

/-! ## Loops -/

theorem foldl_inv {ι σ : Type} (P : List ι → σ → Prop) (f : σ → ι → σ) :
    ∀ (l : List ι) (s0 : σ), P [] s0 →
      (∀ pre i post s, l = pre ++ i :: post → P pre s → P (pre ++ [i]) (f s i)) →
      P l (l.foldl f s0) := by
  intro l
  induction l generalizing P with
  | nil => intro s0 h0 _; exact h0
  | cons i t ih =>
    intro s0 h0 hstep
    have h1 : P [i] (f s0 i) := hstep [] i t s0 rfl h0
    exact ih (fun pre s => P (i :: pre) s) (f s0 i) h1
      (fun pre j post s hl hp => hstep (i :: pre) j post s (by rw [hl]; rfl) hp)

theorem foldlM_inv {ι σ : Type} (P : List ι → σ → Prop) (f : σ → ι → Option σ) :
    ∀ (l : List ι) (s0 : σ), P [] s0 →
      (∀ pre i post s, l = pre ++ i :: post → P pre s →
        ∃ s', f s i = some s' ∧ P (pre ++ [i]) s') →
      ∃ s, l.foldlM f s0 = some s ∧ P l s := by
  intro l
  induction l generalizing P with
  | nil => intro s0 h0 _; exact ⟨s0, rfl, h0⟩
  | cons i t ih =>
    intro s0 h0 hstep
    obtain ⟨s1, e1, h1⟩ := hstep [] i t s0 rfl h0
    obtain ⟨s, es, hs⟩ := ih (fun pre s => P (i :: pre) s) s1 h1
      (fun pre j post s hl hp => hstep (i :: pre) j post s (by rw [hl]; rfl) hp)
    refine ⟨s, ?_, hs⟩
    rw [List.foldlM_cons, e1]
    exact es

theorem foldlM_some {ι σ : Type} (f : σ → ι → Option σ) (g : σ → ι → σ)
    (h : ∀ s i, f s i = some (g s i)) (l : List ι) (s0 : σ) :
    l.foldlM f s0 = some (l.foldl g s0) := by
  induction l generalizing s0 with
  | nil => rfl
  | cons i t ih => rw [List.foldlM_cons, h, List.foldl_cons]; exact ih (g s0 i)

theorem forLoopM_some (n : Nat) {σ : Type} (body : Fin n → σ → Option σ)
    (g : Fin n → σ → σ) (h : ∀ i s, body i s = some (g i s)) (init : σ) :
    forLoopM n body init = some (forLoop n g init) :=
  foldlM_some (fun s i => body i s) (fun s i => g i s) (fun s i => h i s) _ init

theorem foldl_update_pointwise {ι α : Type} [DecidableEq ι] (f : ι → α → α) (l : List ι)
    (hl : l.Nodup) (init : ι → α) (k : ι) :
    (l.foldl (fun s i => Function.update s i (f i (s i))) init) k
      = if k ∈ l then f k (init k) else init k := by
  induction l generalizing init with
  | nil => simp
  | cons i t ih =>
    rw [List.foldl_cons, ih (List.nodup_cons.mp hl).2]
    by_cases hk : k = i
    · subst hk
      simp [(List.nodup_cons.mp hl).1]
    · simp [hk, Function.update_noteq hk]

theorem forLoop_pointwise (n : Nat) {α : Type} (f : Fin n → α → α) (init : Fin n → α) :
    forLoop n (fun i s => Function.update s i (f i (s i))) init = fun i => f i (init i) := by
  funext k
  unfold forLoop
  rw [foldl_update_pointwise f _ (List.nodup_finRange n) init k]
  simp [List.mem_finRange]


theorem Sponge_eq (H : List Byte → Stage) (ctx : sph_keccak512_context) (data : List Byte) :
    Sponge H ctx data = H data := by
  simp [Sponge, sph_keccak512_close, sph_keccak512, sph_keccak512_init]

theorem finRange_four : List.finRange 4 = [0, 1, 2, 3] := by decide

theorem finRange_eight : List.finRange 8 = [0, 1, 2, 3, 4, 5, 6, 7] := by decide

theorem extractVector_eq (s : Stage) :
    extractVector s = fun i => assembleWord s i % 3329 := by
  have hb : (fun (i : Fin 8) (vector_a : LatticeVector) =>
      let vector_a := Function.update vector_a i (assembleWord s i)
      Function.update vector_a i (ModularReduce (vector_a i : Int)))
      = fun i v => Function.update v i ((fun i _ => assembleWord s i % 3329) i (v i)) := by
    funext i v
    simp [ModularReduce_natCast]
  unfold extractVector
  rw [hb]
  exact forLoop_pointwise 8 (fun i _ => assembleWord s i % 3329) uninitialized

theorem GenerateErrorVector_eq (H : List Byte → Stage) (seed : uint256) (e0 : LatticeVector) :
    GenerateErrorVector H seed e0 = fun i =>
      ModularReduce ((((H (List.ofFn seed) ⟨i.val % 64, Nat.mod_lt _ (by decide)⟩).val % 3 : Nat)
        : Int) - 1) := by
  unfold GenerateErrorVector
  simp only [Sponge_eq]
  exact forLoop_pointwise 8 (fun i _ => ModularReduce
    ((((H (List.ofFn seed) ⟨i.val % 64, Nat.mod_lt _ (by decide)⟩).val % 3 : Nat) : Int) - 1)) e0

theorem addError_eq (r b : LatticeVector) :
    addError r b = fun i => ModularReduce (((r i + b i) % 4294967296 : Nat) : Int) := by
  unfold addError
  exact forLoop_pointwise 8 (fun i x => ModularReduce (((x + b i) % 4294967296 : Nat) : Int)) r

theorem fold_step (e b : Nat) (he : e < 3329) (hb : b < 256) :
    (e * 256 % 4294967296 + b) % 4294967296 % 3329 = (e * 256 + b) % 3329 := by
  rw [Nat.mod_eq_of_lt (show e * 256 < 4294967296 by omega),
    Nat.mod_eq_of_lt (show e * 256 + b < 4294967296 by omega)]

theorem fold_four_bytes (b0 b1 b2 b3 : Nat) (h0 : b0 < 256) (h1 : b1 < 256) (h2 : b2 < 256)
    (h3 : b3 < 256) :
    ((((((0 * 256 % 4294967296 + b0) % 4294967296 % 3329) * 256 % 4294967296 + b1)
      % 4294967296 % 3329) * 256 % 4294967296 + b2) % 4294967296 % 3329 * 256 % 4294967296
      + b3) % 4294967296 % 3329
      = (b0 * 16777216 + b1 * 65536 + b2 * 256 + b3) % 3329 := by
  rw [fold_step 0 b0 (by decide) h0, fold_step _ b1 (Nat.mod_lt _ (by decide)) h1,
    fold_step _ b2 (Nat.mod_lt _ (by decide)) h2, fold_step _ b3 (Nat.mod_lt _ (by decide)) h3]
  omega

theorem elementFold_eq (h : Stage) :
    elementFold h = ((h 0).val * 16777216 + (h 1).val * 65536 + (h 2).val * 256 + (h 3).val)
      % 3329 := by
  unfold elementFold forLoop LATTICE_MODULUS
  rw [finRange_four]
  simp only [List.foldl_cons, List.foldl_nil]
  exact fold_four_bytes _ _ _ _ (h 0).isLt (h 1).isLt (h 2).isLt (h 3).isLt


theorem row_fill (c : Fin 8 → Nat) (i : Fin 8) (m : LatticeMatrix) :
    forLoop 8 (fun j m => Function.update m i (Function.update (m i) j (c j))) m
      = Function.update m i c := by
  have h := foldl_inv
    (fun (pre : List (Fin 8)) (m' : LatticeMatrix) =>
      m' = Function.update m i (fun j => if j ∈ pre then c j else m i j))
    (fun m j => Function.update m i (Function.update (m i) j (c j)))
    (List.finRange 8) m (by simp)
    (by
      intro pre j post s _ hs
      subst hs
      simp only [Function.update_same, Function.update_idem]
      refine congrArg (Function.update m i) ?_
      funext j'
      by_cases hj : j' = j
      · subst hj; simp
      · simp [hj, Function.update_noteq hj])
  unfold forLoop
  rw [h]
  simp [List.mem_finRange]

theorem InitializeLatticeMatrix_fresh (H : List Byte → Stage) (seed : uint256)
    (st : LatticeState) (h : st.lattice_initialized = false) :
    InitializeLatticeMatrix H seed st =
      { st with
        global_lattice_matrix := fun i j =>
          elementFold (H (elementSeed (H (List.ofFn seed)) i j)),
        lattice_initialized := true } := by
  unfold InitializeLatticeMatrix
  simp only [h, Sponge_eq, Bool.false_eq_true, if_false]
  congr 1
  have hi : (fun (i : Fin 8) (m : LatticeMatrix) =>
      forLoop 8 (fun j m => Function.update m i (Function.update (m i) j
        (elementFold (H (elementSeed (H (List.ofFn seed)) i j)))) ) m)
      = fun i m => Function.update m i
          ((fun i _ => fun j => elementFold (H (elementSeed (H (List.ofFn seed)) i j)))
            i (m i)) := by
    funext i m
    exact row_fill _ i m
  rw [hi]
  exact forLoop_pointwise 8
    (fun i _ => fun j => elementFold (H (elementSeed (H (List.ofFn seed)) i j))) _

theorem InitializeLatticeMatrix_done (H : List Byte → Stage) (seed : uint256)
    (st : LatticeState) (h : st.lattice_initialized = true) :
    InitializeLatticeMatrix H seed st = st := by
  unfold InitializeLatticeMatrix
  simp [h]

theorem InitializeLatticeMatrix_flag (H : List Byte → Stage) (seed : uint256)
    (st : LatticeState) : (InitializeLatticeMatrix H seed st).lattice_initialized = true := by
  cases h : st.lattice_initialized
  · rw [InitializeLatticeMatrix_fresh H seed st h]
  · rw [InitializeLatticeMatrix_done H seed st h]; exact h


theorem checkInt64_some (x : Int) (h : inInt64 x) : checkInt64 x = some x := if_pos h

theorem sum_map_le {ι : Type} (t : ι → Nat) (B : Nat) (ht : ∀ j, t j ≤ B) (l : List ι) :
    (l.map t).sum ≤ l.length * B := by
  induction l with
  | nil => simp
  | cons a l ih =>
    simp only [List.map_cons, List.sum_cons, List.length_cons]
    have := ht a
    have e : (l.length + 1) * B = l.length * B + B := by ring
    omega

theorem rowSum_eq (v : LatticeVector) (M : LatticeMatrix) (i : Fin 8)
    (hv : ∀ j, v j < 3329) (hM : ∀ j, M i j < 4294967296) :
    rowSum v M i = some ((∑ j, v j * M i j : Nat) : Int) := by
  have hB : ∀ j, v j * M i j ≤ 3328 * 4294967295 := fun j =>
    Nat.mul_le_mul (Nat.le_of_lt_succ (hv j)) (Nat.le_of_lt_succ (hM j))
  obtain ⟨s, hs, hP⟩ := foldlM_inv
    (fun (pre : List (Fin 8)) (s : Int) => s = (((pre.map (fun j => v j * M i j)).sum : Nat) : Int))
    (fun (sum : Int) (j : Fin 8) =>
      (mulInt64 (v j : Int) (M i j : Int)).bind (fun p => addInt64 sum p))
    (List.finRange 8) 0 (by simp)
    (by
      intro pre j post s hl hs
      have hlen : pre.length + 1 ≤ 8 := by
        have := congrArg List.length hl
        simp at this
        omega
      have hsum := sum_map_le (fun j => v j * M i j) _ hB pre
      have hj := hB j
      have hpl : pre.length * (3328 * 4294967295) ≤ 7 * (3328 * 4294967295) :=
        Nat.mul_le_mul_right _ (by omega)
      have e1 : mulInt64 (v j : Int) (M i j : Int) = some (((v j * M i j : Nat)) : Int) := by
        unfold mulInt64
        rw [checkInt64_some]
        · push_cast; rfl
        · unfold inInt64 INT64_MIN INT64_MAX
          rw [← Nat.cast_mul]
          omega
      refine ⟨s + ((v j * M i j : Nat) : Int), ?_, ?_⟩
      · show (mulInt64 (v j : Int) (M i j : Int)).bind (fun p => addInt64 s p) = _
        rw [e1]
        show addInt64 s _ = _
        unfold addInt64
        rw [checkInt64_some]
        unfold inInt64 INT64_MIN INT64_MAX
        omega
      · subst hs
        simp only [List.map_append, List.sum_append, List.map_cons, List.map_nil,
          List.sum_cons, List.sum_nil]
        push_cast
        omega)
  unfold rowSum forLoopM
  rw [Fin.sum_univ_def]
  rw [← hP]
  exact hs

theorem LatticeMatrixMultiply_eq (v : LatticeVector) (M : LatticeMatrix) (r0 : LatticeVector)
    (hv : ∀ j, v j < 3329) (hM : ∀ i j, M i j < 4294967296) :
    LatticeMatrixMultiply v M r0 = some (fun i => (∑ j, v j * M i j) % 3329) := by
  unfold LatticeMatrixMultiply
  rw [forLoopM_some 8 _
    (fun i result => Function.update result i
      ((fun i _ => (∑ j, v j * M i j) % 3329) i (result i)))]
  · exact congrArg some
      (forLoop_pointwise 8 (fun i _ => (∑ j, v j * M i j) % 3329) r0)
  · intro i s
    rw [rowSum_eq v M i hv (hM i)]
    show some _ = some _
    rw [ModularReduce_natCast]

theorem serializeVector_eq (v : LatticeVector) :
    serializeVector v = fun k =>
      toUInt8 ((v ⟨k.val / 4, by omega⟩ >>> (8 * (3 - k.val % 4))) &&& 255) := by
  have h := foldl_inv
    (fun (pre : List (Fin 8)) (lb : Fin 32 → Byte) =>
      ∀ k : Fin 32, (⟨k.val / 4, by omega⟩ : Fin 8) ∈ pre →
        lb k = toUInt8 ((v ⟨k.val / 4, by omega⟩ >>> (8 * (3 - k.val % 4))) &&& 255))
    (fun (lattice_bytes : Fin 32 → Byte) (i : Fin 8) =>
      let lattice_bytes := Function.update lattice_bytes ⟨i.val * 4, by omega⟩
        (toUInt8 ((v i >>> 24) &&& 0xFF))
      let lattice_bytes := Function.update lattice_bytes ⟨i.val * 4 + 1, by omega⟩
        (toUInt8 ((v i >>> 16) &&& 0xFF))
      let lattice_bytes := Function.update lattice_bytes ⟨i.val * 4 + 2, by omega⟩
        (toUInt8 ((v i >>> 8) &&& 0xFF))
      Function.update lattice_bytes ⟨i.val * 4 + 3, by omega⟩
        (toUInt8 (v i &&& 0xFF)))
    (List.finRange 8) uninitialized (by simp)
    (by
      intro pre i post s _ hs k hk
      simp only [Function.update_apply, Fin.ext_iff]
      by_cases hki : k.val / 4 = i.val
      · have hk4 : (⟨k.val / 4, by omega⟩ : Fin 8) = i := Fin.ext hki
        rw [hk4]
        have hc : k.val % 4 = 0 ∨ k.val % 4 = 1 ∨ k.val % 4 = 2 ∨ k.val % 4 = 3 := by omega
        rcases hc with hc | hc | hc | hc
        · rw [if_neg (by omega), if_neg (by omega), if_neg (by omega), if_pos (by omega), hc]
        · rw [if_neg (by omega), if_neg (by omega), if_pos (by omega), hc]
        · rw [if_neg (by omega), if_pos (by omega), hc]
        · rw [if_pos (by omega), hc]
          rfl
      · rw [if_neg (by omega), if_neg (by omega), if_neg (by omega), if_neg (by omega)]
        refine congrArg Fin.val (hs k ?_)
        rcases List.mem_append.mp hk with h | h
        · exact h
        · exfalso
          apply hki
          have := List.mem_singleton.mp h
          exact congrArg Fin.val this)
  funext k
  exact h k (List.mem_finRange _)

theorem finRange_split_index {n : Nat} {pre post : List (Fin n)} {i : Fin n}
    (h : List.finRange n = pre ++ i :: post) : i.val = pre.length := by
  have hlen : pre.length < (List.finRange n).length := by rw [h]; simp
  have e : (List.finRange n)[pre.length] = i := List.getElem_of_append h rfl
  rw [List.getElem_finRange] at e
  exact (congrArg Fin.val e).symm

theorem extractVector_lt (s : Stage) (i : Fin 8) : extractVector s i < 3329 := by
  rw [extractVector_eq]; exact Nat.mod_lt _ (by decide)

theorem extractVector_spec (s : Stage) : extractVector s = specVectorA s := by
  rw [extractVector_eq]
  funext i
  unfold specVectorA specWord
  rw [assembleWord_eq]
  simp only [Nat.mul_comm i.val 4]
  norm_num

theorem GenerateErrorVector_lt (H : List Byte → Stage) (seed : uint256) (e0 : LatticeVector)
    (i : Fin 8) : GenerateErrorVector H seed e0 i < 3329 := by
  rw [GenerateErrorVector_eq]; exact ModularReduce_lt _

theorem serializeVector_spec (v : LatticeVector) :
    List.ofFn (serializeVector v) = specSer v := by
  rw [serializeVector_eq]
  unfold specSer
  congr 1
  funext k
  apply Fin.ext
  show (v ⟨k.val / 4, _⟩ >>> (8 * (3 - k.val % 4)) &&& 255) % 256
    = v ⟨k.val / 4, _⟩ / 256 ^ (3 - k.val % 4) % 256
  rw [Nat.shiftRight_eq_div_pow, Nat.pow_mul]
  have e8 : (2 : Nat) ^ 8 = 256 := by norm_num
  rw [e8]
  have h : v ⟨k.val / 4, by omega⟩ / 256 ^ (3 - k.val % 4) &&& 255
      = v ⟨k.val / 4, by omega⟩ / 256 ^ (3 - k.val % 4) % 256 :=
    Nat.and_pow_two_sub_one_eq_mod _ 8
  rw [h, Nat.mod_mod]

theorem addError_spec (H : List Byte → Stage) (M : LatticeMatrix) (stage : Stage) :
    addError (fun i => (∑ j, extractVector stage j * M i j) % 3329)
      (GenerateErrorVector H (roundSeed stage) uninitialized) = specMixed H M stage := by
  rw [addError_eq]
  funext i
  have hb := GenerateErrorVector_lt H (roundSeed stage) uninitialized i
  have hp : (∑ j, extractVector stage j * M i j) % 3329 < 3329 := Nat.mod_lt _ (by decide)
  have hlt : (∑ j, extractVector stage j * M i j) % 3329
      + GenerateErrorVector H (roundSeed stage) uninitialized i < 4294967296 := by omega
  rw [ModularReduce_natCast, Nat.mod_eq_of_lt hlt]
  unfold specMixed specError
  rw [extractVector_spec]
  have hs : ∑ j, specVectorA stage j * M i j = ∑ j, M i j * specVectorA stage j :=
    Finset.sum_congr rfl (fun j _ => Nat.mul_comm _ _)
  rw [hs]
  show _ = (_ + GenerateErrorVector H (roundSeed stage) uninitialized i) % 3329
  omega

theorem latticeRound_eq (H : List Byte → Stage) (M : LatticeMatrix) (hM : matrixIsUInt32 M)
    (stage : Stage) :
    latticeRound H M stage = some
      { vector_a := extractVector stage
        vector_b := GenerateErrorVector H (roundSeed stage) uninitialized
        product := fun i => (∑ j, extractVector stage j * M i j) % 3329
        result_vector := specMixed H M stage
        lattice_bytes := serializeVector (specMixed H M stage) } := by
  simp only [latticeRound, LatticeMatrixMultiply_eq _ M _ (extractVector_lt stage) hM,
    Option.pure_def, Option.bind_eq_bind, Option.some_bind, addError_spec]

theorem elementFold_lt (h : Stage) : elementFold h < 3329 := by
  rw [elementFold_eq]; exact Nat.mod_lt _ (by decide)

theorem InitializeLatticeMatrix_uint32 (H : List Byte → Stage) (seed : uint256)
    (st : LatticeState) (hM : matrixIsUInt32 st.global_lattice_matrix) :
    matrixIsUInt32 (InitializeLatticeMatrix H seed st).global_lattice_matrix := by
  cases h : st.lattice_initialized
  · rw [InitializeLatticeMatrix_fresh H seed st h]
    intro i j
    have := elementFold_lt (H (elementSeed (H (List.ofFn seed)) i j))
    show elementFold _ < 4294967296
    omega
  · rw [InitializeLatticeMatrix_done H seed st h]; exact hM

theorem stage_zero_input (input : List Byte) :
    (if input = [] then pblank else input).take input.length = input := by
  by_cases h : input = []
  · subst h; rfl
  · rw [if_neg h, List.take_length]

theorem powRound_eq (H : List Byte → Stage) (M : LatticeMatrix) (hM : matrixIsUInt32 M)
    (round : Fin 4) (s : (Fin 5 → Stage) × (Fin 4 → Int)) :
    powRound H M round s = some
      (Function.update s.1 round.succ (H (specSer (specMixed H M (s.1 round.castSucc)))),
        Function.update s.2 ⟨round.val % 4, Nat.mod_lt _ (by decide)⟩
          (toInt32 (s.2 ⟨round.val % 4, Nat.mod_lt _ (by decide)⟩ + 1))) := by
  simp only [powRound, latticeRound_eq H M hM, Option.pure_def, Option.bind_eq_bind,
    Option.some_bind, Sponge_eq, serializeVector_spec]
  rfl

theorem roundLoop_stages (H : List Byte → Stage) (M : LatticeMatrix) (hM : matrixIsUInt32 M)
    (input : List Byte) (hs0 : Fin 5 → Stage) (hits0 : Fin 4 → Int)
    (h0 : hs0 0 = H input) :
    ∃ s, forLoopM 4 (powRound H M) (hs0, hits0) = some s ∧
      ∀ r : Fin 5, s.1 r = specStage H M input r.val := by
  obtain ⟨s, hs, hP⟩ := foldlM_inv
    (fun (pre : List (Fin 4)) (s : (Fin 5 → Stage) × (Fin 4 → Int)) =>
      ∀ r : Fin 5, r.val ≤ pre.length → s.1 r = specStage H M input r.val)
    (fun s round => powRound H M round s) (List.finRange 4) (hs0, hits0)
    (by
      intro r hr
      have : r = 0 := Fin.ext (by simpa using hr)
      subst this
      exact h0)
    (by
      intro pre round post s hl hP
      have hidx := finRange_split_index hl
      refine ⟨_, powRound_eq H M hM round s, ?_⟩
      intro r hr
      simp only [List.length_append, List.length_singleton] at hr
      show Function.update s.1 round.succ _ r = _
      by_cases hrr : r = round.succ
      · subst hrr
        rw [Function.update_same, hP round.castSucc (by simp [hidx])]
        simp [specStage]
      · rw [Function.update_noteq hrr]
        refine hP r ?_
        have : r.val ≠ round.val + 1 := fun h => hrr (Fin.ext (by simpa using h))
        omega)
  refine ⟨s, hs, fun r => hP r ?_⟩
  have := r.isLt
  simp
  omega

theorem HashLatticePOW_stages_input (H : List Byte → Stage) (input : List Byte)
    (prev : uint256) (st : LatticeState) :
    HashLatticePOW_stages H input prev st
      = (forLoopM 4 (powRound H (InitializeLatticeMatrix H prev st).global_lattice_matrix)
          (Function.update uninitialized 0 (H input),
            (InitializeLatticeMatrix H prev st).latticeOpHits)).bind
          (fun s => some (s.1, { InitializeLatticeMatrix H prev st with latticeOpHits := s.2 }))
      := by
  simp only [HashLatticePOW_stages, Sponge_eq, stage_zero_input, Option.pure_def,
    Option.bind_eq_bind]

theorem HashLatticePOW_stages_eq (H : List Byte → Stage) (input : List Byte) (prev : uint256)
    (st : LatticeState) (hM : matrixIsUInt32 st.global_lattice_matrix) :
    ∃ hs hits, HashLatticePOW_stages H input prev st
        = some (hs, { InitializeLatticeMatrix H prev st with latticeOpHits := hits }) ∧
      ∀ r : Fin 5, hs r
        = specStage H (InitializeLatticeMatrix H prev st).global_lattice_matrix input r.val := by
  obtain ⟨s, hs, hP⟩ := roundLoop_stages H
    (InitializeLatticeMatrix H prev st).global_lattice_matrix
    (InitializeLatticeMatrix_uint32 H prev st hM) input
    (Function.update uninitialized 0 (H input))
    (InitializeLatticeMatrix H prev st).latticeOpHits (by simp)
  refine ⟨s.1, s.2, ?_, hP⟩
  simp only [HashLatticePOW_stages, Sponge_eq, stage_zero_input, hs, Option.pure_def,
    Option.bind_eq_bind, Option.some_bind]

theorem fold_four_spec (b0 b1 b2 b3 : Nat) (h0 : b0 < 256) (h1 : b1 < 256) (h2 : b2 < 256)
    (h3 : b3 < 256) :
    ((((((0 * 256 % 4294967296 + b0) % 4294967296 % 3329) * 256 % 4294967296 + b1)
      % 4294967296 % 3329) * 256 % 4294967296 + b2) % 4294967296 % 3329 * 256 % 4294967296
      + b3) % 4294967296 % 3329
      = ((((0 * 256 + b0) % 3329 * 256 + b1) % 3329 * 256 + b2) % 3329 * 256 + b3) % 3329 := by
  rw [fold_step 0 b0 (by decide) h0, fold_step _ b1 (Nat.mod_lt _ (by decide)) h1,
    fold_step _ b2 (Nat.mod_lt _ (by decide)) h2, fold_step _ b3 (Nat.mod_lt _ (by decide)) h3]

theorem sum_fin_eight_le (t : Fin 8 → Nat) (B : Nat) (ht : ∀ j, t j ≤ B) :
    ∑ j, t j ≤ 8 * B := by
  rw [Fin.sum_univ_def]
  have := sum_map_le t B ht (List.finRange 8)
  rw [List.length_finRange] at this
  exact this

/-! ## PolynomialMultiply -/

theorem polyStep (x y : Nat) (hx : x < 3329) (hy : y < 3329) (c : Nat) (hc : c < 3329)
    (σ : Int) (hσ : σ = -1 ∨ σ = 1) (f : Int → LatticeVector) :
    ((mulInt64 σ (x : Int)).bind fun signed_a =>
      (mulInt64 signed_a (y : Int)).bind fun product =>
        (addInt64 (c : Int) product).bind fun total => some (f total))
      = some (f ((c : Int) + σ * (x : Int) * (y : Int))) := by
  have hprod : (x : Int) * (y : Int) ≤ 3328 * 3328 := by
    have := Nat.mul_le_mul (Nat.le_of_lt_succ hx) (Nat.le_of_lt_succ hy)
    exact_mod_cast this
  have hprod0 : 0 ≤ (x : Int) * (y : Int) := by positivity
  have e : σ * (x : Int) * (y : Int) = σ * ((x : Int) * (y : Int)) := by ring
  unfold mulInt64 addInt64
  rw [checkInt64_some _ (by
    unfold inInt64 INT64_MIN INT64_MAX; rcases hσ with h | h <;> rw [h] <;> omega)]
  simp only [Option.some_bind]
  rw [checkInt64_some _ (by
    unfold inInt64 INT64_MIN INT64_MAX; rw [e]; rcases hσ with h | h <;> rw [h] <;> omega)]
  simp only [Option.some_bind]
  rw [checkInt64_some _ (by
    unfold inInt64 INT64_MIN INT64_MAX; rw [e]; rcases hσ with h | h <;> rw [h] <;> omega)]
  simp only [Option.some_bind]

theorem polyInner (a b : LatticeVector) (ha : ∀ i, a i < 3329) (hb : ∀ j, b j < 3329)
    (i : Fin 8) (r0 : LatticeVector) (base : Fin 8 → Int)
    (h0 : ∀ k, (r0 k : Int) = base k % 3329) :
    ∃ r, forLoopM 8 (fun j result => do
        let idx : Fin 8 := ⟨(i.val + j.val) % LATTICE_DIMENSION, Nat.mod_lt _ (by decide)⟩
        let sign : Int := if i.val + j.val ≥ LATTICE_DIMENSION then -1 else 1
        let signed_a ← mulInt64 sign (a i : Int)
        let product ← mulInt64 signed_a (b j : Int)
        let total ← addInt64 (result idx : Int) product
        pure (Function.update result idx (ModularReduce total))) r0 = some r ∧
      ∀ k, (r k : Int)
        = (base k + ((List.finRange 8).map (fun j => polyTerm a b k i j)).sum) % 3329 := by
  apply foldlM_inv
    (fun (pre : List (Fin 8)) (r : LatticeVector) =>
      ∀ k, (r k : Int) = (base k + (pre.map (fun j => polyTerm a b k i j)).sum) % 3329)
  · intro k; simpa using h0 k
  · intro pre j post r _ hr
    have hidx := hr ⟨(i.val + j.val) % 8, Nat.mod_lt _ (by decide)⟩
    have hrlt : r ⟨(i.val + j.val) % 8, Nat.mod_lt _ (by decide)⟩ < 3329 := by omega
    have hσ : (if i.val + j.val ≥ 8 then (-1 : Int) else 1) = -1 ∨
        (if i.val + j.val ≥ 8 then (-1 : Int) else 1) = 1 := by
      split_ifs
      · exact Or.inl rfl
      · exact Or.inr rfl
    refine ⟨_, polyStep (a i) (b j) (ha i) (hb j) _ hrlt _ hσ
      (fun total => Function.update r ⟨(i.val + j.val) % 8, Nat.mod_lt _ (by decide)⟩
        (ModularReduce total)), ?_⟩
    intro k
    simp only [List.map_append, List.sum_append, List.map_cons, List.map_nil,
      List.sum_cons, List.sum_nil, add_zero]
    by_cases hk : k = ⟨(i.val + j.val) % 8, Nat.mod_lt _ (by decide)⟩
    · subst hk
      rw [Function.update_same, ModularReduce_eq_emod, hidx]
      have : polyTerm a b ⟨(i.val + j.val) % 8, Nat.mod_lt _ (by decide)⟩ i j
          = (if i.val + j.val ≥ 8 then (-1 : Int) else 1) * (a i : Int) * (b j : Int) := by
        simp [polyTerm]
      rw [this]
      omega
    · rw [Function.update_noteq hk, hr k]
      have : polyTerm a b k i j = 0 := by
        unfold polyTerm
        rw [if_neg]
        intro h
        exact hk (Fin.ext h.symm)
      rw [this]
      simp

theorem polyTerm_split (a b : LatticeVector) (k i j : Fin 8) :
    polyTerm a b k i j
      = (if i.val + j.val = k.val then (a i : Int) * (b j : Int) else 0)
        - (if i.val + j.val = k.val + 8 then (a i : Int) * (b j : Int) else 0) := by
  have hi := i.isLt
  have hj := j.isLt
  have hk := k.isLt
  unfold polyTerm
  by_cases h1 : i.val + j.val = k.val
  · rw [if_pos (by omega), if_neg (by omega), if_pos h1, if_neg (by omega)]
    ring
  · by_cases h2 : i.val + j.val = k.val + 8
    · rw [if_pos (by omega), if_pos (by omega), if_neg h1, if_pos h2]
      ring
    · rw [if_neg (by omega), if_neg h1, if_neg h2]
      ring

theorem PolynomialMultiply_eq (a b : LatticeVector) (r0 : LatticeVector)
    (ha : ∀ i, a i < 3329) (hb : ∀ j, b j < 3329) :
    ∃ r, PolynomialMultiply a b r0 = some r ∧ ∀ k, (r k : Int) = specPolyCoeff a b k := by
  obtain ⟨r, hr, hP⟩ := foldlM_inv
    (fun (pre : List (Fin 8)) (r : LatticeVector) =>
      ∀ k, (r k : Int)
        = (pre.map (fun i => ((List.finRange 8).map (fun j => polyTerm a b k i j)).sum)).sum
            % 3329)
    (fun result i => forLoopM 8 (fun j result => do
        let idx : Fin 8 := ⟨(i.val + j.val) % LATTICE_DIMENSION, Nat.mod_lt _ (by decide)⟩
        let sign : Int := if i.val + j.val ≥ LATTICE_DIMENSION then -1 else 1
        let signed_a ← mulInt64 sign (a i : Int)
        let product ← mulInt64 signed_a (b j : Int)
        let total ← addInt64 (result idx : Int) product
        pure (Function.update result idx (ModularReduce total))) result)
    (List.finRange 8) (fun _ => 0)
    (by intro k; simp)
    (by
      intro pre i post r _ hr
      obtain ⟨r', e, h'⟩ := polyInner a b ha hb i r _ hr
      refine ⟨r', e, fun k => ?_⟩
      rw [h' k]
      simp only [List.map_append, List.sum_append, List.map_cons, List.map_nil,
        List.sum_cons, List.sum_nil, add_zero])
  refine ⟨r, hr, fun k => ?_⟩
  rw [hP k]
  unfold specPolyCoeff
  rw [← Finset.sum_sub_distrib]
  rw [Fin.sum_univ_def]
  congr 2
  refine List.map_congr_left (fun i _ => ?_)
  rw [← Finset.sum_sub_distrib, Fin.sum_univ_def]
  congr 1
  refine List.map_congr_left (fun j _ => ?_)
  exact polyTerm_split a b k i j


theorem monomial_lt (n : Nat) (i : Fin 8) : monomial n i < 3329 := by
  unfold monomial; split_ifs <;> decide

/-! ## State effect and digest of HashLatticePOW -/

theorem InitializeLatticeMatrix_counters (H : List Byte → Stage) (seed : uint256)
    (st : LatticeState) :
    (InitializeLatticeMatrix H seed st).latticeOpHits = st.latticeOpHits ∧
      (InitializeLatticeMatrix H seed st).latticeOpTotal = st.latticeOpTotal := by
  cases h : st.lattice_initialized
  · rw [InitializeLatticeMatrix_fresh H seed st h]; exact ⟨rfl, rfl⟩
  · rw [InitializeLatticeMatrix_done H seed st h]; exact ⟨rfl, rfl⟩

theorem roundLoop_hits (H : List Byte → Stage) (M : LatticeMatrix) (hM : matrixIsUInt32 M)
    (hs0 : Fin 5 → Stage) (hits0 : Fin 4 → Int)
    (s : (Fin 5 → Stage) × (Fin 4 → Int))
    (hs : forLoopM 4 (powRound H M) (hs0, hits0) = some s) :
    ∀ r, s.2 r = toInt32 (hits0 r + 1) := by
  obtain ⟨s', hs', hP⟩ := foldlM_inv
    (fun (pre : List (Fin 4)) (s : (Fin 5 → Stage) × (Fin 4 → Int)) =>
      ∀ r : Fin 4, s.2 r = if r.val < pre.length then toInt32 (hits0 r + 1) else hits0 r)
    (fun s round => powRound H M round s) (List.finRange 4) (hs0, hits0)
    (by intro r; simp)
    (by
      intro pre round post s hl hP
      have hidx := finRange_split_index hl
      refine ⟨_, powRound_eq H M hM round s, ?_⟩
      intro r
      have hslot : (⟨round.val % 4, Nat.mod_lt _ (by decide)⟩ : Fin 4) = round :=
        Fin.ext (Nat.mod_eq_of_lt round.isLt)
      show Function.update s.2 _ _ r = _
      rw [hslot]
      simp only [List.length_append, List.length_singleton]
      by_cases hr : r = round
      · subst hr
        rw [Function.update_same, hP r, if_neg (by omega), if_pos (by omega)]
      · rw [Function.update_noteq hr, hP r]
        have : r.val ≠ round.val := fun h => hr (Fin.ext h)
        by_cases hlt : r.val < pre.length
        · rw [if_pos hlt, if_pos (by omega)]
        · rw [if_neg hlt, if_neg (by omega)])
  have e : s = s' := by
    have : forLoopM 4 (powRound H M) (hs0, hits0) = some s' := hs'
    rw [hs] at this
    exact Option.some.inj this
  subst e
  intro r
  rw [hP r, if_pos]
  have := r.isLt
  simp

theorem HashLatticePOW_eq (H : List Byte → Stage) (input : List Byte) (prev : uint256)
    (st : LatticeState) (hM : matrixIsUInt32 st.global_lattice_matrix) :
    HashLatticePOW H input prev st
      = some (specDigest H (InitializeLatticeMatrix H prev st).global_lattice_matrix input,
          { InitializeLatticeMatrix H prev st with
            latticeOpHits := fun r => toInt32 (st.latticeOpHits r + 1) }) := by
  obtain ⟨s, hs, hP⟩ := roundLoop_stages H
    (InitializeLatticeMatrix H prev st).global_lattice_matrix
    (InitializeLatticeMatrix_uint32 H prev st hM) input
    (Function.update uninitialized 0 (H input))
    (InitializeLatticeMatrix H prev st).latticeOpHits (by simp)
  have hh := roundLoop_hits H _ (InitializeLatticeMatrix_uint32 H prev st hM) _ _ s hs
  unfold HashLatticePOW
  rw [HashLatticePOW_stages_input, hs]
  simp only [Option.some_bind, Option.map_some']
  congr 2
  · funext k
    unfold specDigest
    rw [hP 4]
    rfl
  · congr 1
    funext r
    rw [hh r, (InitializeLatticeMatrix_counters H prev st).1]

theorem HashLatticePOW_seed_irrelevant (H : List Byte → Stage) (input : List Byte)
    (p1 p2 : uint256) (st : LatticeState) (h : st.lattice_initialized = true) :
    HashLatticePOW H input p1 st = HashLatticePOW H input p2 st := by
  unfold HashLatticePOW
  rw [HashLatticePOW_stages_input, HashLatticePOW_stages_input,
    InitializeLatticeMatrix_done H p1 st h, InitializeLatticeMatrix_done H p2 st h]

theorem InitializeLatticeMatrix_matrix_of_hits (H : List Byte → Stage) (seed : uint256)
    (st : LatticeState) (hits : Fin 4 → Int) :
    (InitializeLatticeMatrix H seed { st with latticeOpHits := hits }).global_lattice_matrix
      = (InitializeLatticeMatrix H seed st).global_lattice_matrix := by
  rcases Bool.eq_false_or_eq_true st.lattice_initialized with h | h
  · rw [InitializeLatticeMatrix_done H seed st h,
      InitializeLatticeMatrix_done H seed { st with latticeOpHits := hits } h]
  · rw [InitializeLatticeMatrix_fresh H seed st h,
      InitializeLatticeMatrix_fresh H seed { st with latticeOpHits := hits } h]

/-! ## The counting sponge adapter -/

theorem foldl_count {ι α : Type} (f : ι → α → α) (k : Nat) (l : List ι) (a : α) (c : Nat) :
    l.foldl (fun (s : α × Nat) i => (f i s.1, s.2 + k)) (a, c)
      = (l.foldl (fun a i => f i a) a, c + l.length * k) := by
  induction l generalizing a c with
  | nil => simp
  | cons i t ih =>
    rw [List.foldl_cons, List.foldl_cons, ih]
    simp only [List.length_cons]
    congr 1
    ring

theorem forLoop_count (n : Nat) {α : Type} (f : Fin n → α → α) (k : Nat) (a : α) (c : Nat) :
    forLoop n (fun i (s : α × Nat) => (f i s.1, s.2 + k)) (a, c)
      = (forLoop n f a, c + n * k) := by
  unfold forLoop
  rw [foldl_count, List.length_finRange]

theorem foldlM_count {ι α : Type} (g : ι → α → Option α) (k : Nat) (l : List ι) (a : α)
    (c : Nat) :
    l.foldlM (fun (s : α × Nat) i => (g i s.1).map (fun x => (x, s.2 + k))) (a, c)
      = (l.foldlM (fun a i => g i a) a).map (fun x => (x, c + l.length * k)) := by
  induction l generalizing a c with
  | nil => simp
  | cons i t ih =>
    rw [List.foldlM_cons, List.foldlM_cons]
    cases h : g i a with
    | none => simp
    | some x =>
      simp only [Option.map_some', Option.some_bind, Option.bind_eq_bind]
      rw [ih]
      simp only [List.length_cons]
      congr 1
      funext y
      congr 1
      ring

theorem forLoopM_count (n : Nat) {α : Type} (g : Fin n → α → Option α) (k : Nat) (a : α)
    (c : Nat) :
    forLoopM n (fun i (s : α × Nat) => (g i s.1).map (fun x => (x, s.2 + k))) (a, c)
      = (forLoopM n g a).map (fun x => (x, c + n * k)) := by
  unfold forLoopM
  rw [foldlM_count, List.length_finRange]

theorem GenerateErrorVectorCounted_eq (H : List Byte → Stage) (seed : uint256)
    (error : LatticeVector) (cycles : Nat) :
    GenerateErrorVectorCounted H seed error cycles
      = (GenerateErrorVector H seed error, cycles + 1) := rfl

theorem InitializeLatticeMatrixCounted_eq (H : List Byte → Stage) (seed : uint256)
    (st : LatticeState) (cycles : Nat) :
    InitializeLatticeMatrixCounted H seed st cycles
      = (InitializeLatticeMatrix H seed st,
          cycles + (if st.lattice_initialized then 0 else 65)) := by
  unfold InitializeLatticeMatrixCounted InitializeLatticeMatrix
  rcases Bool.eq_false_or_eq_true st.lattice_initialized with h | h
  · simp [h]
  · simp only [h, Bool.false_eq_true, if_false, SpongeCounted]
    have inner : ∀ (i : Fin 8) (s : LatticeMatrix × Nat),
        forLoop 8 (fun j (s : LatticeMatrix × Nat) =>
          (Function.update s.1 i (Function.update (s.1 i) j
            (elementFold (Sponge H { absorbed := [] }
              (elementSeed (Sponge H { absorbed := [] } (List.ofFn seed)) i j)))), s.2 + 1)) s
        = (forLoop 8 (fun j (m : LatticeMatrix) =>
            Function.update m i (Function.update (m i) j
              (elementFold (Sponge H { absorbed := [] }
                (elementSeed (Sponge H { absorbed := [] } (List.ofFn seed)) i j)))) ) s.1,
            s.2 + 8) := by
      intro i s
      exact forLoop_count 8 (fun j (m : LatticeMatrix) =>
            Function.update m i (Function.update (m i) j
              (elementFold (Sponge H { absorbed := [] }
                (elementSeed (Sponge H { absorbed := [] } (List.ofFn seed)) i j))))) 1 s.1 s.2
    simp only [inner]
    rw [forLoop_count 8 (fun i (m : LatticeMatrix) =>
          forLoop 8 (fun j (m : LatticeMatrix) =>
            Function.update m i (Function.update (m i) j
              (elementFold (Sponge H { absorbed := [] }
                (elementSeed (Sponge H { absorbed := [] } (List.ofFn seed)) i j))))) m) 8]

theorem powRoundCounted_eq (H : List Byte → Stage) (matrix : LatticeMatrix) (round : Fin 4)
    (s : ((Fin 5 → Stage) × (Fin 4 → Int)) × Nat) :
    powRoundCounted H matrix round s
      = (powRound H matrix round s.1).map (fun x => (x, s.2 + 2)) := by
  unfold powRoundCounted powRound latticeRound
  simp only [GenerateErrorVectorCounted_eq, SpongeCounted]
  cases LatticeMatrixMultiply (extractVector (s.1.1 round.castSucc)) matrix uninitialized <;> rfl

theorem HashLatticePOWCounted_eq (H : List Byte → Stage) (input : List Byte)
    (prev : uint256) (st : LatticeState) (cycles : Nat) :
    HashLatticePOWCounted H input prev st cycles
      = (HashLatticePOW H input prev st).map
          (fun r => (r, cycles + (if st.lattice_initialized then 9 else 74))) := by
  unfold HashLatticePOWCounted HashLatticePOW HashLatticePOW_stages
  simp only [SpongeCounted, InitializeLatticeMatrixCounted_eq]
  have hb : powRoundCounted H (InitializeLatticeMatrix H prev st).global_lattice_matrix
      = fun round (s : ((Fin 5 → Stage) × (Fin 4 → Int)) × Nat) =>
          (powRound H (InitializeLatticeMatrix H prev st).global_lattice_matrix round s.1).map
            (fun x => (x, s.2 + 2)) := by
    funext round s
    exact powRoundCounted_eq H _ round s
  rw [hb, forLoopM_count]
  cases forLoopM 4 (powRound H (InitializeLatticeMatrix H prev st).global_lattice_matrix)
      (Function.update uninitialized 0
        (Sponge H { absorbed := [] } (List.take input.length (if input = [] then pblank else input))),
        (InitializeLatticeMatrix H prev st).latticeOpHits) with
  | none => rfl
  | some x =>
    simp only [Option.map_some', Option.some_bind, Option.pure_def, Option.bind_eq_bind]
    congr 2
    split_ifs <;> omega

/-! ## CHashLattice256 -/

theorem Finalize_eq (H : List Byte → Stage) (c : CHashLattice256) (st : LatticeState)
    (hM : matrixIsUInt32 st.global_lattice_matrix) :
    CHashLattice256.Finalize H c st
      = some ((fun k => H (specSer (specMixed H st.global_lattice_matrix
                (H (c.keccak.absorbed ++ c.buffer)))) ⟨k.val, by omega⟩),
          { c with keccak := { absorbed := [] } }, st) := by
  have h1 : CHashLattice256.Finalize H c st
      = (LatticeMatrixMultiply (extractVector (H (c.keccak.absorbed ++ c.buffer)))
          st.global_lattice_matrix uninitialized).bind (fun result_vector =>
          some ((fun k => Sponge H { absorbed := [] }
              (List.ofFn (serializeVector (addError result_vector
                (GenerateErrorVector H (roundSeed (H (c.keccak.absorbed ++ c.buffer)))
                  uninitialized)))) ⟨k.val, by omega⟩),
            { c with keccak := { absorbed := [] } }, st)) := rfl
  rw [h1, LatticeMatrixMultiply_eq _ _ _ (extractVector_lt _) hM]
  simp only [Option.some_bind, addError_spec, serializeVector_spec, Sponge_eq]

theorem Finalize_frame (H : List Byte → Stage) (c : CHashLattice256) (st : LatticeState)
    (r : uint256 × CHashLattice256 × LatticeState)
    (h : CHashLattice256.Finalize H c st = some r) : r.2.2 = st := by
  have h1 : CHashLattice256.Finalize H c st
      = (LatticeMatrixMultiply (extractVector (H (c.keccak.absorbed ++ c.buffer)))
          st.global_lattice_matrix uninitialized).bind (fun result_vector =>
          some ((fun k => Sponge H { absorbed := [] }
              (List.ofFn (serializeVector (addError result_vector
                (GenerateErrorVector H (roundSeed (H (c.keccak.absorbed ++ c.buffer)))
                  uninitialized)))) ⟨k.val, by omega⟩),
            { c with keccak := { absorbed := [] } }, st)) := rfl
  rw [h1] at h
  cases hl : LatticeMatrixMultiply (extractVector (H (c.keccak.absorbed ++ c.buffer)))
      st.global_lattice_matrix uninitialized with
  | none => rw [hl] at h; cases h
  | some v =>
    rw [hl] at h
    simp only [Option.some_bind, Option.some.injEq] at h
    rw [← h]

theorem new_Write (buffer : List Byte) :
    CHashLattice256.new.Write buffer = { keccak := { absorbed := [] }, buffer := buffer } := rfl

/-! ## The zero sponge -/

theorem specPolyCoeff_comm (a b : LatticeVector) (k : Fin 8) :
    specPolyCoeff a b k = specPolyCoeff b a k := by
  unfold specPolyCoeff
  have h : ∀ n : Nat,
      (∑ i : Fin 8, ∑ j : Fin 8, if i.val + j.val = n then (a i : Int) * (b j : Int) else 0)
        = ∑ i : Fin 8, ∑ j : Fin 8, if i.val + j.val = n then (b i : Int) * (a j : Int) else 0 := by
    intro n
    rw [Finset.sum_comm]
    refine Finset.sum_congr rfl (fun i _ => Finset.sum_congr rfl (fun j _ => ?_))
    rw [Nat.add_comm, Int.mul_comm]
  rw [h, h]

theorem sum_mod_linear (u v : LatticeVector) (m : Fin 8 → Nat) :
    (∑ j, (u j + v j) % 3329 * m j) % 3329
      = ((∑ j, u j * m j) % 3329 + (∑ j, v j * m j) % 3329) % 3329 := by
  rw [Finset.sum_nat_mod]
  have h : ∀ j, (u j + v j) % 3329 * m j % 3329 = (u j * m j + v j * m j) % 3329 := by
    intro j
    rw [Nat.mul_mod, Nat.mod_mod, ← Nat.mul_mod, Nat.add_mul]
  simp only [h]
  rw [← Finset.sum_nat_mod, Finset.sum_add_distrib, Nat.add_mod]

/-! ## The locals of Finalize and the sponge blocks -/

theorem Finalize_of_locals (H : List Byte → Stage) (c : CHashLattice256) (st : LatticeState) :
    CHashLattice256.Finalize H c st
      = (CHashLattice256.Finalize_locals H c st).map (fun l =>
          ((fun k : Fin 32 => l.final_result ⟨k.val, by omega⟩),
            { c with keccak := { absorbed := [] } }, st)) := by
  unfold CHashLattice256.Finalize CHashLattice256.Finalize_locals
  simp only [Option.pure_def, Option.bind_eq_bind]
  cases LatticeMatrixMultiply _ st.global_lattice_matrix uninitialized <;> rfl

theorem Finalize_locals_eq (H : List Byte → Stage) (c : CHashLattice256) (st : LatticeState)
    (hM : matrixIsUInt32 st.global_lattice_matrix) :
    CHashLattice256.Finalize_locals H c st = some
      { keccac_result := H (c.keccak.absorbed ++ c.buffer)
        lattice_vector := extractVector (H (c.keccak.absorbed ++ c.buffer))
        error_vector := GenerateErrorVector H (roundSeed (H (c.keccak.absorbed ++ c.buffer)))
          uninitialized
        result_vector := specMixed H st.global_lattice_matrix (H (c.keccak.absorbed ++ c.buffer))
        final_bytes := serializeVector
          (specMixed H st.global_lattice_matrix (H (c.keccak.absorbed ++ c.buffer)))
        final_result := H (specSer
          (specMixed H st.global_lattice_matrix (H (c.keccak.absorbed ++ c.buffer)))) } := by
  have h1 : CHashLattice256.Finalize_locals H c st
      = (LatticeMatrixMultiply (extractVector (H (c.keccak.absorbed ++ c.buffer)))
          st.global_lattice_matrix uninitialized).bind (fun result_vector =>
          some { keccac_result := H (c.keccak.absorbed ++ c.buffer)
                 lattice_vector := extractVector (H (c.keccak.absorbed ++ c.buffer))
                 error_vector := GenerateErrorVector H
                   (roundSeed (H (c.keccak.absorbed ++ c.buffer))) uninitialized
                 result_vector := addError result_vector (GenerateErrorVector H
                   (roundSeed (H (c.keccak.absorbed ++ c.buffer))) uninitialized)
                 final_bytes := serializeVector (addError result_vector (GenerateErrorVector H
                   (roundSeed (H (c.keccak.absorbed ++ c.buffer))) uninitialized))
                 final_result := Sponge H { absorbed := [] }
                   (List.ofFn (serializeVector (addError result_vector (GenerateErrorVector H
                     (roundSeed (H (c.keccak.absorbed ++ c.buffer))) uninitialized)))) }) := rfl
  rw [h1, LatticeMatrixMultiply_eq _ _ _ (extractVector_lt _) hM]
  simp only [Option.some_bind, addError_spec, serializeVector_spec, Sponge_eq]

theorem specWord_lt (s : Stage) (i : Fin 8) : specWord s i < 4294967296 := by
  unfold specWord
  have h0 := (s ⟨4 * i.val, by omega⟩).isLt
  have h1 := (s ⟨4 * i.val + 1, by omega⟩).isLt
  have h2 := (s ⟨4 * i.val + 2, by omega⟩).isLt
  have h3 := (s ⟨4 * i.val + 3, by omega⟩).isLt
  omega

theorem assembleWord_spec (s : Stage) (i : Fin 8) : assembleWord s i = specWord s i := by
  have h := congrFun (extractVector_spec s) i
  unfold specWord
  rw [assembleWord_eq]
  simp only [Nat.mul_comm i.val 4]
  norm_num

theorem shl32_top_byte (b : Byte) :
    shl32 (b.val : Int) 24
      = if b.val < 128 then (b.val : Int) * 2 ^ 24 else (b.val : Int) * 2 ^ 24 - 2 ^ 32 := by
  unfold shl32 toInt32
  have := b.isLt
  split_ifs <;> omega

theorem specCellFold_lt (bytes : List Byte) : specCellFold bytes < 3329 := by
  unfold specCellFold
  induction bytes using List.reverseRecOn with
  | nil => simp
  | append_singleton l b _ =>
    rw [List.foldl_append]
    exact Nat.mod_lt _ (by decide)

theorem ncard_range_le_card {α β γ : Type} [Fintype γ] (f : α → β) (g : γ → β)
    (h : ∀ a, ∃ t, f a = g t) : (Set.range f).ncard ≤ Fintype.card γ := by
  have hsub : Set.range f ⊆ Set.range g := by
    rintro _ ⟨a, rfl⟩
    obtain ⟨t, ht⟩ := h a
    exact ⟨t, ht.symm⟩
  have h1 : (Set.range f).ncard ≤ (Set.range g).ncard :=
    Set.ncard_le_ncard hsub (Set.finite_range g)
  have h2 : (Set.range g).ncard ≤ Fintype.card γ := by
    rw [← Set.image_univ]
    have h3 : (g '' Set.univ).ncard ≤ (Set.univ : Set γ).ncard :=
      Set.ncard_image_le Set.finite_univ
    rw [Set.ncard_univ, Nat.card_eq_fintype_card] at h3
    exact h3
  exact h1.trans h2

theorem specMixed_zero_matrix (H : List Byte → Stage) (stage : Stage) :
    specMixed H (fun _ _ => 0) stage = specError H stage := by
  funext i
  unfold specMixed
  have h := GenerateErrorVector_lt H (fun k => stage ⟨32 + k.val, by omega⟩) uninitialized i
  simp only [Nat.zero_mul, Finset.sum_const_zero, Nat.zero_add]
  exact Nat.mod_eq_of_lt h

theorem Finalize_zero_matrix (H : List Byte → Stage) (st : LatticeState)
    (hz : st.global_lattice_matrix = fun _ _ => 0) (buffer : List Byte) :
    CHashLattice256.Finalize H (CHashLattice256.new.Write buffer) st
      = some ((fun k => H (List.ofFn (serializeVector (GenerateErrorVector H
            (fun k => H buffer ⟨32 + k.val, by omega⟩) uninitialized))) ⟨k.val, by omega⟩),
          { keccak := { absorbed := [] }, buffer := buffer }, st) := by
  have hM : matrixIsUInt32 st.global_lattice_matrix := by
    rw [hz]; intro _ _; exact Nat.succ_pos _
  have e := Finalize_eq H (CHashLattice256.new.Write buffer) st hM
  rw [new_Write] at e
  simp only [List.nil_append] at e
  rw [new_Write, e, hz, specMixed_zero_matrix, ← serializeVector_spec]
  rfl

theorem card_ternary_vectors : Fintype.card (Fin 8 → Fin 3) = 6561 := by
  simp

theorem card_reduced_vectors : Fintype.card (Fin 8 → Fin 3329) = 3329 ^ 8 := by
  rw [Fintype.card_fun, Fintype.card_fin, Fintype.card_fin]

theorem serializeVector_val (v : LatticeVector) (k : Fin 32) :
    (serializeVector v k).val = v ⟨k.val / 4, by omega⟩ / 256 ^ (3 - k.val % 4) % 256 := by
  rw [serializeVector_eq]
  show (v ⟨k.val / 4, _⟩ >>> (8 * (3 - k.val % 4)) &&& 255) % 256
    = v ⟨k.val / 4, _⟩ / 256 ^ (3 - k.val % 4) % 256
  rw [Nat.shiftRight_eq_div_pow, Nat.pow_mul]
  have e8 : (2 : Nat) ^ 8 = 256 := by norm_num
  rw [e8]
  have h : v ⟨k.val / 4, by omega⟩ / 256 ^ (3 - k.val % 4) &&& 255
      = v ⟨k.val / 4, by omega⟩ / 256 ^ (3 - k.val % 4) % 256 :=
    Nat.and_pow_two_sub_one_eq_mod _ 8
  rw [h, Nat.mod_mod]

theorem reduced_bytes (x : Nat) (hx : x < 3329) :
    x / 16777216 % 256 = 0 ∧ x / 65536 % 256 = 0 ∧
    0 * 2 ^ 24 + 0 * 2 ^ 16 + x / 256 % 256 * 2 ^ 8 + x % 256 = x := by
  refine ⟨?_, ?_, ?_⟩ <;> omega

theorem serializeVector_block (v : LatticeVector) (hv : ∀ i, v i < 3329) (i : Fin 8) :
    serializeVector v ⟨4 * i.val, by omega⟩ = 0 ∧
    serializeVector v ⟨4 * i.val + 1, by omega⟩ = 0 ∧
    specDecode (serializeVector v) i = v i := by
  obtain ⟨z0, z1, z2⟩ := reduced_bytes (v i) (hv i)
  have b0 : 4 * i.val < 32 := by omega
  have b1 : 4 * i.val + 1 < 32 := by omega
  have b2 : 4 * i.val + 2 < 32 := by omega
  have b3 : 4 * i.val + 3 < 32 := by omega
  have d0 : (4 * i.val) / 4 = i.val := by omega
  have d1 : (4 * i.val + 1) / 4 = i.val := by omega
  have d2 : (4 * i.val + 2) / 4 = i.val := by omega
  have d3 : (4 * i.val + 3) / 4 = i.val := by omega
  have m0 : (4 * i.val) % 4 = 0 := by omega
  have m1 : (4 * i.val + 1) % 4 = 1 := by omega
  have m2 : (4 * i.val + 2) % 4 = 2 := by omega
  have m3 : (4 * i.val + 3) % 4 = 3 := by omega
  have k0 : (serializeVector v ⟨4 * i.val, b0⟩).val = 0 := by
    refine Eq.trans ?_ z0
    rw [serializeVector_val]
    simp only [d0, m0]
    norm_num
  have k1 : (serializeVector v ⟨4 * i.val + 1, b1⟩).val = 0 := by
    refine Eq.trans ?_ z1
    rw [serializeVector_val]
    simp only [d1, m1]
    norm_num
  have k2 : (serializeVector v ⟨4 * i.val + 2, b2⟩).val = v i / 256 % 256 := by
    rw [serializeVector_val]
    simp only [d2, m2]
    norm_num
  have k3 : (serializeVector v ⟨4 * i.val + 3, b3⟩).val = v i % 256 := by
    rw [serializeVector_val]
    simp only [d3, m3]
    norm_num
  refine ⟨Fin.ext k0, Fin.ext k1, ?_⟩
  unfold specDecode
  rw [k0, k1, k2, k3]
  exact z2

theorem specMixed_lt (H : List Byte → Stage) (M : LatticeMatrix) (stage : Stage) (i : Fin 8) :
    specMixed H M stage i < 3329 := Nat.mod_lt _ (by decide)

theorem serializeVector_mem (v : LatticeVector) (hv : ∀ i, v i < 3329) :
    serializeVector v ∈ reducedBlocks :=
  ⟨fun i => ⟨v i, hv i⟩, rfl⟩

theorem reducedBlocks_ncard : reducedBlocks.ncard ≤ 3329 ^ 8 := by
  rw [← card_reduced_vectors]
  exact ncard_range_le_card _ (fun t : Fin 8 → Fin 3329 => serializeVector (fun i => (t i).val))
    (fun t => ⟨t, rfl⟩)

/-! ## SipHash -/

theorem tmod_eight_natCast (m : Nat) : Int.tmod (m : Int) 8 = ((m % 8 : Nat) : Int) := rfl

theorem land_seven_natCast (m : Nat) : Int.land (m : Int) 7 = ((m % 8 : Nat) : Int) := by
  have h : Int.land (m : Int) 7 = ((m &&& 7 : Nat) : Int) := rfl
  rw [h]
  exact congrArg _ (Nat.and_pow_two_sub_one_eq_mod m 3)

theorem checkInt_natCast (m : Nat) :
    checkInt ((m : Int) + 1) = if m + 1 ≤ 2147483647 then some ((m + 1 : Nat) : Int) else none := by
  unfold checkInt INT_MIN INT_MAX
  by_cases h : m + 1 ≤ 2147483647
  · rw [if_pos h, if_pos (by omega)]
    rfl
  · rw [if_neg h, if_neg (by omega)]

theorem writeStep_natCast (s : SipLocals) (t m : Nat) (b : Byte) :
    CSipHasher.writeStep (s, t, (m : Int)) b
      = if m + 1 ≤ 2147483647 then
          some (if (m + 1) % 8 = 0
            then (sipWord s (t ||| (b.val <<< (8 * (m % 8))) % 18446744073709551616), 0,
              ((m + 1 : Nat) : Int))
            else (s, t ||| (b.val <<< (8 * (m % 8))) % 18446744073709551616,
              ((m + 1 : Nat) : Int)))
        else none := by
  have hm : m % 8 < 8 := Nat.mod_lt _ (by decide)
  have hs : (0 : Int) ≤ 8 * ((m % 8 : Nat) : Int) ∧ 8 * ((m % 8 : Nat) : Int) < 64 := by omega
  have ht : (8 * ((m % 8 : Nat) : Int)).toNat = 8 * (m % 8) := by omega
  unfold CSipHasher.writeStep
  simp only [tmod_eight_natCast, if_pos hs, ht, checkInt_natCast]
  by_cases h : m + 1 ≤ 2147483647
  · simp only [if_pos h, Option.pure_def, Option.bind_eq_bind, Option.some_bind,
      land_seven_natCast]
    by_cases h8 : (m + 1) % 8 = 0
    · rw [if_pos h8, if_pos (by rw [h8]; rfl)]
    · rw [if_neg h8, if_neg (by omega)]
  · simp only [if_neg h, Option.bind_eq_bind, Option.none_bind]

theorem writeStep_mid (s : SipLocals) (t m k : Nat) (b : Byte) (hk : m % 8 = k)
    (hm : m + 1 ≤ 2147483647) (h8 : (m + 1) % 8 ≠ 0) :
    CSipHasher.writeStep (s, t, (m : Int)) b
      = some (s, t ||| (b.val <<< (8 * k)) % 18446744073709551616, ((m + 1 : Nat) : Int)) := by
  rw [writeStep_natCast, if_pos hm, if_neg h8, hk]

theorem writeStep_last (s : SipLocals) (t m k : Nat) (b : Byte) (hk : m % 8 = k)
    (hm : m + 1 ≤ 2147483647) (h8 : (m + 1) % 8 = 0) :
    CSipHasher.writeStep (s, t, (m : Int)) b
      = some (sipWord s (t ||| (b.val <<< (8 * k)) % 18446744073709551616), 0,
          ((m + 1 : Nat) : Int)) := by
  rw [writeStep_natCast, if_pos hm, if_pos h8, hk]

theorem foldlM_writeStep_overflow (l : List Byte) :
    ∀ (s : SipLocals) (t m : Nat), m ≤ 2147483647 → 2147483647 < m + l.length →
      l.foldlM CSipHasher.writeStep (s, t, (m : Int)) = none := by
  induction l with
  | nil => intro s t m h0 h; simp only [List.length_nil] at h; omega
  | cons b r ih =>
    intro s t m _ h
    rw [List.foldlM_cons, writeStep_natCast]
    by_cases hm : m + 1 ≤ 2147483647
    · rw [if_pos hm]
      simp only [Option.bind_eq_bind, Option.some_bind]
      have hl : 2147483647 < m + 1 + r.length := by
        simp only [List.length_cons] at h; omega
      by_cases h8 : (m + 1) % 8 = 0
      · rw [if_pos h8]; exact ih _ _ _ hm hl
      · rw [if_neg h8]; exact ih _ _ _ hm hl
    · rw [if_neg hm]; rfl

theorem or_shift_add (x b s : Nat) (hx : x < 2 ^ s) (hb : b < 256) (hs : s ≤ 56) :
    x ||| (b <<< s) % 18446744073709551616 = x + b * 2 ^ s := by
  have h1 : b * 2 ^ s < 18446744073709551616 := by
    have h2 : 2 ^ s ≤ 2 ^ 56 := Nat.pow_le_pow_right (by decide) hs
    have h3 : b * 2 ^ s ≤ 255 * 2 ^ 56 := Nat.mul_le_mul (by omega) h2
    have h4 : 255 * 2 ^ 56 < 18446744073709551616 := by norm_num
    omega
  rw [Nat.shiftLeft_eq, Nat.mod_eq_of_lt h1, Nat.lor_comm, shifted_or_low b x s hx, Nat.add_comm]

theorem or_le_word (b0 b1 b2 b3 b4 b5 b6 b7 : Nat) (h0 : b0 < 256) (h1 : b1 < 256)
    (h2 : b2 < 256) (h3 : b3 < 256) (h4 : b4 < 256) (h5 : b5 < 256) (h6 : b6 < 256)
    (h7 : b7 < 256) :
    0 ||| (b0 <<< (8 * 0)) % 18446744073709551616
        ||| (b1 <<< (8 * 1)) % 18446744073709551616
        ||| (b2 <<< (8 * 2)) % 18446744073709551616
        ||| (b3 <<< (8 * 3)) % 18446744073709551616
        ||| (b4 <<< (8 * 4)) % 18446744073709551616
        ||| (b5 <<< (8 * 5)) % 18446744073709551616
        ||| (b6 <<< (8 * 6)) % 18446744073709551616
        ||| (b7 <<< (8 * 7)) % 18446744073709551616
      = b0 + b1 * 2 ^ 8 + b2 * 2 ^ 16 + b3 * 2 ^ 24 + b4 * 2 ^ 32 + b5 * 2 ^ 40 + b6 * 2 ^ 48
          + b7 * 2 ^ 56 := by
  rw [or_shift_add 0 b0 (8 * 0) (by norm_num) h0 (by norm_num),
    or_shift_add _ b1 (8 * 1) (by norm_num; omega) h1 (by norm_num),
    or_shift_add _ b2 (8 * 2) (by norm_num; omega) h2 (by norm_num),
    or_shift_add _ b3 (8 * 3) (by norm_num; omega) h3 (by norm_num),
    or_shift_add _ b4 (8 * 4) (by norm_num; omega) h4 (by norm_num),
    or_shift_add _ b5 (8 * 5) (by norm_num; omega) h5 (by norm_num),
    or_shift_add _ b6 (8 * 6) (by norm_num; omega) h6 (by norm_num),
    or_shift_add _ b7 (8 * 7) (by norm_num; omega) h7 (by norm_num)]
  norm_num

theorem foldlM_writeStep_block (s : SipLocals) (n : Nat) (hn : 8 * n ≤ 2147483647)
    (b0 b1 b2 b3 b4 b5 b6 b7 : Byte) (rest : List Byte) :
    (b0 :: b1 :: b2 :: b3 :: b4 :: b5 :: b6 :: b7 :: rest).foldlM CSipHasher.writeStep
        (s, 0, ((8 * n : Nat) : Int))
      = if 8 * n + 8 ≤ 2147483647 then
          rest.foldlM CSipHasher.writeStep
            (sipWord s (b0.val + b1.val * 2 ^ 8 + b2.val * 2 ^ 16 + b3.val * 2 ^ 24
              + b4.val * 2 ^ 32 + b5.val * 2 ^ 40 + b6.val * 2 ^ 48 + b7.val * 2 ^ 56), 0,
              ((8 * n + 8 : Nat) : Int))
        else none := by
  by_cases h : 8 * n + 8 ≤ 2147483647
  · rw [if_pos h]
    have e0 := fun t => writeStep_mid s t (8 * n) 0 b0 (by omega) (by omega) (by omega)
    have e1 := fun t => writeStep_mid s t (8 * n + 1) 1 b1 (by omega) (by omega) (by omega)
    have e2 := fun t => writeStep_mid s t (8 * n + 2) 2 b2 (by omega) (by omega) (by omega)
    have e3 := fun t => writeStep_mid s t (8 * n + 3) 3 b3 (by omega) (by omega) (by omega)
    have e4 := fun t => writeStep_mid s t (8 * n + 4) 4 b4 (by omega) (by omega) (by omega)
    have e5 := fun t => writeStep_mid s t (8 * n + 5) 5 b5 (by omega) (by omega) (by omega)
    have e6 := fun t => writeStep_mid s t (8 * n + 6) 6 b6 (by omega) (by omega) (by omega)
    have e7 := fun t => writeStep_last s t (8 * n + 7) 7 b7 (by omega) (by omega) (by omega)
    simp only [List.foldlM_cons, e0, e1, e2, e3, e4, e5, e6, e7, Option.bind_eq_bind,
      Option.some_bind]
    rw [or_le_word _ _ _ _ _ _ _ _ b0.isLt b1.isLt b2.isLt b3.isLt b4.isLt b5.isLt b6.isLt
      b7.isLt]
  · rw [if_neg h]
    exact foldlM_writeStep_overflow _ s 0 (8 * n) hn (by simp only [List.length_cons]; omega)

theorem load_store (s : SipLocals) (t : Nat) (c : Int) :
    CSipHasher.load { v := s.store, tmp := t, count := c } = s := rfl

theorem ofFn_uint256 (val : uint256) :
    List.ofFn val = [val 0, val 1, val 2, val 3, val 4, val 5, val 6, val 7, val 8, val 9,
      val 10, val 11, val 12, val 13, val 14, val 15, val 16, val 17, val 18, val 19, val 20,
      val 21, val 22, val 23, val 24, val 25, val 26, val 27, val 28, val 29, val 30,
      val 31] := by
  simp only [List.ofFn_succ, List.ofFn_zero]
  rfl

theorem Write_bytes_eq (h : CSipHasher) (data : List Byte) :
    h.Write_bytes data
      = (data.foldlM CSipHasher.writeStep (h.load, h.tmp, h.count)).map
          (fun l => { v := l.1.store, tmp := l.2.1, count := l.2.2 }) := by
  unfold CSipHasher.Write_bytes
  simp only [Option.pure_def, Option.bind_eq_bind]
  cases data.foldlM CSipHasher.writeStep (h.load, h.tmp, h.count) <;> rfl

theorem Write_bytes_uint256 (k0 k1 : Nat) (val : uint256) :
    (CSipHasher.new k0 k1).Write_bytes (List.ofFn val)
      = some { v := (sipWord (sipWord (sipWord (sipWord (CSipHasher.new k0 k1).load
                (GetUint64 val 0)) (GetUint64 val 1)) (GetUint64 val 2))
                (GetUint64 val 3)).store,
               tmp := 0, count := 32 } := by
  rw [Write_bytes_eq, ofFn_uint256]
  have c0 : (CSipHasher.new k0 k1).count = ((8 * 0 : Nat) : Int) := rfl
  have c1 : ((8 * 0 + 8 : Nat) : Int) = ((8 * 1 : Nat) : Int) := rfl
  have c2 : ((8 * 1 + 8 : Nat) : Int) = ((8 * 2 : Nat) : Int) := rfl
  have c3 : ((8 * 2 + 8 : Nat) : Int) = ((8 * 3 : Nat) : Int) := rfl
  have t0 : (CSipHasher.new k0 k1).tmp = 0 := rfl
  rw [c0, t0, foldlM_writeStep_block _ 0 (by decide), if_pos (by decide), c1,
    foldlM_writeStep_block _ 1 (by decide), if_pos (by decide), c2,
    foldlM_writeStep_block _ 2 (by decide), if_pos (by decide), c3,
    foldlM_writeStep_block _ 3 (by decide), if_pos (by decide)]
  rfl

theorem length_word_32 :
    0 ||| (toUInt64 32 <<< 56) % 18446744073709551616 = (4 <<< 59) % 18446744073709551616 := by
  decide

theorem first_word (k0 k1 d : Nat) :
    sipWord (CSipHasher.new k0 k1).load d
      = { SIPROUND (SIPROUND
            { v0 := 0x736f6d6570736575 ^^^ k0, v1 := 0x646f72616e646f6d ^^^ k1,
              v2 := 0x6c7967656e657261 ^^^ k0, v3 := 0x7465646279746573 ^^^ k1 ^^^ d }) with
          v0 := (SIPROUND (SIPROUND
            { v0 := 0x736f6d6570736575 ^^^ k0, v1 := 0x646f72616e646f6d ^^^ k1,
              v2 := 0x6c7967656e657261 ^^^ k0, v3 := 0x7465646279746573 ^^^ k1 ^^^ d })).v0
            ^^^ d } := rfl

theorem leBytes_four (x : Nat) :
    leBytes 4 x = [toUInt8 (x / 256 ^ 0), toUInt8 (x / 256 ^ 1), toUInt8 (x / 256 ^ 2),
      toUInt8 (x / 256 ^ 3)] := by
  unfold leBytes
  simp only [List.ofFn_succ, List.ofFn_zero]
  rfl

theorem leBytes_eight (x : Nat) :
    leBytes 8 x = [toUInt8 (x / 256 ^ 0), toUInt8 (x / 256 ^ 1), toUInt8 (x / 256 ^ 2),
      toUInt8 (x / 256 ^ 3), toUInt8 (x / 256 ^ 4), toUInt8 (x / 256 ^ 5),
      toUInt8 (x / 256 ^ 6), toUInt8 (x / 256 ^ 7)] := by
  unfold leBytes
  simp only [List.ofFn_succ, List.ofFn_zero]
  rfl

theorem toUInt8_val (n : Nat) : (toUInt8 n).val = n % 256 := rfl

theorem le_word_four (x : Nat) (hx : x < 4294967296) :
    0 ||| ((toUInt8 (x / 256 ^ 0)).val <<< (8 * 0)) % 18446744073709551616
        ||| ((toUInt8 (x / 256 ^ 1)).val <<< (8 * 1)) % 18446744073709551616
        ||| ((toUInt8 (x / 256 ^ 2)).val <<< (8 * 2)) % 18446744073709551616
        ||| ((toUInt8 (x / 256 ^ 3)).val <<< (8 * 3)) % 18446744073709551616 = x := by
  have h0 := (toUInt8 (x / 256 ^ 0)).isLt
  have h1 := (toUInt8 (x / 256 ^ 1)).isLt
  have h2 := (toUInt8 (x / 256 ^ 2)).isLt
  have h3 := (toUInt8 (x / 256 ^ 3)).isLt
  rw [or_shift_add 0 _ (8 * 0) (by norm_num) h0 (by norm_num),
    or_shift_add _ _ (8 * 1) (by norm_num) h1 (by norm_num),
    or_shift_add _ _ (8 * 2) (by norm_num; omega) h2 (by norm_num),
    or_shift_add _ _ (8 * 3) (by norm_num; omega) h3 (by norm_num)]
  simp only [toUInt8_val]
  norm_num
  omega

theorem le_word_eight (x : Nat) (hx : x < 18446744073709551616) :
    (toUInt8 (x / 256 ^ 0)).val + (toUInt8 (x / 256 ^ 1)).val * 2 ^ 8
      + (toUInt8 (x / 256 ^ 2)).val * 2 ^ 16 + (toUInt8 (x / 256 ^ 3)).val * 2 ^ 24
      + (toUInt8 (x / 256 ^ 4)).val * 2 ^ 32 + (toUInt8 (x / 256 ^ 5)).val * 2 ^ 40
      + (toUInt8 (x / 256 ^ 6)).val * 2 ^ 48 + (toUInt8 (x / 256 ^ 7)).val * 2 ^ 56 = x := by
  simp only [toUInt8_val]
  norm_num
  omega

theorem length_word_36 :
    (toUInt64 36 <<< 56) % 18446744073709551616 = (36 <<< 56) % 18446744073709551616 := by
  decide

theorem valid_new (k0 k1 : Nat) : (CSipHasher.new k0 k1).valid := by
  unfold CSipHasher.valid
  exact ⟨show (0 : Int) ≤ 0 by decide, show (0 : Int) ≤ INT_MAX by decide,
    show 0 < 2 ^ (8 * ((0 : Int) % 8).toNat) by decide⟩

theorem valid_natCast (h : CSipHasher) (hv : h.valid) :
    ∃ m : Nat, h.count = (m : Int) ∧ m ≤ 2147483647 ∧ h.tmp < 2 ^ (8 * (m % 8)) := by
  obtain ⟨h0, h1, h2⟩ := hv
  unfold INT_MAX at h1
  obtain ⟨m, hm⟩ := Int.eq_ofNat_of_zero_le h0
  refine ⟨m, hm, by omega, ?_⟩
  rw [hm] at h2
  have e : (((m : Int) % 8).toNat) = m % 8 := by omega
  rw [e] at h2
  exact h2

theorem valid_of_natCast (v : Fin 4 → Nat) (t m : Nat) (hm : m ≤ 2147483647)
    (ht : t < 2 ^ (8 * (m % 8))) : CSipHasher.valid { v := v, tmp := t, count := (m : Int) } := by
  unfold CSipHasher.valid INT_MAX
  have e : (((m : Int) % 8).toNat) = m % 8 := by omega
  refine ⟨by show (0 : Int) ≤ (m : Int); omega, by show (m : Int) ≤ 2147483647; omega, ?_⟩
  show t < 2 ^ (8 * (((m : Int) % 8).toNat))
  rw [e]
  exact ht

theorem pending_bound (t b k : Nat) (ht : t < 2 ^ (8 * k)) (hb : b < 256) (hk : k ≤ 7) :
    t ||| (b <<< (8 * k)) % 18446744073709551616 < 2 ^ (8 * (k + 1)) := by
  rw [or_shift_add t b (8 * k) ht hb (by omega)]
  have e : 2 ^ (8 * (k + 1)) = 256 * 2 ^ (8 * k) := by
    rw [Nat.mul_add, Nat.pow_add]
    norm_num
    exact Nat.mul_comm _ _
  rw [e]
  have h1 : b * 2 ^ (8 * k) ≤ 255 * 2 ^ (8 * k) := Nat.mul_le_mul_right _ (by omega)
  omega

theorem foldlM_writeStep_valid (l : List Byte) :
    ∀ (s : SipLocals) (t m : Nat) (r : SipLocals × Nat × Int), m ≤ 2147483647 →
      t < 2 ^ (8 * (m % 8)) → l.foldlM CSipHasher.writeStep (s, t, (m : Int)) = some r →
      ∃ m' : Nat, r.2.2 = (m' : Int) ∧ m' ≤ 2147483647 ∧ r.2.1 < 2 ^ (8 * (m' % 8)) := by
  induction l with
  | nil =>
    intro s t m r hm ht hr
    simp only [List.foldlM_nil, Option.pure_def, Option.some.injEq] at hr
    subst hr
    exact ⟨m, rfl, hm, ht⟩
  | cons b rest ih =>
    intro s t m r hm ht hr
    rw [List.foldlM_cons, writeStep_natCast] at hr
    by_cases h1 : m + 1 ≤ 2147483647
    · rw [if_pos h1] at hr
      simp only [Option.bind_eq_bind, Option.some_bind] at hr
      have hk : m % 8 ≤ 7 := by omega
      have hb := pending_bound t b.val (m % 8) ht b.isLt hk
      by_cases h8 : (m + 1) % 8 = 0
      · rw [if_pos h8] at hr
        exact ih _ 0 (m + 1) r h1 (by rw [h8]; norm_num) hr
      · rw [if_neg h8] at hr
        have e : (m + 1) % 8 = m % 8 + 1 := by omega
        exact ih _ _ (m + 1) r h1 (by rw [e]; exact hb) hr
    · rw [if_neg h1] at hr
      simp only [Option.bind_eq_bind, Option.none_bind] at hr
      cases hr

theorem valid_Write_bytes (h h' : CSipHasher) (data : List Byte) (hv : h.valid)
    (hw : h.Write_bytes data = some h') : h'.valid := by
  obtain ⟨m, hm, hle, ht⟩ := valid_natCast h hv
  rw [Write_bytes_eq, hm] at hw
  cases hr : data.foldlM CSipHasher.writeStep (h.load, h.tmp, (m : Int)) with
  | none => rw [hr] at hw; cases hw
  | some r =>
    rw [hr] at hw
    simp only [Option.map_some', Option.some.injEq] at hw
    obtain ⟨m', e1, e2, e3⟩ := foldlM_writeStep_valid data _ _ m r hle ht hr
    rw [← hw, e1]
    exact valid_of_natCast _ _ m' e2 e3

theorem checkInt_add_eight (m : Nat) :
    checkInt ((m : Int) + 8) = if m + 8 ≤ 2147483647 then some ((m + 8 : Nat) : Int) else none := by
  unfold checkInt INT_MIN INT_MAX
  by_cases h : m + 8 ≤ 2147483647
  · rw [if_pos h, if_pos (by omega)]
    rfl
  · rw [if_neg h, if_neg (by omega)]

theorem Write_natCast (h : CSipHasher) (data m : Nat) (hm : h.count = (m : Int))
    (h8 : m % 8 = 0) :
    h.Write data = if m + 8 ≤ 2147483647 then
        some { v := (sipWord h.load data).store, tmp := h.tmp, count := ((m + 8 : Nat) : Int) }
      else none := by
  unfold CSipHasher.Write
  have e : Int.tmod (m : Int) 8 = 0 := by
    rw [tmod_eight_natCast, h8]; rfl
  simp only [hm, if_pos e, checkInt_add_eight]
  by_cases hle : m + 8 ≤ 2147483647
  · simp only [if_pos hle, Option.pure_def, Option.bind_eq_bind, Option.some_bind]
  · simp only [if_neg hle, Option.bind_eq_bind, Option.none_bind]

theorem valid_Write (h h' : CSipHasher) (data : Nat) (hv : h.valid)
    (hw : h.Write data = some h') : h'.valid := by
  obtain ⟨m, hm, hle, ht⟩ := valid_natCast h hv
  by_cases h8 : m % 8 = 0
  · rw [Write_natCast h data m hm h8] at hw
    by_cases h1 : m + 8 ≤ 2147483647
    · rw [if_pos h1] at hw
      simp only [Option.some.injEq] at hw
      rw [← hw]
      refine valid_of_natCast _ _ (m + 8) h1 ?_
      have e : (m + 8) % 8 = m % 8 := by omega
      rw [e]
      exact ht
    · rw [if_neg h1] at hw
      cases hw
  · unfold CSipHasher.Write at hw
    have e : ¬ Int.tmod h.count 8 = 0 := by
      rw [hm, tmod_eight_natCast]
      omega
    rw [if_neg e] at hw
    cases hw

theorem Write_eq_Write_bytes (h : CSipHasher) (d : Nat) (hv : h.valid)
    (hc : Int.tmod h.count 8 = 0) (hd : d < 18446744073709551616) :
    h.Write d = h.Write_bytes (leBytes 8 d) := by
  obtain ⟨m, hm, hle, ht⟩ := valid_natCast h hv
  have h8 : m % 8 = 0 := by
    rw [hm, tmod_eight_natCast] at hc
    omega
  have h0 : h.tmp = 0 := by
    rw [h8] at ht
    simpa using ht
  have em : m = 8 * (m / 8) := by omega
  rw [Write_natCast h d m hm h8, Write_bytes_eq, leBytes_eight, hm, h0, em,
    foldlM_writeStep_block _ (m / 8) (by omega), le_word_eight d hd]
  by_cases h1 : 8 * (m / 8) + 8 ≤ 2147483647
  · rw [if_pos h1, if_pos h1]
    rfl
  · rw [if_neg h1, if_neg h1]
    rfl

theorem Write_bytes_append (h : CSipHasher) (x y : List Byte) :
    (h.Write_bytes x).bind (fun h' => h'.Write_bytes y) = h.Write_bytes (x ++ y) := by
  rw [Write_bytes_eq, Write_bytes_eq, List.foldlM_append]
  cases x.foldlM CSipHasher.writeStep (h.load, h.tmp, h.count) with
  | none => rfl
  | some r =>
    simp only [Option.map_some', Option.some_bind, Option.bind_eq_bind, Write_bytes_eq,
      load_store]

theorem foldlM_writeStep_some (l : List Byte) :
    ∀ (s : SipLocals) (t m : Nat), m + l.length ≤ 2147483647 →
      ∃ r, l.foldlM CSipHasher.writeStep (s, t, (m : Int)) = some r := by
  induction l with
  | nil => intro s t m _; exact ⟨_, rfl⟩
  | cons b rest ih =>
    intro s t m h
    simp only [List.length_cons] at h
    rw [List.foldlM_cons, writeStep_natCast, if_pos (by omega)]
    simp only [Option.bind_eq_bind, Option.some_bind]
    by_cases h8 : (m + 1) % 8 = 0
    · rw [if_pos h8]; exact ih _ _ (m + 1) (by omega)
    · rw [if_neg h8]; exact ih _ _ (m + 1) (by omega)

theorem Write_bytes_returns (h : CSipHasher) (data : List Byte) (h0 : 0 ≤ h.count)
    (hle : h.count + (data.length : Int) ≤ INT_MAX) : ∃ h', h.Write_bytes data = some h' := by
  unfold INT_MAX at hle
  obtain ⟨m, hm⟩ := Int.eq_ofNat_of_zero_le h0
  rw [hm] at hle
  obtain ⟨r, hr⟩ := foldlM_writeStep_some data h.load h.tmp m (by omega)
  rw [Write_bytes_eq, hm, hr]
  exact ⟨_, rfl⟩

set_option maxRecDepth 100000 in
theorem SipHash_reference_values :
    (CSipHasher.new referenceKey0 referenceKey1).Finalize = 0x726fdb47dd0e0e31 ∧
    ((CSipHasher.new referenceKey0 referenceKey1).Write 0x0706050403020100).map
      CSipHasher.Finalize = some 0x93f5f5799a932462 ∧
    SipHashUint256 referenceKey0 referenceKey1 countingVal = 0x7127512f72f27cce := by
  refine ⟨by decide, by decide, by decide⟩

/-! ## The claims -/

/-- C3. For every sponge primitive, input and previous block hash (the global matrix
holding `uint32_t` values), `HashLatticePOW` returns the first 32 bytes of `stage[4]`,
where the five stages written to `hash_stages` are `stage[0] = Sponge(input)` and
`stage[r+1] = Sponge(ser(mixed_r))`, with `a_r`, `e_r`, `mixed_r` and `ser` as in the
claim (`specStage`), for the matrix in force after
`InitializeLatticeMatrix(PrevBlockHash)`. -/
theorem HashLatticePOW_chains_five_stages (H : List Byte → Stage) (input : List Byte)
    (PrevBlockHash : uint256) (st : LatticeState)
    (hM : matrixIsUInt32 st.global_lattice_matrix) :
    ∃ hash_stages st',
      HashLatticePOW_stages H input PrevBlockHash st = some (hash_stages, st') ∧
      st'.global_lattice_matrix
        = (InitializeLatticeMatrix H PrevBlockHash st).global_lattice_matrix ∧
      (∀ r : Fin 5, hash_stages r = specStage H st'.global_lattice_matrix input r.val) ∧
      HashLatticePOW H input PrevBlockHash st
        = some ((fun k => specStage H st'.global_lattice_matrix input 4 ⟨k.val, by omega⟩),
            st') := by
  obtain ⟨hs, hits, e, hP⟩ := HashLatticePOW_stages_eq H input PrevBlockHash st hM
  refine ⟨hs, _, e, rfl, hP, ?_⟩
  unfold HashLatticePOW
  rw [e]
  show some _ = some _
  have h4 := hP 4
  simp only [Option.some.injEq, Prod.mk.injEq, and_true]
  funext k
  rw [h4]
  rfl

/-- Witness for C3: the zero sponge, the empty input, the zero seed, the fresh globals. -/
theorem HashLatticePOW_chains_five_stages_witness :
    ∃ hash_stages st',
      HashLatticePOW_stages zeroSponge [] zeroSeed freshState = some (hash_stages, st') ∧
      st'.global_lattice_matrix
        = (InitializeLatticeMatrix zeroSponge zeroSeed freshState).global_lattice_matrix ∧
      (∀ r : Fin 5, hash_stages r = specStage zeroSponge st'.global_lattice_matrix [] r.val) ∧
      HashLatticePOW zeroSponge [] zeroSeed freshState
        = some ((fun k => specStage zeroSponge st'.global_lattice_matrix [] 4
            ⟨k.val, by omega⟩), st') :=
  HashLatticePOW_chains_five_stages zeroSponge [] zeroSeed freshState
    (fun _ _ => Nat.succ_pos _)

set_option maxRecDepth 100000 in
/-- C4, as stated, fails.  With the sponge stub `thirdByteSponge` and an all-zero
generated matrix, byte 0 of `stage[0]` for the empty input is `0` while byte 0 of
`Sponge([0x00])` is `1`; and byte 0 of the digest of the empty input is `0` while byte 0
of the digest of the input `[0x00]` is `13`. -/
theorem HashLatticePOW_empty_input_is_not_zero_byte :
    (HashLatticePOW_stages thirdByteSponge [] zeroSeed zeroMatrixState).map
        (fun r => r.1 0 0) = some 0 ∧
      thirdByteSponge [0] 0 = 1 ∧
      (HashLatticePOW thirdByteSponge [] zeroSeed zeroMatrixState).map
        (fun r => r.1 0) = some 0 ∧
      (HashLatticePOW thirdByteSponge [0] zeroSeed zeroMatrixState).map
        (fun r => r.1 0) = some 13 := by
  refine ⟨by rfl, by rfl, by decide, by decide⟩

/-- C4, amended.  For an empty input range `HashLatticePOW` absorbs no byte at all
(`pblank` only supplies a valid pointer; `lenToHash` is 0): `stage[0]` is the sponge
output for the empty byte sequence, and the call returns what it returns for any input
whose sponge output equals that of the empty sequence. -/
theorem HashLatticePOW_empty_input_absorbs_nothing (H : List Byte → Stage)
    (PrevBlockHash : uint256) (st : LatticeState)
    (hM : matrixIsUInt32 st.global_lattice_matrix) :
    (∃ hash_stages st',
      HashLatticePOW_stages H [] PrevBlockHash st = some (hash_stages, st') ∧
      hash_stages 0 = H []) ∧
    ∀ input, H input = H [] →
      HashLatticePOW H input PrevBlockHash st = HashLatticePOW H [] PrevBlockHash st := by
  constructor
  · obtain ⟨hs, hits, e, hP⟩ := HashLatticePOW_stages_eq H [] PrevBlockHash st hM
    exact ⟨hs, _, e, hP 0⟩
  · intro input hin
    unfold HashLatticePOW
    rw [HashLatticePOW_stages_input H input, HashLatticePOW_stages_input H [], hin]

/-- Witness for the amended C4: the stub `thirdByteSponge` maps the four-byte input
`[9, 9, 0, 9]` and the empty input to the same 64 bytes, so both get the same digest. -/
theorem HashLatticePOW_empty_input_absorbs_nothing_witness :
    (∃ hash_stages st',
      HashLatticePOW_stages thirdByteSponge [] zeroSeed zeroMatrixState
        = some (hash_stages, st') ∧
      hash_stages 0 = thirdByteSponge []) ∧
    HashLatticePOW thirdByteSponge [9, 9, 0, 9] zeroSeed zeroMatrixState
      = HashLatticePOW thirdByteSponge [] zeroSeed zeroMatrixState :=
  ⟨(HashLatticePOW_empty_input_absorbs_nothing thirdByteSponge zeroSeed zeroMatrixState
      (fun _ _ => Nat.succ_pos _)).1,
   (HashLatticePOW_empty_input_absorbs_nothing thirdByteSponge zeroSeed zeroMatrixState
      (fun _ _ => Nat.succ_pos _)).2 [9, 9, 0, 9] (funext fun _ => rfl)⟩

/-- C5. Matrix generation is first-call-wins: from a state whose flag is unset,
`InitializeLatticeMatrix(s1)` followed by `InitializeLatticeMatrix(s2)` leaves exactly the
globals that `InitializeLatticeMatrix(s1)` alone leaves; and in any state whose flag is
set, `InitializeLatticeMatrix(s)` changes nothing. -/
theorem InitializeLatticeMatrix_first_call_wins (H : List Byte → Stage) (s1 s2 s : uint256)
    (st : LatticeState) :
    (st.lattice_initialized = false →
      InitializeLatticeMatrix H s2 (InitializeLatticeMatrix H s1 st)
        = InitializeLatticeMatrix H s1 st) ∧
    (st.lattice_initialized = true → InitializeLatticeMatrix H s st = st) :=
  ⟨fun _ => InitializeLatticeMatrix_done H s2 _ (InitializeLatticeMatrix_flag H s1 st),
   fun h => InitializeLatticeMatrix_done H s st h⟩

/-- Witness for C5: two different seeds from the fresh globals, and a call on globals
whose flag is set. -/
theorem InitializeLatticeMatrix_first_call_wins_witness :
    InitializeLatticeMatrix thirdByteSponge (fun _ => 1)
        (InitializeLatticeMatrix thirdByteSponge zeroSeed freshState)
      = InitializeLatticeMatrix thirdByteSponge zeroSeed freshState ∧
    InitializeLatticeMatrix thirdByteSponge (fun _ => 1) zeroMatrixState = zeroMatrixState :=
  ⟨(InitializeLatticeMatrix_first_call_wins thirdByteSponge zeroSeed (fun _ => 1)
      (fun _ => 1) freshState).1 rfl,
   (InitializeLatticeMatrix_first_call_wins thirdByteSponge zeroSeed (fun _ => 1)
      (fun _ => 1) zeroMatrixState).2 rfl⟩

/-- C6. From a state whose flag is unset, `InitializeLatticeMatrix(seed)` sets cell
`(i, j)` to the fold `acc := (acc * 256 + b_k) mod 3329` over the first four bytes of
`Sponge(E ++ [i, j, 0x5A, 0xA5])`, `E = Sponge(32 seed bytes)`; the cell lies in
`[0, 3329)` and the flag becomes true. -/
theorem InitializeLatticeMatrix_cell_value (H : List Byte → Stage) (seed : uint256)
    (st : LatticeState) (h : st.lattice_initialized = false) (i j : Fin 8) :
    (InitializeLatticeMatrix H seed st).global_lattice_matrix i j
      = specCellFold
          [H (List.ofFn (H (List.ofFn seed))
                ++ [⟨i.val, by omega⟩, ⟨j.val, by omega⟩, 0x5A, 0xA5]) 0,
           H (List.ofFn (H (List.ofFn seed))
                ++ [⟨i.val, by omega⟩, ⟨j.val, by omega⟩, 0x5A, 0xA5]) 1,
           H (List.ofFn (H (List.ofFn seed))
                ++ [⟨i.val, by omega⟩, ⟨j.val, by omega⟩, 0x5A, 0xA5]) 2,
           H (List.ofFn (H (List.ofFn seed))
                ++ [⟨i.val, by omega⟩, ⟨j.val, by omega⟩, 0x5A, 0xA5]) 3] ∧
    (InitializeLatticeMatrix H seed st).global_lattice_matrix i j < 3329 ∧
    (InitializeLatticeMatrix H seed st).lattice_initialized = true := by
  rw [InitializeLatticeMatrix_fresh H seed st h]
  refine ⟨?_, elementFold_lt _, rfl⟩
  show elementFold (H (elementSeed (H (List.ofFn seed)) i j)) = _
  have hi : toUInt8 i.val = ⟨i.val, by omega⟩ := Fin.ext (by simp [toUInt8]; omega)
  have hj : toUInt8 j.val = ⟨j.val, by omega⟩ := Fin.ext (by simp [toUInt8]; omega)
  unfold elementSeed
  rw [hi, hj]
  unfold elementFold forLoop LATTICE_MODULUS specCellFold
  rw [finRange_four]
  simp only [List.foldl_cons, List.foldl_nil]
  exact fold_four_spec _ _ _ _ (Fin.isLt _) (Fin.isLt _) (Fin.isLt _) (Fin.isLt _)

/-- Witness for C6: cell `(2, 5)` generated from the zero seed on the fresh globals. -/
theorem InitializeLatticeMatrix_cell_value_witness :
    (InitializeLatticeMatrix thirdByteSponge zeroSeed freshState).global_lattice_matrix 2 5
      = specCellFold
          [thirdByteSponge (List.ofFn (thirdByteSponge (List.ofFn zeroSeed))
                ++ [2, 5, 0x5A, 0xA5]) 0,
           thirdByteSponge (List.ofFn (thirdByteSponge (List.ofFn zeroSeed))
                ++ [2, 5, 0x5A, 0xA5]) 1,
           thirdByteSponge (List.ofFn (thirdByteSponge (List.ofFn zeroSeed))
                ++ [2, 5, 0x5A, 0xA5]) 2,
           thirdByteSponge (List.ofFn (thirdByteSponge (List.ofFn zeroSeed))
                ++ [2, 5, 0x5A, 0xA5]) 3] ∧
    (InitializeLatticeMatrix thirdByteSponge zeroSeed freshState).global_lattice_matrix 2 5
      < 3329 ∧
    (InitializeLatticeMatrix thirdByteSponge zeroSeed freshState).lattice_initialized = true :=
  InitializeLatticeMatrix_cell_value thirdByteSponge zeroSeed freshState rfl 2 5

/-- C7. For every seed and sponge primitive, element `i` of the error vector is
`ModularReduce((E[i] mod 3) - 1)` with `E = Sponge(seed)` (only `E[0..7]` are read): it is
`3328`, `0` or `1` according to `E[i] mod 3` being `0`, `1` or `2`, and these three values
are the reductions of `-1`, `0`, `1`. -/
theorem GenerateErrorVector_ternary (H : List Byte → Stage) (seed : uint256)
    (error : LatticeVector) (i : Fin 8) :
    GenerateErrorVector H seed error i
      = ModularReduce ((((H (List.ofFn seed) ⟨i.val, by omega⟩).val % 3 : Nat) : Int) - 1) ∧
    (GenerateErrorVector H seed error i = 3328 ∨ GenerateErrorVector H seed error i = 0 ∨
      GenerateErrorVector H seed error i = 1) ∧
    GenerateErrorVector H seed error i
      = (if (H (List.ofFn seed) ⟨i.val, by omega⟩).val % 3 = 0 then 3328
         else if (H (List.ofFn seed) ⟨i.val, by omega⟩).val % 3 = 1 then 0 else 1) ∧
    ModularReduce (-1) = 3328 ∧ ModularReduce 0 = 0 ∧ ModularReduce 1 = 1 := by
  have hidx : (⟨i.val % 64, Nat.mod_lt _ (by decide)⟩ : Fin 64) = ⟨i.val, by omega⟩ :=
    Fin.ext (Nat.mod_eq_of_lt (by omega))
  have e : GenerateErrorVector H seed error i
      = ModularReduce ((((H (List.ofFn seed) ⟨i.val, by omega⟩).val % 3 : Nat) : Int) - 1) := by
    rw [GenerateErrorVector_eq]
    simp only [hidx]
  have h := ModularReduce_eq_emod
    ((((H (List.ofFn seed) ⟨i.val, by omega⟩).val % 3 : Nat) : Int) - 1)
  have hm1 := ModularReduce_eq_emod (-1)
  have h0 := ModularReduce_eq_emod 0
  have h1 := ModularReduce_eq_emod 1
  refine ⟨e, ?_, ?_, by omega, by omega, by omega⟩
  · rw [e]
    omega
  · rw [e]
    split_ifs <;> omega

/-- C8. For a vector and a matrix whose elements all lie in `[0, 3329)`,
`LatticeMatrixMultiply` returns (no signed 64-bit operation overflows: each row's
accumulator ends at the exact integer sum, which is at most `8 * 3328 ^ 2`), and
`result[i] = (sum_j vector[j] * matrix[i][j]) mod 3329 < 3329`. -/
theorem LatticeMatrixMultiply_reduced (vector : LatticeVector) (matrix : LatticeMatrix)
    (result : LatticeVector) (hv : ∀ j, vector j < 3329) (hM : ∀ i j, matrix i j < 3329) :
    ∃ r, LatticeMatrixMultiply vector matrix result = some r ∧
      ∀ i, rowSum vector matrix i = some ((∑ j, vector j * matrix i j : Nat) : Int) ∧
        ∑ j, vector j * matrix i j ≤ 8 * 3328 ^ 2 ∧
        r i = (∑ j, vector j * matrix i j) % 3329 ∧ r i < 3329 := by
  have hM' : ∀ i j, matrix i j < 4294967296 := fun i j => by have := hM i j; omega
  refine ⟨_, LatticeMatrixMultiply_eq vector matrix result hv hM', fun i => ?_⟩
  refine ⟨rowSum_eq vector matrix i hv (hM' i), ?_, rfl, Nat.mod_lt _ (by decide)⟩
  have hB : ∀ j, vector j * matrix i j ≤ 3328 * 3328 := fun j =>
    Nat.mul_le_mul (Nat.le_of_lt_succ (hv j)) (Nat.le_of_lt_succ (hM i j))
  have h8 : ∑ j, vector j * matrix i j ≤ 8 * (3328 * 3328) := sum_fin_eight_le _ _ hB
  omega

/-- Witness for C8: every element of the vector and of the matrix is `3328`. -/
theorem LatticeMatrixMultiply_reduced_witness :
    ∃ r, LatticeMatrixMultiply (fun _ => 3328) (fun _ _ => 3328) uninitialized = some r ∧
      ∀ i : Fin 8,
        rowSum (fun _ => 3328) (fun _ _ => 3328) i
          = some ((∑ _j : Fin 8, 3328 * 3328 : Nat) : Int) ∧
        ∑ _j : Fin 8, 3328 * 3328 ≤ 8 * 3328 ^ 2 ∧
        r i = (∑ _j : Fin 8, 3328 * 3328) % 3329 ∧ r i < 3329 :=
  LatticeMatrixMultiply_reduced (fun _ => 3328) (fun _ _ => 3328) uninitialized
    (fun _ => Nat.lt_succ_self _) (fun _ _ => Nat.lt_succ_self _)

/-- C9. For `a` and `b` with all elements in `[0, 3329)`, `PolynomialMultiply` returns
(no signed 64-bit multiplication or addition overflows), and `result[k]` is the
non-negative residue modulo 3329 of
`sum_{i+j=k} a[i]*b[j] - sum_{i+j=k+8} a[i]*b[j]`, the coefficient of `X^k` of the product
in `Z_3329[X]/(X^8 + 1)`; every element lies in `[0, 3329)`. -/
theorem PolynomialMultiply_negacyclic (a b : LatticeVector) (result : LatticeVector)
    (ha : ∀ i, a i < 3329) (hb : ∀ j, b j < 3329) :
    ∃ r, PolynomialMultiply a b result = some r ∧
      ∀ k, (r k : Int) = specPolyCoeff a b k ∧ r k < 3329 := by
  obtain ⟨r, hr, hP⟩ := PolynomialMultiply_eq a b result ha hb
  refine ⟨r, hr, fun k => ⟨hP k, ?_⟩⟩
  have := hP k
  unfold specPolyCoeff at this
  omega

set_option maxRecDepth 100000 in
/-- Witness for C9: `X^7 * X = -1`, that is `a = e_7`, `b = e_1` gives
`(3328, 0, 0, 0, 0, 0, 0, 0)`. -/
theorem PolynomialMultiply_negacyclic_witness :
    (∃ r, PolynomialMultiply (monomial 7) (monomial 1) uninitialized = some r ∧
      ∀ k, (r k : Int) = specPolyCoeff (monomial 7) (monomial 1) k ∧ r k < 3329) ∧
    (PolynomialMultiply (monomial 7) (monomial 1) uninitialized).map List.ofFn
      = some [3328, 0, 0, 0, 0, 0, 0, 0] :=
  ⟨PolynomialMultiply_negacyclic (monomial 7) (monomial 1) uninitialized (monomial_lt 7)
    (monomial_lt 1), by decide⟩

/-- C10. For every sponge primitive, input, previous block hash and global matrix (of
`uint32_t` values), each of the 4 rounds of `HashLatticePOW` completes without signed
64-bit overflow (the round returns its locals, and each row accumulator ends at the exact
integer sum), the `uint32_t` addition of the error does not wrap, and every element of
`vector_a`, of the error vector, of the matrix product and of the mixed vector lies in
`[0, 3329)`.  The statement covers the vector arithmetic of the rounds; the statistics
counter `latticeOpHits` is not an intermediate of it. -/
theorem HashLatticePOW_rounds_in_range (H : List Byte → Stage) (input : List Byte)
    (PrevBlockHash : uint256) (st : LatticeState)
    (hM : matrixIsUInt32 st.global_lattice_matrix) :
    ∃ hash_stages st',
      HashLatticePOW_stages H input PrevBlockHash st = some (hash_stages, st') ∧
      ∀ round : Fin 4, ∃ locals,
        latticeRound H st'.global_lattice_matrix (hash_stages round.castSucc) = some locals ∧
        hash_stages round.succ = H (List.ofFn locals.lattice_bytes) ∧
        ∀ i, locals.vector_a i < 3329 ∧ locals.vector_b i < 3329 ∧
          locals.product i < 3329 ∧ locals.result_vector i < 3329 ∧
          locals.product i + locals.vector_b i < 4294967296 ∧
          rowSum locals.vector_a st'.global_lattice_matrix i
            = some ((∑ j, locals.vector_a j * st'.global_lattice_matrix i j : Nat) : Int) ∧
          ((∑ j, locals.vector_a j * st'.global_lattice_matrix i j : Nat) : Int)
            ≤ INT64_MAX := by
  obtain ⟨hs, hits, e, hP⟩ := HashLatticePOW_stages_eq H input PrevBlockHash st hM
  have hM' := InitializeLatticeMatrix_uint32 H PrevBlockHash st hM
  refine ⟨hs, _, e, fun round => ?_⟩
  refine ⟨_, latticeRound_eq H _ hM' (hs round.castSucc), ?_, fun i => ?_⟩
  · have h1 := hP round.succ
    have h2 := hP round.castSucc
    rw [h1, h2]
    show specStage H _ input (round.val + 1) = _
    rw [serializeVector_spec]
    rfl
  · have ha := extractVector_lt (hs round.castSucc)
    have hb := GenerateErrorVector_lt H (roundSeed (hs round.castSucc)) uninitialized i
    have hp : (∑ j, extractVector (hs round.castSucc) j
        * (InitializeLatticeMatrix H PrevBlockHash st).global_lattice_matrix i j) % 3329 < 3329 :=
      Nat.mod_lt _ (by decide)
    have hm : specMixed H (InitializeLatticeMatrix H PrevBlockHash st).global_lattice_matrix
        (hs round.castSucc) i < 3329 := Nat.mod_lt _ (by decide)
    have hB : ∀ j, extractVector (hs round.castSucc) j
        * (InitializeLatticeMatrix H PrevBlockHash st).global_lattice_matrix i j
          ≤ 3328 * 4294967295 := fun j =>
      Nat.mul_le_mul (Nat.le_of_lt_succ (ha j)) (Nat.le_of_lt_succ (hM' i j))
    have hS := sum_fin_eight_le _ _ hB
    refine ⟨ha i, hb, hp, hm, ?_, rowSum_eq _ _ i ha (hM' i), ?_⟩
    · show (∑ j, extractVector (hs round.castSucc) j
        * (InitializeLatticeMatrix H PrevBlockHash st).global_lattice_matrix i j) % 3329
          + GenerateErrorVector H (roundSeed (hs round.castSucc)) uninitialized i < 4294967296
      omega
    · unfold INT64_MAX
      show ((∑ j, extractVector (hs round.castSucc) j
        * (InitializeLatticeMatrix H PrevBlockHash st).global_lattice_matrix i j : Nat) : Int)
          ≤ 9223372036854775807
      omega

/-- Witness for C10: the sponge stub `thirdByteSponge`, the one-byte input `[7]`, the zero
seed, the fresh globals. -/
theorem HashLatticePOW_rounds_in_range_witness :
    ∃ hash_stages st',
      HashLatticePOW_stages thirdByteSponge [7] zeroSeed freshState
        = some (hash_stages, st') ∧
      ∀ round : Fin 4, ∃ locals,
        latticeRound thirdByteSponge st'.global_lattice_matrix (hash_stages round.castSucc)
          = some locals ∧
        hash_stages round.succ = thirdByteSponge (List.ofFn locals.lattice_bytes) ∧
        ∀ i, locals.vector_a i < 3329 ∧ locals.vector_b i < 3329 ∧
          locals.product i < 3329 ∧ locals.result_vector i < 3329 ∧
          locals.product i + locals.vector_b i < 4294967296 ∧
          rowSum locals.vector_a st'.global_lattice_matrix i
            = some ((∑ j, locals.vector_a j * st'.global_lattice_matrix i j : Nat) : Int) ∧
          ((∑ j, locals.vector_a j * st'.global_lattice_matrix i j : Nat) : Int)
            ≤ INT64_MAX :=
  HashLatticePOW_rounds_in_range thirdByteSponge [7] zeroSeed freshState
    (fun _ _ => Nat.succ_pos _)

/-- C11. `HashLatticePOW` is deterministic: from every state of the globals (matrix
generated or not, any counter values, the matrix holding `uint32_t` values) two successive
calls with the same input and previous block hash return the same digest; and two calls
from states with the same generated matrix return the same digest whatever the counters
are. -/
theorem HashLatticePOW_deterministic (H : List Byte → Stage) (input : List Byte) (PrevBlockHash : uint256)
    (st : LatticeState) (hM : matrixIsUInt32 st.global_lattice_matrix) :
    (∃ digest st1 st2,
      HashLatticePOW H input PrevBlockHash st = some (digest, st1) ∧
      HashLatticePOW H input PrevBlockHash st1 = some (digest, st2)) ∧
    (∀ st' : LatticeState, st.lattice_initialized = true → st'.lattice_initialized = true →
      st'.global_lattice_matrix = st.global_lattice_matrix →
      ∃ digest s1 s2,
        HashLatticePOW H input PrevBlockHash st = some (digest, s1) ∧
        HashLatticePOW H input PrevBlockHash st' = some (digest, s2)) := by
  have e := HashLatticePOW_eq H input PrevBlockHash st hM
  constructor
  · have hM1 := InitializeLatticeMatrix_uint32 H PrevBlockHash st hM
    have hflag := InitializeLatticeMatrix_flag H PrevBlockHash st
    have e1 := HashLatticePOW_eq H input PrevBlockHash
      { InitializeLatticeMatrix H PrevBlockHash st with
        latticeOpHits := fun r => toInt32 (st.latticeOpHits r + 1) } hM1
    rw [InitializeLatticeMatrix_done H PrevBlockHash
      { InitializeLatticeMatrix H PrevBlockHash st with
        latticeOpHits := fun r => toInt32 (st.latticeOpHits r + 1) } hflag] at e1
    exact ⟨_, _, _, e, e1⟩
  · intro st' h h' hmat
    have e' := HashLatticePOW_eq H input PrevBlockHash st' (by rw [hmat]; exact hM)
    rw [InitializeLatticeMatrix_done H PrevBlockHash st' h', hmat] at e'
    rw [InitializeLatticeMatrix_done H PrevBlockHash st h] at e
    exact ⟨_, _, _, e, e'⟩

/-- Witness for C11: two successive calls from the fresh globals, and calls from two
states with the same generated matrix and different hit counters. -/
theorem HashLatticePOW_deterministic_witness :
    (∃ digest st1 st2,
      HashLatticePOW thirdByteSponge [7] zeroSeed freshState = some (digest, st1) ∧
      HashLatticePOW thirdByteSponge [7] zeroSeed st1 = some (digest, st2)) ∧
    (∃ digest s1 s2,
      HashLatticePOW thirdByteSponge [7] zeroSeed zeroMatrixState = some (digest, s1) ∧
      HashLatticePOW thirdByteSponge [7] zeroSeed saturatedHitsState = some (digest, s2)) :=
  ⟨(HashLatticePOW_deterministic thirdByteSponge [7] zeroSeed freshState (fun _ _ => Nat.succ_pos _)).1,
   (HashLatticePOW_deterministic thirdByteSponge [7] zeroSeed zeroMatrixState (fun _ _ => Nat.succ_pos _)).2
      saturatedHitsState rfl rfl rfl⟩

/-- C12, as stated, fails: there is no sponge primitive, generated matrix, input and pair
of previous block hashes for which the digests (or the globals left) differ. -/
theorem HashLatticePOW_generated_matrix_ignores_prev_hash :
    ¬ ∃ (H : List Byte → Stage) (input : List Byte) (p1 p2 : uint256) (st : LatticeState),
      st.lattice_initialized = true ∧ p1 ≠ p2 ∧
        HashLatticePOW H input p1 st ≠ HashLatticePOW H input p2 st := by
  rintro ⟨H, input, p1, p2, st, h, _, hne⟩
  exact hne (HashLatticePOW_seed_irrelevant H input p1 p2 st h)

set_option maxRecDepth 100000 in
/-- C12, amended.  The previous block hash is used as the matrix seed only: when the
global matrix is already generated the call does not depend on it; otherwise the digest
is the one computed under the matrix `InitializeLatticeMatrix(PrevBlockHash)` generates,
and through that matrix it can depend on the hash (from the fresh globals, the stub
`thirdByteSponge` and the input `[0x00]` give digests starting with `13` for the all-zero
hash and with `2` for the all-one hash). -/
theorem HashLatticePOW_prev_hash_only_seeds_matrix (H : List Byte → Stage) (input : List Byte) (p1 p2 : uint256)
    (st : LatticeState) :
    (st.lattice_initialized = true →
      HashLatticePOW H input p1 st = HashLatticePOW H input p2 st) ∧
    (matrixIsUInt32 st.global_lattice_matrix →
      ∃ st', HashLatticePOW H input p1 st
        = some (specDigest H (InitializeLatticeMatrix H p1 st).global_lattice_matrix input,
            st')) ∧
    ((HashLatticePOW thirdByteSponge [0] zeroSeed freshState).map (fun r => r.1 0) = some 13 ∧
      (HashLatticePOW thirdByteSponge [0] (fun _ => 1) freshState).map (fun r => r.1 0)
        = some 2) := by
  refine ⟨HashLatticePOW_seed_irrelevant H input p1 p2 st,
    fun hM => ⟨_, HashLatticePOW_eq H input p1 st hM⟩, by decide, by decide⟩

/-- Witness for the amended C12: two different hashes on a generated matrix. -/
theorem HashLatticePOW_prev_hash_only_seeds_matrix_witness :
    HashLatticePOW thirdByteSponge [0] zeroSeed zeroMatrixState
      = HashLatticePOW thirdByteSponge [0] (fun _ => 1) zeroMatrixState :=
  (HashLatticePOW_prev_hash_only_seeds_matrix thirdByteSponge [0] zeroSeed (fun _ => 1)
    zeroMatrixState).1 rfl

set_option maxRecDepth 100000 in
/-- C13, as stated, fails.  On the counting adapter one call on the empty input issues 9
sponge cycles when the matrix is already generated and 74 when the call generates it, not
5. -/
theorem HashLatticePOW_issues_more_than_five_cycles :
    (HashLatticePOWCounted zeroSponge [] zeroSeed zeroMatrixState 0).map (fun r => r.2)
      = some 9 ∧
    (HashLatticePOWCounted zeroSponge [] zeroSeed freshState 0).map (fun r => r.2)
      = some 74 := by
  constructor <;> decide

/-- C13, amended.  Counting every sponge cycle issued during the call, `HashLatticePOW`
issues exactly 9 when the matrix is already generated (stage 0, and in each of the 4
rounds one inside `GenerateErrorVector` and one that produces the next stage) and exactly
74 when the call generates the matrix (65 more inside `InitializeLatticeMatrix`); the
counting adapter changes neither the digest nor the globals. -/
theorem HashLatticePOW_sponge_cycle_count (H : List Byte → Stage) (input : List Byte) (PrevBlockHash : uint256)
    (st : LatticeState) (cycles : Nat) (hM : matrixIsUInt32 st.global_lattice_matrix) :
    ∃ digest st',
      HashLatticePOW H input PrevBlockHash st = some (digest, st') ∧
      HashLatticePOWCounted H input PrevBlockHash st cycles
        = some ((digest, st'), cycles + (if st.lattice_initialized then 9 else 74)) := by
  refine ⟨_, _, HashLatticePOW_eq H input PrevBlockHash st hM, ?_⟩
  rw [HashLatticePOWCounted_eq, HashLatticePOW_eq H input PrevBlockHash st hM]
  rfl

/-- Witness for the amended C13: the fresh globals, counting from 0. -/
theorem HashLatticePOW_sponge_cycle_count_witness :
    ∃ digest st',
      HashLatticePOW zeroSponge [] zeroSeed freshState = some (digest, st') ∧
      HashLatticePOWCounted zeroSponge [] zeroSeed freshState 0
        = some ((digest, st'), 0 + (if freshState.lattice_initialized then 9 else 74)) :=
  HashLatticePOW_sponge_cycle_count zeroSponge [] zeroSeed freshState 0 (fun _ _ => Nat.succ_pos _)

/-- C15. `CHashLattice256::Finalize` on a context that buffered `buffer` returns the
first 32 bytes of `Sponge(ser(mixed))`, with `k = Sponge(buffer)` and `a`, `e`, `mixed`,
`ser` as in the claim (`specMixed`, `specSer`), for every matrix of `uint32_t` values;
these are the first 32 bytes of `hash_stages[1]` of `HashLatticePOW` on the same bytes
under the same matrix. -/
theorem Finalize_is_one_lattice_round (H : List Byte → Stage) (buffer : List Byte) (st : LatticeState)
    (hM : matrixIsUInt32 st.global_lattice_matrix) :
    (∃ c', CHashLattice256.Finalize H (CHashLattice256.new.Write buffer) st
      = some ((fun k => H (specSer (specMixed H st.global_lattice_matrix (H buffer)))
                ⟨k.val, by omega⟩), c', st)) ∧
    (∀ (PrevBlockHash : uint256) (stP : LatticeState),
      matrixIsUInt32 stP.global_lattice_matrix →
      (InitializeLatticeMatrix H PrevBlockHash stP).global_lattice_matrix
        = st.global_lattice_matrix →
      ∃ hash_stages st' c',
        HashLatticePOW_stages H buffer PrevBlockHash stP = some (hash_stages, st') ∧
        CHashLattice256.Finalize H (CHashLattice256.new.Write buffer) st
          = some ((fun k => hash_stages 1 ⟨k.val, by omega⟩), c', st)) := by
  have e := Finalize_eq H (CHashLattice256.new.Write buffer) st hM
  rw [new_Write] at e
  simp only [List.nil_append] at e
  refine ⟨⟨_, by rw [new_Write]; exact e⟩, ?_⟩
  intro prev stP hP hmat
  obtain ⟨hs, hits, es, hS⟩ := HashLatticePOW_stages_eq H buffer prev stP hP
  refine ⟨hs, _, { keccak := { absorbed := [] }, buffer := buffer }, es, ?_⟩
  rw [new_Write, e, hS 1, hmat]
  rfl

/-- Witness for C15: the buffer `[1, 2]` on the all-zero generated matrix. -/
theorem Finalize_is_one_lattice_round_witness :
    (∃ c', CHashLattice256.Finalize thirdByteSponge (CHashLattice256.new.Write [1, 2])
        zeroMatrixState
      = some ((fun k => thirdByteSponge (specSer (specMixed thirdByteSponge
                zeroMatrixState.global_lattice_matrix (thirdByteSponge [1, 2])))
                ⟨k.val, by omega⟩), c', zeroMatrixState)) ∧
    (∃ hash_stages st' c',
      HashLatticePOW_stages thirdByteSponge [1, 2] zeroSeed zeroMatrixState
        = some (hash_stages, st') ∧
      CHashLattice256.Finalize thirdByteSponge (CHashLattice256.new.Write [1, 2])
          zeroMatrixState
        = some ((fun k => hash_stages 1 ⟨k.val, by omega⟩), c', zeroMatrixState)) :=
  ⟨(Finalize_is_one_lattice_round thirdByteSponge [1, 2] zeroMatrixState (fun _ _ => Nat.succ_pos _)).1,
   (Finalize_is_one_lattice_round thirdByteSponge [1, 2] zeroMatrixState (fun _ _ => Nat.succ_pos _)).2
      zeroSeed zeroMatrixState (fun _ _ => Nat.succ_pos _) rfl⟩

/-- C16. `Write` only appends: `Write(x)` then `Write(y)` is `Write(x ++ y)`, a fresh
context then holds `x ++ y` and finalises as a fresh context that received
`Write(x ++ y)`; the two-range `Hash` equals the one-range `Hash` of the concatenated
bytes; `Write` of zero bytes changes nothing. -/
theorem Write_appends_and_Hash_concatenates (H : List Byte → Stage) (c : CHashLattice256) (x y : List Byte)
    (st : LatticeState) :
    (c.Write x).Write y = c.Write (x ++ y) ∧
    ((CHashLattice256.new.Write x).Write y).buffer = x ++ y ∧
    CHashLattice256.Finalize H ((CHashLattice256.new.Write x).Write y) st
      = CHashLattice256.Finalize H (CHashLattice256.new.Write (x ++ y)) st ∧
    Hash_2 H x y st = Hash H (x ++ y) st ∧
    c.Write [] = c := by
  have hw : ∀ (c : CHashLattice256) (x y : List Byte),
      (c.Write x).Write y = c.Write (x ++ y) := by
    intro c x y
    simp [CHashLattice256.Write, List.append_assoc]
  refine ⟨hw c x y, ?_, ?_, ?_, ?_⟩
  · rw [hw]; rfl
  · rw [hw]
  · unfold Hash_2 Hash
    simp only [stage_zero_input]
    rw [hw]
  · simp [CHashLattice256.Write]

set_option maxRecDepth 100000 in
/-- C17, as stated, fails.  With the stub `thirdByteSponge`, an all-zero matrix and the
buffer `[1]`: the first `Finalize` returns a digest starting with `0` and leaves the
buffer `[1]`; a second `Finalize` is not rejected and returns a digest starting with `0`
again; the digest after `Reset`, and that of the empty input, start with `13`. -/
theorem Finalize_twice_is_neither_rejected_nor_reset :
    (CHashLattice256.Finalize thirdByteSponge (CHashLattice256.new.Write [1])
        zeroMatrixState).map (fun r => (r.1 0, r.2.1.buffer)) = some (0, [1]) ∧
    ((CHashLattice256.Finalize thirdByteSponge (CHashLattice256.new.Write [1])
        zeroMatrixState).bind
      (fun r => (CHashLattice256.Finalize thirdByteSponge r.2.1 r.2.2).map
        (fun r2 => r2.1 0))) = some 0 ∧
    (CHashLattice256.Finalize thirdByteSponge (CHashLattice256.new.Write [1]).Reset
        zeroMatrixState).map (fun r => r.1 0) = some 13 ∧
    (CHashLattice256.Finalize thirdByteSponge CHashLattice256.new
        zeroMatrixState).map (fun r => r.1 0) = some 13 := by
  refine ⟨by decide, by decide, by decide, by decide⟩

/-- C17, amended.  `Finalize` neither rejects a second call nor resets the context: it
leaves the buffer as it was and the sponge context reinitialised, so the context after
`Finalize` is the context before it and a second `Finalize` returns the same digest as
the first; emptying the buffer is what `Reset` does. -/
theorem Finalize_twice_returns_same_digest (H : List Byte → Stage) (buffer : List Byte) (st : LatticeState)
    (hM : matrixIsUInt32 st.global_lattice_matrix) :
    ∃ digest,
      CHashLattice256.Finalize H (CHashLattice256.new.Write buffer) st
        = some (digest, CHashLattice256.new.Write buffer, st) ∧
      (CHashLattice256.Finalize H (CHashLattice256.new.Write buffer) st).bind
        (fun r => CHashLattice256.Finalize H r.2.1 r.2.2)
        = some (digest, CHashLattice256.new.Write buffer, st) ∧
      (CHashLattice256.new.Write buffer).Reset = CHashLattice256.new := by
  have e := Finalize_eq H (CHashLattice256.new.Write buffer) st hM
  refine ⟨_, e, ?_, rfl⟩
  rw [e]
  exact e

/-- Witness for the amended C17: the buffer `[1]` on the all-zero generated matrix. -/
theorem Finalize_twice_returns_same_digest_witness :
    ∃ digest,
      CHashLattice256.Finalize thirdByteSponge (CHashLattice256.new.Write [1])
          zeroMatrixState
        = some (digest, CHashLattice256.new.Write [1], zeroMatrixState) ∧
      (CHashLattice256.Finalize thirdByteSponge (CHashLattice256.new.Write [1])
          zeroMatrixState).bind
        (fun r => CHashLattice256.Finalize thirdByteSponge r.2.1 r.2.2)
        = some (digest, CHashLattice256.new.Write [1], zeroMatrixState) ∧
      (CHashLattice256.new.Write [1]).Reset = CHashLattice256.new :=
  Finalize_twice_returns_same_digest thirdByteSponge [1] zeroMatrixState (fun _ _ => Nat.succ_pos _)

/-- C18. `GetLatticeRound` fails its assertion for an `int` round index that is negative
or at least 4; for `0 <= round < 4` it reads nibble `48 + 4 * round` (one of 48, 52, 56,
60, below 64) and returns that nibble modulo 4, a value in `[0, 4)`.  Assertions are
taken as enabled; `GetNibble` is a parameter. -/
theorem GetLatticeRound_contract (GetNibble : uint256 → Int → Int) (PrevBlockHash : uint256) (round : Int) :
    ((round < 0 ∨ 4 ≤ round) → -2147483648 ≤ round → round ≤ 2147483647 →
      GetLatticeRound GetNibble PrevBlockHash round = none) ∧
    (0 ≤ round → round < 4 →
      (48 + 4 * round = 48 ∨ 48 + 4 * round = 52 ∨ 48 + 4 * round = 56 ∨
        48 + 4 * round = 60) ∧
      48 + 4 * round < 64 ∧
      GetLatticeRound GetNibble PrevBlockHash round
        = some (GetNibble PrevBlockHash (48 + 4 * round) % 4) ∧
      0 ≤ GetNibble PrevBlockHash (48 + 4 * round) % 4 ∧
      GetNibble PrevBlockHash (48 + 4 * round) % 4 < 4) := by
  constructor
  · intro h h1 h2
    unfold GetLatticeRound
    by_cases h0 : round ≥ 0
    · rw [if_neg (not_not.mpr h0), if_pos]
      unfold toUInt32 LATTICE_ROUNDS
      omega
    · rw [if_pos h0]
  · intro h0 h4
    refine ⟨by omega, by omega, ?_, by omega, by omega⟩
    unfold GetLatticeRound
    rw [if_neg (not_not.mpr h0), if_neg]
    · have e : START_OF_LAST_16_NIBBLES_OF_HASH + round * 4 = 48 + 4 * round := by
        unfold START_OF_LAST_16_NIBBLES_OF_HASH; ring
      simp only [e]
      congr 1
      unfold toUInt32 LATTICE_ROUNDS
      omega
    · unfold toUInt32 LATTICE_ROUNDS
      omega

/-- Witness for C18: round 4 and round -1 fail, round 2 reads nibble 56. -/
theorem GetLatticeRound_contract_witness :
    GetLatticeRound sevenNibble zeroSeed 4 = none ∧
    GetLatticeRound sevenNibble zeroSeed (-1) = none ∧
    ((48 + 4 * (2 : Int) = 48 ∨ 48 + 4 * (2 : Int) = 52 ∨ 48 + 4 * (2 : Int) = 56 ∨
        48 + 4 * (2 : Int) = 60) ∧
      48 + 4 * (2 : Int) < 64 ∧
      GetLatticeRound sevenNibble zeroSeed 2
        = some (sevenNibble zeroSeed (48 + 4 * 2) % 4) ∧
      0 ≤ sevenNibble zeroSeed (48 + 4 * 2) % 4 ∧
      sevenNibble zeroSeed (48 + 4 * 2) % 4 < 4) :=
  ⟨(GetLatticeRound_contract sevenNibble zeroSeed 4).1 (Or.inr (by decide)) (by decide)
      (by decide),
   (GetLatticeRound_contract sevenNibble zeroSeed (-1)).1 (Or.inl (by decide)) (by decide)
      (by decide),
   (GetLatticeRound_contract sevenNibble zeroSeed 2).2 (by decide) (by decide)⟩

set_option maxRecDepth 100000 in
/-- C19, the code at the failing input.  With the four hit counters standing at
`INT_MAX = 2147483647`, a state the never-reset counters reach by their own increments,
the statement `latticeOpHits[0]++` of one call overflows the `int`: the counter is left at
`-2147483648` (two's-complement wrap) and not at `2147483648`, the value "incremented by
exactly 1" asks for. -/
theorem HashLatticePOW_hit_counter_wraps_at_int_max : (HashLatticePOW zeroSponge [] zeroSeed saturatedHitsState).map
      (fun r => r.2.latticeOpHits 0) = some (-2147483648) ∧
    saturatedHitsState.latticeOpHits 0 + 1 = 2147483648 := by
  constructor
  · decide
  · rfl

/-- State effect of one call away from the overflow of C19.  One `HashLatticePOW` call
increments by exactly 1 each hit counter
whose `int` value is below `INT_MAX`, leaves `latticeOpTotal` unchanged, leaves the matrix
and its flag as `InitializeLatticeMatrix(PrevBlockHash)` leaves them (unchanged when the
flag was set), and returns a digest that does not depend on the counter values. -/
theorem HashLatticePOW_state_effect (H : List Byte → Stage) (input : List Byte) (PrevBlockHash : uint256)
    (st : LatticeState) (hM : matrixIsUInt32 st.global_lattice_matrix) :
    ∃ digest st',
      HashLatticePOW H input PrevBlockHash st = some (digest, st') ∧
      (∀ r, -2147483648 ≤ st.latticeOpHits r → st.latticeOpHits r < 2147483647 →
        st'.latticeOpHits r = st.latticeOpHits r + 1) ∧
      st'.latticeOpTotal = st.latticeOpTotal ∧
      st'.global_lattice_matrix
        = (InitializeLatticeMatrix H PrevBlockHash st).global_lattice_matrix ∧
      st'.lattice_initialized
        = (InitializeLatticeMatrix H PrevBlockHash st).lattice_initialized ∧
      (st.lattice_initialized = true →
        st'.global_lattice_matrix = st.global_lattice_matrix ∧
          st'.lattice_initialized = true) ∧
      (∀ hits : Fin 4 → Int, ∃ st'',
        HashLatticePOW H input PrevBlockHash { st with latticeOpHits := hits }
          = some (digest, st'')) := by
  refine ⟨_, _, HashLatticePOW_eq H input PrevBlockHash st hM, ?_,
    (InitializeLatticeMatrix_counters H PrevBlockHash st).2, rfl, rfl, ?_, ?_⟩
  · intro r h1 h2
    show toInt32 (st.latticeOpHits r + 1) = _
    unfold toInt32
    omega
  · intro h
    rw [InitializeLatticeMatrix_done H PrevBlockHash st h]
    exact ⟨rfl, h⟩
  · intro hits
    have e := HashLatticePOW_eq H input PrevBlockHash { st with latticeOpHits := hits } hM
    rw [InitializeLatticeMatrix_matrix_of_hits] at e
    exact ⟨_, e⟩

/-- An instance of `HashLatticePOW_state_effect`: the fresh globals; counter 0 goes from 0
to 1. -/
theorem HashLatticePOW_state_effect_witness :
    ∃ digest st',
      HashLatticePOW thirdByteSponge [7] zeroSeed freshState = some (digest, st') ∧
      st'.latticeOpHits 0 = freshState.latticeOpHits 0 + 1 ∧
      st'.latticeOpTotal = freshState.latticeOpTotal ∧
      (∃ st'', HashLatticePOW thirdByteSponge [7] zeroSeed
          { freshState with latticeOpHits := fun _ => 5 } = some (digest, st'')) := by
  obtain ⟨digest, st', h1, h2, h3, _, _, _, h7⟩ :=
    HashLatticePOW_state_effect thirdByteSponge [7] zeroSeed freshState (fun _ _ => Nat.succ_pos _)
  exact ⟨digest, st', h1, h2 0 (by decide) (by decide), h3, h7 (fun _ => 5)⟩

/-- C20. `CHashLattice256::Finalize` changes no global: whenever it returns, the matrix,
the flag (set or not), `latticeOpHits` and `latticeOpTotal` are as they were, and it
returns for every matrix of `uint32_t` values. -/
theorem Finalize_changes_no_global (H : List Byte → Stage) (c : CHashLattice256) (st : LatticeState) :
    (∀ r, CHashLattice256.Finalize H c st = some r → r.2.2 = st) ∧
    (matrixIsUInt32 st.global_lattice_matrix →
      ∃ digest c', CHashLattice256.Finalize H c st = some (digest, c', st)) :=
  ⟨fun r h => Finalize_frame H c st r h, fun hM => ⟨_, _, Finalize_eq H c st hM⟩⟩

/-- Witness for C20: the buffer `[1]` on the fresh globals, whose flag is unset. -/
theorem Finalize_changes_no_global_witness :
    ∃ digest c', CHashLattice256.Finalize thirdByteSponge (CHashLattice256.new.Write [1])
      freshState = some (digest, c', freshState) :=
  (Finalize_changes_no_global thirdByteSponge (CHashLattice256.new.Write [1])
    freshState).2 (fun _ _ => Nat.succ_pos _)

set_option maxRecDepth 100000 in
/-- C21 (counterexample). With every element of the vector and of the matrix equal to
`2^32 - 1` (a `uint32_t` value that is not reduced), the first product
`vector[0] * matrix[0][0] = (2^32 - 1)^2` already exceeds `INT64_MAX`: the signed
multiplication overflows, so neither the row accumulator nor `LatticeMatrixMultiply` has
a defined result. -/
theorem LatticeMatrixMultiply_overflows_on_unreduced_operands :
    INT64_MAX < ((4294967295 : Nat) : Int) * ((4294967295 : Nat) : Int) ∧
    mulInt64 ((4294967295 : Nat) : Int) ((4294967295 : Nat) : Int) = none ∧
    rowSum (fun _ => 4294967295) (fun _ _ => 4294967295) 0 = none ∧
    LatticeMatrixMultiply (fun _ => 4294967295) (fun _ _ => 4294967295) uninitialized
      = none := by
  refine ⟨by decide, by decide, by decide, by decide⟩

/-- C21 (amended). For every vector whose elements lie in `[0, 3329)`, as at both call
sites, and every matrix of arbitrary `uint32_t` elements (not necessarily reduced), no
product `vector[j] * matrix[i][j]` and no partial sum leaves the signed 64-bit range: each
product is in range, each row accumulator ends at the exact integer sum, which is at most
`8 * 3328 * (2^32 - 1)`, and `result[i]` is that sum modulo 3329. -/
theorem LatticeMatrixMultiply_exact_for_reduced_vector (vector : LatticeVector)
    (matrix : LatticeMatrix) (result : LatticeVector) (hv : ∀ j, vector j < 3329)
    (hM : ∀ i j, matrix i j < 4294967296) :
    (∀ i j, inInt64 ((vector j : Int) * (matrix i j : Int))) ∧
    (∀ i, rowSum vector matrix i = some ((∑ j, vector j * matrix i j : Nat) : Int)) ∧
    (∀ i, ∑ j, vector j * matrix i j ≤ 8 * (3328 * 4294967295)) ∧
    LatticeMatrixMultiply vector matrix result
      = some (fun i => (∑ j, vector j * matrix i j) % 3329) := by
  have hB : ∀ i j, vector j * matrix i j ≤ 3328 * 4294967295 := fun i j =>
    Nat.mul_le_mul (Nat.le_of_lt_succ (hv j)) (Nat.le_of_lt_succ (hM i j))
  refine ⟨fun i j => ?_, fun i => rowSum_eq vector matrix i hv (hM i),
    fun i => sum_fin_eight_le _ _ (hB i), LatticeMatrixMultiply_eq vector matrix result hv hM⟩
  have h := hB i j
  have e : (vector j : Int) * (matrix i j : Int) = ((vector j * matrix i j : Nat) : Int) :=
    (Nat.cast_mul _ _).symm
  rw [e]
  unfold inInt64 INT64_MIN INT64_MAX
  generalize vector j * matrix i j = p at h
  omega

/-- Witness for C21 (amended): every vector element is `3328`, every matrix element is
`2^32 - 1`. -/
theorem LatticeMatrixMultiply_exact_for_reduced_vector_witness :
    (∀ _i _j : Fin 8, inInt64 (((3328 : Nat) : Int) * ((4294967295 : Nat) : Int))) ∧
    (∀ i : Fin 8, rowSum (fun _ => 3328) (fun _ _ => 4294967295) i
      = some ((∑ _j : Fin 8, 3328 * 4294967295 : Nat) : Int)) ∧
    (∀ _i : Fin 8, ∑ _j : Fin 8, 3328 * 4294967295 ≤ 8 * (3328 * 4294967295)) ∧
    LatticeMatrixMultiply (fun _ => 3328) (fun _ _ => 4294967295) uninitialized
      = some (fun _i => (∑ _j : Fin 8, 3328 * 4294967295) % 3329) :=
  LatticeMatrixMultiply_exact_for_reduced_vector (fun _ => 3328) (fun _ _ => 4294967295)
    uninitialized (fun _ => Nat.lt_succ_self _) (fun _ _ => Nat.lt_succ_self _)

/-- C22. For every stage and every `i`, with `b0 .. b3` the bytes `4i .. 4i+3`: the shift
`b0 << 24` on the promoted `int` is negative when `b0 >= 0x80`, yet the value stored in
the `uint32_t` element is the unsigned big-endian word
`b0*2^24 + b1*2^16 + b2*2^8 + b3`; `ModularReduce` receives that non-negative value, so
the element of `vector_a` in a round of `HashLatticePOW` and the element of
`lattice_vector` in `CHashLattice256::Finalize` are the word modulo 3329.  The matrix holds
`uint32_t` values, so the round and `Finalize` return. -/
theorem vector_extraction_is_unsigned_big_endian (H : List Byte → Stage) (stage : Stage)
    (c : CHashLattice256) (st : LatticeState)
    (hM : matrixIsUInt32 st.global_lattice_matrix) (i : Fin 8) :
    (shl32 ((stage ⟨i.val * 4, by omega⟩).val : Int) 24
      = if (stage ⟨i.val * 4, by omega⟩).val < 128
        then ((stage ⟨i.val * 4, by omega⟩).val : Int) * 2 ^ 24
        else ((stage ⟨i.val * 4, by omega⟩).val : Int) * 2 ^ 24 - 2 ^ 32) ∧
    assembleWord stage i = specWord stage i ∧
    ModularReduce (assembleWord stage i : Int) = specWord stage i % 3329 ∧
    (∃ locals, latticeRound H st.global_lattice_matrix stage = some locals ∧
      locals.vector_a i = specWord stage i % 3329) ∧
    (∃ l, CHashLattice256.Finalize_locals H c st = some l ∧
      l.keccac_result = H (c.keccak.absorbed ++ c.buffer) ∧
      l.lattice_vector i = specWord l.keccac_result i % 3329) := by
  refine ⟨shl32_top_byte _, assembleWord_spec stage i, ?_, ?_, ?_⟩
  · rw [ModularReduce_natCast, assembleWord_spec]
  · refine ⟨_, latticeRound_eq H _ hM stage, ?_⟩
    show extractVector stage i = _
    rw [extractVector_spec]
    rfl
  · refine ⟨_, Finalize_locals_eq H c st hM, rfl, ?_⟩
    show extractVector _ i = _
    rw [extractVector_spec]
    rfl

/-- Witness for C22: the stage of 64 bytes `0xFF` (so `b0 >= 0x80`), element 0, the zero
sponge stub, a context that buffered `[1, 2]`, the all-zero generated matrix. -/
theorem vector_extraction_is_unsigned_big_endian_witness :
    (shl32 ((onesStage ⟨(0 : Fin 8).val * 4, by decide⟩).val : Int) 24
      = if (onesStage ⟨(0 : Fin 8).val * 4, by decide⟩).val < 128
        then ((onesStage ⟨(0 : Fin 8).val * 4, by decide⟩).val : Int) * 2 ^ 24
        else ((onesStage ⟨(0 : Fin 8).val * 4, by decide⟩).val : Int) * 2 ^ 24 - 2 ^ 32) ∧
    assembleWord onesStage 0 = specWord onesStage 0 ∧
    ModularReduce (assembleWord onesStage 0 : Int) = specWord onesStage 0 % 3329 ∧
    (∃ locals, latticeRound zeroSponge zeroMatrixState.global_lattice_matrix onesStage
        = some locals ∧
      locals.vector_a 0 = specWord onesStage 0 % 3329) ∧
    (∃ l, CHashLattice256.Finalize_locals zeroSponge (CHashLattice256.new.Write [1, 2])
        zeroMatrixState = some l ∧
      l.keccac_result = zeroSponge ((CHashLattice256.new.Write [1, 2]).keccak.absorbed
        ++ (CHashLattice256.new.Write [1, 2]).buffer) ∧
      l.lattice_vector 0 = specWord l.keccac_result 0 % 3329) :=
  vector_extraction_is_unsigned_big_endian zeroSponge onesStage
    (CHashLattice256.new.Write [1, 2]) zeroMatrixState (fun _ _ => Nat.succ_pos _) 0

/-- C23. For all bytes `b0 .. b3` (the first four bytes of a per-cell hash): in the fold
`element = (element * 256 + b_k) % 3329` from `element = 0`, none of the four values
`element * 256 + b_k` reaches `2^32`, the `uint32_t` fold of the source equals the fold
over the integers, and its result is `(b0*2^24 + b1*2^16 + b2*2^8 + b3) mod 3329`. -/
theorem cell_fold_is_big_endian_residue (element_hash : Stage) :
    specCellFold [] * 256 + (element_hash 0).val < 4294967296 ∧
    specCellFold [element_hash 0] * 256 + (element_hash 1).val < 4294967296 ∧
    specCellFold [element_hash 0, element_hash 1] * 256 + (element_hash 2).val < 4294967296 ∧
    specCellFold [element_hash 0, element_hash 1, element_hash 2] * 256
      + (element_hash 3).val < 4294967296 ∧
    elementFold element_hash
      = specCellFold [element_hash 0, element_hash 1, element_hash 2, element_hash 3] ∧
    elementFold element_hash
      = ((element_hash 0).val * 2 ^ 24 + (element_hash 1).val * 2 ^ 16
          + (element_hash 2).val * 2 ^ 8 + (element_hash 3).val) % 3329 := by
  have h0 := (element_hash 0).isLt
  have h1 := (element_hash 1).isLt
  have h2 := (element_hash 2).isLt
  have h3 := (element_hash 3).isLt
  have l0 := specCellFold_lt []
  have l1 := specCellFold_lt [element_hash 0]
  have l2 := specCellFold_lt [element_hash 0, element_hash 1]
  have l3 := specCellFold_lt [element_hash 0, element_hash 1, element_hash 2]
  refine ⟨by omega, by omega, by omega, by omega, ?_, ?_⟩
  · unfold elementFold forLoop LATTICE_MODULUS specCellFold
    rw [finRange_four]
    simp only [List.foldl_cons, List.foldl_nil]
    exact fold_four_spec _ _ _ _ h0 h1 h2 h3
  · rw [elementFold_eq]
    norm_num

/-- C24. If the global matrix is all zero, then for every sponge primitive and every
buffer `CHashLattice256::Finalize` returns the first 32 bytes of
`Sponge(ser(GenerateErrorVector(k[32..63])))` with `k = Sponge(buffer)`; two buffers whose
sponge outputs agree on bytes `32 .. 63` get the same digest, whatever bytes `0 .. 31`
are; and over all buffers the digest takes at most `3^8 = 6561` distinct values. -/
theorem Finalize_zero_matrix_digest (H : List Byte → Stage) (st : LatticeState)
    (hz : st.global_lattice_matrix = fun _ _ => 0) :
    (∀ buffer, CHashLattice256.Finalize H (CHashLattice256.new.Write buffer) st
      = some ((fun k => H (List.ofFn (serializeVector (GenerateErrorVector H
            (fun k => H buffer ⟨32 + k.val, by omega⟩) uninitialized))) ⟨k.val, by omega⟩),
          { keccak := { absorbed := [] }, buffer := buffer }, st)) ∧
    (∀ b1 b2 : List Byte,
      (∀ k : Fin 32, H b1 ⟨32 + k.val, by omega⟩ = H b2 ⟨32 + k.val, by omega⟩) →
      (CHashLattice256.Finalize H (CHashLattice256.new.Write b1) st).map Prod.fst
        = (CHashLattice256.Finalize H (CHashLattice256.new.Write b2) st).map Prod.fst) ∧
    (Set.range (fun buffer : List Byte =>
      (CHashLattice256.Finalize H (CHashLattice256.new.Write buffer) st).map Prod.fst)).ncard
        ≤ 6561 := by
  refine ⟨Finalize_zero_matrix H st hz, fun b1 b2 h => ?_, ?_⟩
  · rw [Finalize_zero_matrix H st hz, Finalize_zero_matrix H st hz]
    have e : (fun k : Fin 32 => H b1 ⟨32 + k.val, by omega⟩)
        = fun k : Fin 32 => H b2 ⟨32 + k.val, by omega⟩ := funext h
    simp only [Option.map_some', e]
  · rw [← card_ternary_vectors]
    refine ncard_range_le_card _ (fun t : Fin 8 → Fin 3 =>
      some (fun k : Fin 32 => H (List.ofFn (serializeVector
        (fun i => ModularReduce (((t i).val : Int) - 1)))) ⟨k.val, by omega⟩)) (fun buffer => ?_)
    refine ⟨fun i => ⟨(H (List.ofFn (fun k : Fin 32 => H buffer ⟨32 + k.val, by omega⟩))
      ⟨i.val % 64, Nat.mod_lt _ (by decide)⟩).val % 3, Nat.mod_lt _ (by decide)⟩, ?_⟩
    show (CHashLattice256.Finalize H (CHashLattice256.new.Write buffer) st).map Prod.fst = _
    rw [Finalize_zero_matrix H st hz, GenerateErrorVector_eq]
    rfl

/-- Witness for C24: the sponge stub `thirdByteSponge` and the globals at process start,
whose matrix is all zero. -/
theorem Finalize_zero_matrix_digest_witness :
    (∀ buffer, CHashLattice256.Finalize thirdByteSponge (CHashLattice256.new.Write buffer)
        freshState
      = some ((fun k => thirdByteSponge (List.ofFn (serializeVector
            (GenerateErrorVector thirdByteSponge
              (fun k => thirdByteSponge buffer ⟨32 + k.val, by omega⟩) uninitialized)))
            ⟨k.val, by omega⟩),
          { keccak := { absorbed := [] }, buffer := buffer }, freshState)) ∧
    (∀ b1 b2 : List Byte,
      (∀ k : Fin 32, thirdByteSponge b1 ⟨32 + k.val, by omega⟩
        = thirdByteSponge b2 ⟨32 + k.val, by omega⟩) →
      (CHashLattice256.Finalize thirdByteSponge (CHashLattice256.new.Write b1)
          freshState).map Prod.fst
        = (CHashLattice256.Finalize thirdByteSponge (CHashLattice256.new.Write b2)
          freshState).map Prod.fst) ∧
    (Set.range (fun buffer : List Byte =>
      (CHashLattice256.Finalize thirdByteSponge (CHashLattice256.new.Write buffer)
        freshState).map Prod.fst)).ncard ≤ 6561 :=
  Finalize_zero_matrix_digest thirdByteSponge freshState rfl

/-- C25. For every sponge primitive, input, previous block hash, hasher object and global
matrix (of `uint32_t` values): in each of the 4 rounds of `HashLatticePOW`, and in
`CHashLattice256::Finalize`, the 32-byte block absorbed by the sponge has bytes `4i` and
`4i+1` equal to zero for every `i`, each mixed element being below 3329, and decoding the
block as 8 big-endian 32-bit words gives back the mixed vector; every such block lies in
`reducedBlocks`, a set of at most `3329^8` blocks. -/
theorem sponge_block_encodes_mixed_vector (H : List Byte → Stage) (input : List Byte)
    (PrevBlockHash : uint256) (st : LatticeState) (c : CHashLattice256)
    (hM : matrixIsUInt32 st.global_lattice_matrix) :
    (∃ hash_stages st',
      HashLatticePOW_stages H input PrevBlockHash st = some (hash_stages, st') ∧
      ∀ round : Fin 4, ∃ locals,
        latticeRound H st'.global_lattice_matrix (hash_stages round.castSucc) = some locals ∧
        hash_stages round.succ = H (List.ofFn locals.lattice_bytes) ∧
        locals.lattice_bytes ∈ reducedBlocks ∧
        ∀ i : Fin 8, locals.result_vector i < 3329 ∧
          locals.lattice_bytes ⟨4 * i.val, by omega⟩ = 0 ∧
          locals.lattice_bytes ⟨4 * i.val + 1, by omega⟩ = 0 ∧
          specDecode locals.lattice_bytes i = locals.result_vector i) ∧
    (∃ l, CHashLattice256.Finalize_locals H c st = some l ∧
      l.final_result = H (List.ofFn l.final_bytes) ∧
      CHashLattice256.Finalize H c st
        = some ((fun k : Fin 32 => l.final_result ⟨k.val, by omega⟩),
            { c with keccak := { absorbed := [] } }, st) ∧
      l.final_bytes ∈ reducedBlocks ∧
      ∀ i : Fin 8, l.result_vector i < 3329 ∧
        l.final_bytes ⟨4 * i.val, by omega⟩ = 0 ∧
        l.final_bytes ⟨4 * i.val + 1, by omega⟩ = 0 ∧
        specDecode l.final_bytes i = l.result_vector i) ∧
    reducedBlocks.ncard ≤ 3329 ^ 8 := by
  refine ⟨?_, ?_, reducedBlocks_ncard⟩
  · obtain ⟨hs, hits, e, hP⟩ := HashLatticePOW_stages_eq H input PrevBlockHash st hM
    have hM' := InitializeLatticeMatrix_uint32 H PrevBlockHash st hM
    refine ⟨hs, _, e, fun round => ?_⟩
    refine ⟨_, latticeRound_eq H _ hM' (hs round.castSucc), ?_,
      serializeVector_mem _ (specMixed_lt H _ _), fun i => ?_⟩
    · have h1 := hP round.succ
      have h2 := hP round.castSucc
      rw [h1, h2]
      show specStage H _ input (round.val + 1) = _
      rw [serializeVector_spec]
      rfl
    · exact ⟨specMixed_lt H _ _ i, serializeVector_block _ (specMixed_lt H _ _) i⟩
  · refine ⟨_, Finalize_locals_eq H c st hM, ?_, ?_, serializeVector_mem _ (specMixed_lt H _ _),
      fun i => ⟨specMixed_lt H _ _ i, serializeVector_block _ (specMixed_lt H _ _) i⟩⟩
    · show H (specSer _) = H (List.ofFn (serializeVector _))
      rw [serializeVector_spec]
    · rw [Finalize_of_locals, Finalize_locals_eq H c st hM]
      rfl

/-- Witness for C25: the sponge stub `thirdByteSponge`, the input `[7]`, the zero seed, the
globals at process start, a hasher that buffered `[1, 2]`. -/
theorem sponge_block_encodes_mixed_vector_witness :
    (∃ hash_stages st',
      HashLatticePOW_stages thirdByteSponge [7] zeroSeed freshState
        = some (hash_stages, st') ∧
      ∀ round : Fin 4, ∃ locals,
        latticeRound thirdByteSponge st'.global_lattice_matrix (hash_stages round.castSucc)
          = some locals ∧
        hash_stages round.succ = thirdByteSponge (List.ofFn locals.lattice_bytes) ∧
        locals.lattice_bytes ∈ reducedBlocks ∧
        ∀ i : Fin 8, locals.result_vector i < 3329 ∧
          locals.lattice_bytes ⟨4 * i.val, by omega⟩ = 0 ∧
          locals.lattice_bytes ⟨4 * i.val + 1, by omega⟩ = 0 ∧
          specDecode locals.lattice_bytes i = locals.result_vector i) ∧
    (∃ l, CHashLattice256.Finalize_locals thirdByteSponge (CHashLattice256.new.Write [1, 2])
        freshState = some l ∧
      l.final_result = thirdByteSponge (List.ofFn l.final_bytes) ∧
      CHashLattice256.Finalize thirdByteSponge (CHashLattice256.new.Write [1, 2]) freshState
        = some ((fun k : Fin 32 => l.final_result ⟨k.val, by omega⟩),
            { CHashLattice256.new.Write [1, 2] with keccak := { absorbed := [] } },
            freshState) ∧
      l.final_bytes ∈ reducedBlocks ∧
      ∀ i : Fin 8, l.result_vector i < 3329 ∧
        l.final_bytes ⟨4 * i.val, by omega⟩ = 0 ∧
        l.final_bytes ⟨4 * i.val + 1, by omega⟩ = 0 ∧
        specDecode l.final_bytes i = l.result_vector i) ∧
    reducedBlocks.ncard ≤ 3329 ^ 8 :=
  sponge_block_encodes_mixed_vector thirdByteSponge [7] zeroSeed freshState
    (CHashLattice256.new.Write [1, 2]) (fun _ _ => Nat.succ_pos _)

/-- C26. For all `a` and `b` with every element in `[0, 3329)` and whatever the output
arrays hold on entry, `PolynomialMultiply(a, b)` and `PolynomialMultiply(b, a)` both
return, with the same result array. -/
theorem PolynomialMultiply_commutative (a b r1 r2 : LatticeVector)
    (ha : ∀ i, a i < 3329) (hb : ∀ j, b j < 3329) :
    ∃ r, PolynomialMultiply a b r1 = some r ∧ PolynomialMultiply b a r2 = some r := by
  obtain ⟨r, hr, hP⟩ := PolynomialMultiply_eq a b r1 ha hb
  obtain ⟨s, hs, hQ⟩ := PolynomialMultiply_eq b a r2 hb ha
  have e : s = r := by
    funext k
    have h1 := hP k
    have h2 := hQ k
    rw [specPolyCoeff_comm b a k] at h2
    omega
  exact ⟨r, hr, e ▸ hs⟩

set_option maxRecDepth 100000 in
/-- Witness for C26: `X^7 * X` and `X * X^7` both give `(3328, 0, 0, 0, 0, 0, 0, 0)`. -/
theorem PolynomialMultiply_commutative_witness :
    (∃ r, PolynomialMultiply (monomial 7) (monomial 1) uninitialized = some r ∧
      PolynomialMultiply (monomial 1) (monomial 7) uninitialized = some r) ∧
    (PolynomialMultiply (monomial 1) (monomial 7) uninitialized).map List.ofFn
      = some [3328, 0, 0, 0, 0, 0, 0, 0] :=
  ⟨PolynomialMultiply_commutative (monomial 7) (monomial 1) uninitialized uninitialized
    (monomial_lt 7) (monomial_lt 1), by decide⟩

/-- C27. For every matrix and all vectors `u`, `v` with elements in `[0, 3329)`:
`LatticeMatrixMultiply` returns on `u`, on `v` and on `w` with
`w[i] = ModularReduce(u[i] + v[i])` (the sum taken in `uint32_t`), and the result on `w`
equals, element by element, `ModularReduce` of the `uint32_t` sum of the results on `u`
and on `v`; the zero vector is mapped to the zero vector. -/
theorem LatticeMatrixMultiply_linear (M : LatticeMatrix) (u v r0 : LatticeVector)
    (hM : ∀ i j, M i j < 3329) (hu : ∀ j, u j < 3329) (hv : ∀ j, v j < 3329) :
    ∃ ru rv rs, LatticeMatrixMultiply u M r0 = some ru ∧
      LatticeMatrixMultiply v M r0 = some rv ∧
      LatticeMatrixMultiply (fun i => ModularReduce (((u i + v i) % 4294967296 : Nat) : Int))
        M r0 = some rs ∧
      (∀ i, rs i = ModularReduce (((ru i + rv i) % 4294967296 : Nat) : Int)) ∧
      LatticeMatrixMultiply (fun _ => 0) M r0 = some (fun _ => 0) := by
  have hM' : ∀ i j, M i j < 4294967296 := fun i j => by have := hM i j; omega
  have hw : ∀ i, ModularReduce (((u i + v i) % 4294967296 : Nat) : Int)
      = (u i + v i) % 3329 := by
    intro i
    have h1 := hu i
    have h2 := hv i
    rw [Nat.mod_eq_of_lt (show u i + v i < 4294967296 by omega), ModularReduce_natCast]
  have hwlt : ∀ i, ModularReduce (((u i + v i) % 4294967296 : Nat) : Int) < 3329 :=
    fun i => by rw [hw]; exact Nat.mod_lt _ (by decide)
  refine ⟨_, _, _, LatticeMatrixMultiply_eq u M r0 hu hM',
    LatticeMatrixMultiply_eq v M r0 hv hM', LatticeMatrixMultiply_eq _ M r0 hwlt hM',
    fun i => ?_, ?_⟩
  · have h1 : (∑ j, u j * M i j) % 3329 < 3329 := Nat.mod_lt _ (by decide)
    have h2 : (∑ j, v j * M i j) % 3329 < 3329 := Nat.mod_lt _ (by decide)
    show (∑ j, ModularReduce (((u j + v j) % 4294967296 : Nat) : Int) * M i j) % 3329 = _
    rw [Nat.mod_eq_of_lt (show (∑ j, u j * M i j) % 3329 + (∑ j, v j * M i j) % 3329
      < 4294967296 by omega), ModularReduce_natCast]
    simp only [hw]
    exact sum_mod_linear u v (M i)
  · rw [LatticeMatrixMultiply_eq (fun _ => 0) M r0 (fun _ => by norm_num) hM']
    simp

/-- Witness for C27: every matrix element is `3328`, `u` is constantly `3328`, `v` is
constantly `1`, so that `u + v` wraps to the zero vector modulo 3329. -/
theorem LatticeMatrixMultiply_linear_witness :
    ∃ ru rv rs, LatticeMatrixMultiply (fun _ => 3328) (fun _ _ => 3328) uninitialized
        = some ru ∧
      LatticeMatrixMultiply (fun _ => 1) (fun _ _ => 3328) uninitialized = some rv ∧
      LatticeMatrixMultiply
        (fun _ => ModularReduce (((3328 + 1) % 4294967296 : Nat) : Int))
        (fun _ _ => 3328) uninitialized = some rs ∧
      (∀ i, rs i = ModularReduce (((ru i + rv i) % 4294967296 : Nat) : Int)) ∧
      LatticeMatrixMultiply (fun _ => 0) (fun _ _ => 3328) uninitialized
        = some (fun _ => 0) :=
  LatticeMatrixMultiply_linear (fun _ _ => 3328) (fun _ => 3328) (fun _ => 1) uninitialized
    (fun _ _ => Nat.lt_succ_self _) (fun _ => Nat.lt_succ_self _) (fun _ => by norm_num)

/-- C28. For all keys `k0`, `k1` and every 256-bit `val`, the streaming hasher
`CSipHasher(k0, k1).Write(the 32 bytes of val)` returns, and its `Finalize()` equals
`SipHashUint256(k0, k1, val)`, where `val.GetUint64(n)` is the little-endian 64-bit word
of bytes `8n .. 8n+7`. -/
theorem SipHashUint256_agrees_with_CSipHasher (k0 k1 : Nat) (val : uint256) :
    ((CSipHasher.new k0 k1).Write_bytes (List.ofFn val)).map CSipHasher.Finalize
      = some (SipHashUint256 k0 k1 val) := by
  rw [Write_bytes_uint256, Option.map_some']
  unfold CSipHasher.Finalize SipHashUint256
  simp only [load_store, length_word_32, first_word]
  rfl

/-- C29. For all keys `k0`, `k1`, every 256-bit `val` and every 32-bit `extra`, the
streaming hasher `CSipHasher(k0, k1).Write(the 32 bytes of val).Write(the 4 little-endian
bytes of extra)` returns, and its `Finalize()` equals
`SipHashUint256Extra(k0, k1, val, extra)`. -/
theorem SipHashUint256Extra_agrees_with_CSipHasher (k0 k1 : Nat) (val : uint256)
    (extra : Nat) (hextra : extra < 4294967296) :
    (((CSipHasher.new k0 k1).Write_bytes (List.ofFn val)).bind
        (fun h => h.Write_bytes (leBytes 4 extra))).map CSipHasher.Finalize
      = some (SipHashUint256Extra k0 k1 val extra) := by
  rw [Write_bytes_uint256, Option.some_bind, Write_bytes_eq, leBytes_four]
  simp only [load_store]
  have c : ((32 : Int)) = ((32 : Nat) : Int) := rfl
  rw [c]
  have e0 := fun s t => writeStep_mid s t 32 0 (toUInt8 (extra / 256 ^ 0)) (by decide)
    (by decide) (by decide)
  have e1 := fun s t => writeStep_mid s t 33 1 (toUInt8 (extra / 256 ^ 1)) (by decide)
    (by decide) (by decide)
  have e2 := fun s t => writeStep_mid s t 34 2 (toUInt8 (extra / 256 ^ 2)) (by decide)
    (by decide) (by decide)
  have e3 := fun s t => writeStep_mid s t 35 3 (toUInt8 (extra / 256 ^ 3)) (by decide)
    (by decide) (by decide)
  simp only [List.foldlM_cons, List.foldlM_nil, e0, e1, e2, e3, Option.bind_eq_bind,
    Option.some_bind, Option.pure_def, Option.map_some', le_word_four extra hextra]
  unfold CSipHasher.Finalize SipHashUint256Extra
  simp only [load_store, first_word]
  have ht : extra ||| (toUInt64 ((36 : Nat) : Int) <<< 56) % 18446744073709551616
      = (36 <<< 56) % 18446744073709551616 ||| extra := by
    rw [Nat.lor_comm]
    exact congrArg (fun z => z ||| extra) length_word_36
  simp only [ht]

/-- Witness for C29: the reference keys, the value whose byte `k` is `k`, and
`extra = 0x23222120`. -/
theorem SipHashUint256Extra_agrees_with_CSipHasher_witness :
    589439264 < 4294967296 ∧
    (((CSipHasher.new referenceKey0 referenceKey1).Write_bytes (List.ofFn countingVal)).bind
        (fun h => h.Write_bytes (leBytes 4 589439264))).map CSipHasher.Finalize
      = some (SipHashUint256Extra referenceKey0 referenceKey1 countingVal 589439264) :=
  ⟨by decide, SipHashUint256Extra_agrees_with_CSipHasher referenceKey0 referenceKey1
    countingVal 589439264 (by decide)⟩

/-- C30. For every state `h` of a `CSipHasher` object (the class invariant `valid`, which
the constructor establishes and both `Write` overloads keep, the members being private)
with `count % 8 == 0` and every 64-bit `d`: `Write(d)` and `Write` of the 8 little-endian
bytes of `d` have the same outcome, and when `count + 8` fits an `int` that outcome is the
state with `v` after the block `d`, `tmp` unchanged and `count + 8`.  For every state `g`
and all byte sequences `x`, `y`: `Write(x)` followed by `Write(y)` has the same outcome as
`Write(x ++ y)`, and `Write(x)` returns whenever `count` is non-negative and
`count + |x|` fits an `int`. -/
theorem CSipHasher_Write_overloads_agree (h : CSipHasher) (d : Nat) (hv : h.valid)
    (hc : Int.tmod h.count 8 = 0) (hd : d < 18446744073709551616) :
    h.Write d = h.Write_bytes (leBytes 8 d) ∧
    (h.count + 8 ≤ INT_MAX →
      h.Write d = some { v := (sipWord h.load d).store, tmp := h.tmp,
                         count := h.count + 8 }) ∧
    (∀ (g : CSipHasher) (x y : List Byte),
      (g.Write_bytes x).bind (fun g' => g'.Write_bytes y) = g.Write_bytes (x ++ y)) ∧
    (∀ (g : CSipHasher) (x : List Byte), 0 ≤ g.count →
      g.count + (x.length : Int) ≤ INT_MAX → ∃ g', g.Write_bytes x = some g') ∧
    (∀ k0 k1 : Nat, (CSipHasher.new k0 k1).valid) ∧
    (∀ (g g' : CSipHasher) (x : List Byte), g.valid → g.Write_bytes x = some g' → g'.valid) ∧
    (∀ (g g' : CSipHasher) (w : Nat), g.valid → g.Write w = some g' → g'.valid) := by
  refine ⟨Write_eq_Write_bytes h d hv hc hd, fun hle => ?_, Write_bytes_append,
    Write_bytes_returns, valid_new, fun g g' x hg hw => valid_Write_bytes g g' x hg hw,
    fun g g' w hg hw => valid_Write g g' w hg hw⟩
  obtain ⟨m, hm, _, _⟩ := valid_natCast h hv
  have h8 : m % 8 = 0 := by
    rw [hm, tmod_eight_natCast] at hc
    omega
  unfold INT_MAX at hle
  rw [Write_natCast h d m hm h8, if_pos (by omega), hm]
  rfl

/-- Witness for C30: the hasher just constructed from the reference keys and
`d = 0x0706050403020100`. -/
theorem CSipHasher_Write_overloads_agree_witness :
    (CSipHasher.new referenceKey0 referenceKey1).Write 506097522914230528
      = (CSipHasher.new referenceKey0 referenceKey1).Write_bytes
          (leBytes 8 506097522914230528) ∧
    ((CSipHasher.new referenceKey0 referenceKey1).count + 8 ≤ INT_MAX →
      (CSipHasher.new referenceKey0 referenceKey1).Write 506097522914230528
        = some { v := (sipWord (CSipHasher.new referenceKey0 referenceKey1).load
                        506097522914230528).store,
                 tmp := (CSipHasher.new referenceKey0 referenceKey1).tmp,
                 count := (CSipHasher.new referenceKey0 referenceKey1).count + 8 }) ∧
    (∀ (g : CSipHasher) (x y : List Byte),
      (g.Write_bytes x).bind (fun g' => g'.Write_bytes y) = g.Write_bytes (x ++ y)) ∧
    (∀ (g : CSipHasher) (x : List Byte), 0 ≤ g.count →
      g.count + (x.length : Int) ≤ INT_MAX → ∃ g', g.Write_bytes x = some g') ∧
    (∀ k0 k1 : Nat, (CSipHasher.new k0 k1).valid) ∧
    (∀ (g g' : CSipHasher) (x : List Byte), g.valid → g.Write_bytes x = some g' → g'.valid) ∧
    (∀ (g g' : CSipHasher) (w : Nat), g.valid → g.Write w = some g' → g'.valid) :=
  CSipHasher_Write_overloads_agree (CSipHasher.new referenceKey0 referenceKey1)
    506097522914230528 (valid_new referenceKey0 referenceKey1) rfl (by decide)

end LatticePoW
